import Mathlib

/-!
# ReadLabel: the analysis pipeline

A shallow embedding of the ingredient risk database
(`src/services/database/ingredientDatabase.js`), the usage quota tracker
(`src/services/api/rateLimiting.js`) and the AI analysis client
(`src/services/ai/geminiService.js`), followed by the properties proved about them.

JavaScript strings are lists of UTF-16 code units, so that `length`, `.` and the
character classes of the regular expressions mean what they mean in the source.
-/

namespace ReadLabel

/-! ## Strings -/

/-- A JavaScript string: the list of its UTF-16 code units. -/
abbrev JSString := List Nat

/-- The code units of a literal whose characters all lie in the Basic Multilingual Plane. -/
def js (s : String) : JSString := s.toList.map Char.toNat

/-- The line terminators of ECMAScript: LF, CR, LS, PS. -/
def isLineTerminator (c : Nat) : Bool :=
  c == 10 || c == 13 || c == 0x2028 || c == 0x2029

/-- The class `\s`: ECMAScript white space and line terminators. This is also the set
that `String.prototype.trim` strips. -/
def isSpace (c : Nat) : Bool :=
  c == 9 || c == 11 || c == 12 || c == 32 || c == 160 || c == 0x1680 ||
  (0x2000 ≤ c && c ≤ 0x200A) || c == 0x202F || c == 0x205F || c == 0x3000 ||
  c == 0xFEFF || isLineTerminator c

/-- The class `\d`. -/
def isDigit (c : Nat) : Bool := 48 ≤ c && c ≤ 57

/-- The class `\w`: ASCII letters, digits and the underscore. -/
def isWord (c : Nat) : Bool :=
  (97 ≤ c && c ≤ 122) || (65 ≤ c && c ≤ 90) || isDigit c || c == 95

/-- The atom `.` without the `s` flag: any code unit but a line terminator. -/
def isDot (c : Nat) : Bool := !isLineTerminator c

/-- ASCII upper-casing of one code unit. -/
def asciiUpper (c : Nat) : Nat := if 97 ≤ c && c ≤ 122 then c - 32 else c

/-- A literal character of a pattern under the `i` flag (no `u` flag). The pattern
characters of this program are all ASCII, and canonicalisation never maps a code unit
of 128 or more to one below 128, so the comparison is ASCII case folding. -/
def ciEq (p c : Nat) : Bool := asciiUpper p == asciiUpper c

/-- Lower-casing of one code unit, as far as `String.prototype.toLowerCase` can produce
an ASCII code unit: ASCII capitals, the Kelvin sign (to `k`) and the dotted capital I
(to `i` followed by the combining dot). Any other code unit is kept; JavaScript may map
it to another code unit that is neither ASCII nor white space. -/
def lowerUnit (c : Nat) : JSString :=
  if 65 ≤ c && c ≤ 90 then [c + 32]
  else if c == 0x212A then [107]
  else if c == 0x0130 then [105, 0x0307]
  else [c]

/-- The method `String.prototype.toLowerCase`. -/
def toLowerCase (s : JSString) : JSString := s.flatMap lowerUnit

/-- The method `String.prototype.trim`. -/
def trim (s : JSString) : JSString :=
  ((s.dropWhile isSpace).reverse.dropWhile isSpace).reverse

/-- The method `String.prototype.split` for a separator that is a one-character class. -/
def splitBy (p : Nat → Bool) : JSString → List JSString
  | [] => [[]]
  | x :: xs =>
    if p x then [] :: splitBy p xs
    else match splitBy p xs with
      | [] => [[x]]
      | h :: t => (x :: h) :: t

/-! ## Regular expressions

A backtracking matcher with the priorities of ECMAScript: alternatives left to right,
greedy quantifiers longest first, lazy quantifiers shortest first, and an iteration of
a quantifier that consumes nothing is rejected. -/

/-- The fragment of the pattern language that the program uses. -/
inductive Regex where
  | cls (p : Nat → Bool)
  | eps
  | eoi
  | seq (a b : Regex)
  | alt (a b : Regex)
  | star (a : Regex)
  | lazyStar (a : Regex)
  | group (i : Nat) (a : Regex)

/-- Captured groups, most recent first. -/
abbrev Caps := List (Nat × JSString)

/-- The rest of a match: what to do with the remaining input and the captures. -/
abbrev Cont (α : Type) := JSString → Caps → Option α

/-- The iterations of a quantifier `*` or `*?`; the counter bounds the number of
iterations, each of which must consume input. -/
def starLoop {α : Type} (greedy : Bool) (step : JSString → Caps → Cont α → Option α) :
    Nat → JSString → Caps → Cont α → Option α
  | 0, s, c, k => k s c
  | n + 1, s, c, k =>
    if greedy then
      match step s c (fun s2 c2 => if s2.length < s.length then starLoop greedy step n s2 c2 k else none) with
      | some r => some r
      | none => k s c
    else
      match k s c with
      | some r => some r
      | none => step s c (fun s2 c2 => if s2.length < s.length then starLoop greedy step n s2 c2 k else none)

/-- Match a pattern at the start of the input, then continue with `k`. -/
def Regex.run {α : Type} : Regex → JSString → Caps → Cont α → Option α
  | .cls p, s, c, k =>
    match s with
    | [] => none
    | x :: xs => if p x then k xs c else none
  | .eps, s, c, k => k s c
  | .eoi, s, c, k =>
    match s with
    | [] => k [] c
    | _ :: _ => none
  | .seq a b, s, c, k => a.run s c (fun s2 c2 => b.run s2 c2 k)
  | .alt a b, s, c, k =>
    match a.run s c k with
    | some r => some r
    | none => b.run s c k
  | .star a, s, c, k => starLoop true (fun s1 c1 k1 => a.run s1 c1 k1) s.length s c k
  | .lazyStar a, s, c, k => starLoop false (fun s1 c1 k1 => a.run s1 c1 k1) s.length s c k
  | .group i a, s, c, k =>
    a.run s c (fun s2 c2 => k s2 ((i, s.take (s.length - s2.length)) :: c2))

/-- The concatenation of a list of patterns. -/
def Regex.cat : List Regex → Regex
  | [] => .eps
  | [r] => r
  | r :: rs => .seq r (Regex.cat rs)

/-- The alternation of a non-empty list of patterns, left to right. -/
def Regex.anyOf : List Regex → Regex
  | [] => .cls (fun _ => false)
  | [r] => r
  | r :: rs => .alt r (Regex.anyOf rs)

/-- A literal under the `i` flag. -/
def Regex.lit (s : String) : Regex := Regex.cat ((js s).map (fun p => Regex.cls (ciEq p)))

/-- A literal without the `i` flag. -/
def Regex.exact (s : String) : Regex := Regex.cat ((js s).map (fun p => Regex.cls (fun c => c == p)))

/-- The quantifier `+`. -/
def Regex.plus (a : Regex) : Regex := .seq a (.star a)

/-- The quantifier `?`. -/
def Regex.opt (a : Regex) : Regex := .alt a .eps

/-- The result of `RegExp.prototype.exec`: the text before the match, the match, the
text after it and the captures. -/
structure MatchResult where
  before : JSString
  matched : JSString
  after : JSString
  caps : Caps

/-- Capture group `i` of a match; `none` when the group did not take part. -/
def MatchResult.capture (m : MatchResult) (i : Nat) : Option JSString := m.caps.lookup i

/-- A match that starts exactly at the start of the input. -/
def Regex.matchHere (r : Regex) (s : JSString) : Option MatchResult :=
  r.run s [] (fun s2 c => some ⟨[], s.take (s.length - s2.length), s2, c⟩)

/-- The leftmost match, as `String.prototype.match` without the `g` flag finds it. -/
def Regex.exec (r : Regex) : JSString → Option MatchResult
  | [] => r.matchHere []
  | x :: xs =>
    match r.matchHere (x :: xs) with
    | some m => some m
    | none => (Regex.exec r xs).map (fun m => { m with before := x :: m.before })

/-- The method `RegExp.prototype.test`. -/
def Regex.test (r : Regex) (s : JSString) : Bool := (r.exec s).isSome

/-- The loop of `String.prototype.replace` with a `g` pattern and a constant
replacement; the counter bounds the number of positions visited. -/
def replaceLoop (r : Regex) (repl : JSString) : Nat → JSString → JSString
  | 0, s => s
  | n + 1, s =>
    match r.matchHere s with
    | some m =>
      if m.after.length < s.length then repl ++ replaceLoop r repl n m.after
      else match s with
        | [] => repl
        | x :: xs => repl ++ x :: replaceLoop r repl n xs
    | none =>
      match s with
      | [] => []
      | x :: xs => x :: replaceLoop r repl n xs

/-- The call `s.replace(r, repl)` for a pattern with the `g` flag. -/
def replaceAll (r : Regex) (repl : JSString) (s : JSString) : JSString :=
  replaceLoop r repl (s.length + 1) s

/-- The loop of `String.prototype.matchAll`. -/
def matchAllLoop (r : Regex) : Nat → JSString → List MatchResult
  | 0, _ => []
  | n + 1, s =>
    match r.matchHere s with
    | some m =>
      if m.after.length < s.length then m :: matchAllLoop r n m.after
      else match s with
        | [] => [m]
        | _ :: xs => m :: matchAllLoop r n xs
    | none =>
      match s with
      | [] => []
      | _ :: xs => matchAllLoop r n xs

/-- The call `s.matchAll(r)` for a pattern with the `g` flag; only the captures of the
matches are used by the program. -/
def matchAll (r : Regex) (s : JSString) : List MatchResult :=
  matchAllLoop r (s.length + 1) s

/-! ## Ingredient risk database (`ingredientDatabase.js`) -/

/-- The three risk categories of the data model. -/
inductive RiskCategory where
  | safe
  | moderate
  | highConcern
  deriving DecidableEq, Repr

/-- The category as the string the program handles. -/
def RiskCategory.toJS : RiskCategory → JSString
  | .safe => js "safe"
  | .moderate => js "moderate"
  | .highConcern => js "highConcern"

/-- Modelled from the spec: the bundled dataset `src/data/ingredientDatabase.json` is not
part of the sources. One of its records is an IngredientRecord of the data model: a risk
category among the three, a description, an optional warning and optional alternatives.
A field that the record does not carry is `none` (or the empty list). -/
structure IngredientRecord where
  category : Option RiskCategory
  description : Option JSString
  warning : Option JSString
  alternatives : List JSString

/-- Modelled from the spec: the table `database.ingredients`, from normalized name to
record. The table installed when the dataset fails to load is `[]`. -/
abbrev IngredientTable := List (JSString × IngredientRecord)

/-- The record that a property read finds on the prototype of the table object: an
object without any of the four fields. -/
def inheritedRecord : IngredientRecord := ⟨none, none, none, []⟩

/-- The property read `this.database.ingredients[normalizedName]`: the own entry of the
table, otherwise what the key inherits from `Object.prototype`. A normalized name holds
lower-case letters, digits, underscores and spaces only, so the inherited keys it can
hit are `constructor` and `__proto__`. -/
def readEntry (db : IngredientTable) (key : JSString) : Option IngredientRecord :=
  match db.lookup key with
  | some r => some r
  | none => if key = js "constructor" ∨ key = js "__proto__" then some inheritedRecord else none

/-- The operator `||` on a string that may be absent: the empty string is falsy. -/
def orDefault (x : Option JSString) (d : JSString) : JSString :=
  match x with
  | some (c :: cs) => c :: cs
  | _ => d

/-- The expression `info.category || 'safe'`. -/
def categoryOrSafe (r : IngredientRecord) : JSString :=
  match r.category with
  | some c => c.toJS
  | none => js "safe"

/-- The pattern `/\([^)]*\)/g`. -/
def parenPattern : Regex :=
  Regex.cat [Regex.exact "(", .star (.cls (fun c => c != 41)), Regex.exact ")"]

/-- The pattern `/\[[^\]]*\]/g`. -/
def bracketPattern : Regex :=
  Regex.cat [Regex.exact "[", .star (.cls (fun c => c != 93)), Regex.exact "]"]

/-- The pattern `/[^\w\s]/g`. -/
def punctPattern : Regex := .cls (fun c => !(isWord c || isSpace c))

/-- The pattern `/\s+/g`. -/
def spacesPattern : Regex := Regex.plus (.cls isSpace)

/-- The method `normalizeIngredientName`. -/
def normalizeIngredientName (name : JSString) : JSString :=
  trim (replaceAll spacesPattern (js " ")
    (replaceAll punctPattern (js " ")
      (replaceAll bracketPattern []
        (replaceAll parenPattern [] (trim (toLowerCase name))))))

/-- The array `highConcernPatterns` of `findPartialMatch`, in source order. -/
def highConcernPatterns : List Regex :=
  [ Regex.cat [Regex.lit "trans", .star (.cls isSpace), Regex.lit "fat"],
    Regex.cat [Regex.lit "partially", .star (.cls isSpace), Regex.lit "hydrogenated"],
    Regex.cat [Regex.lit "hydrogenated", .star (.cls isDot), Regex.lit "oil"],
    .alt (Regex.lit "e102") (Regex.lit "tartrazine"),
    .alt (Regex.lit "e110") (Regex.lit "sunset yellow"),
    .alt (Regex.lit "e122") (Regex.lit "carmoisine"),
    .alt (Regex.lit "e124") (Regex.lit "ponceau"),
    .alt (Regex.lit "e129") (Regex.lit "allura red"),
    .alt (Regex.lit "e211") (Regex.lit "sodium benzoate"),
    .alt (Regex.lit "e223") (Regex.lit "sodium metabisulfite"),
    .alt (Regex.lit "e320") (Regex.lit "bha"),
    .alt (Regex.lit "e321") (Regex.lit "bht"),
    Regex.lit "aspartame",
    Regex.lit "sodium nitrite",
    Regex.lit "sodium nitrate" ]

/-- The array `moderateConcernPatterns` of `findPartialMatch`, in source order. -/
def moderateConcernPatterns : List Regex :=
  [ Regex.cat [Regex.lit "palm", .star (.cls isSpace), Regex.lit "oil"],
    .alt (Regex.lit "msg") (Regex.lit "monosodium glutamate"),
    Regex.lit "high fructose corn syrup",
    Regex.lit "corn syrup",
    Regex.cat [Regex.lit "artificial", .star (.cls isSpace),
      .group 1 (Regex.anyOf [Regex.lit "color",
        Regex.cat [Regex.lit "flavo", Regex.opt (Regex.lit "u"), Regex.lit "r"],
        Regex.lit "preservative"])],
    Regex.cat [Regex.lit "e", .cls isDigit, .cls isDigit, .cls isDigit, Regex.opt (.cls isDigit)],
    Regex.lit "sodium",
    Regex.lit "potassium sorbate",
    Regex.lit "citric acid",
    Regex.cat [Regex.lit "natural flavo", Regex.opt (Regex.lit "u"), Regex.lit "ring"] ]

/-- A loop `for (const pattern of patterns) if (pattern.test(name)) return result`,
followed by `rest` when no pattern matched. -/
def firstMatch (name : JSString) (result : JSString) : List Regex → JSString → JSString
  | [], rest => rest
  | p :: ps, rest => if p.test name then result else firstMatch name result ps rest

/-- The method `findPartialMatch`. -/
def findPartialMatch (normalizedName : JSString) : JSString :=
  firstMatch normalizedName (js "highConcern") highConcernPatterns
    (firstMatch normalizedName (js "moderate") moderateConcernPatterns (js "safe"))

/-- The method `getIngredientRisk`, for a string argument, on the loaded table. -/
def getIngredientRisk (db : IngredientTable) (ingredientName : JSString) : JSString :=
  if ingredientName = [] then js "safe"
  else
    match readEntry db (normalizeIngredientName ingredientName) with
    | some directMatch => categoryOrSafe directMatch
    | none => findPartialMatch (normalizeIngredientName ingredientName)

/-- The object that `getIngredientInfo` returns. -/
structure IngredientInfo where
  name : JSString
  category : JSString
  description : JSString
  warning : Option JSString
  alternatives : List JSString

/-- The operator `||` with `null` on the right of a string that may be absent. -/
def orNull (x : Option JSString) : Option JSString :=
  match x with
  | some (c :: cs) => some (c :: cs)
  | _ => none

/-- The method `generateFallbackInfo`. -/
def generateFallbackInfo (originalName normalizedName : JSString) : IngredientInfo :=
  let category := findPartialMatch normalizedName
  if category = js "highConcern" then
    ⟨originalName, category,
      js "This ingredient may pose significant health risks and should be consumed with caution.",
      some (js "Consider avoiding products with this ingredient or consuming them rarely."), []⟩
  else if category = js "moderate" then
    ⟨originalName, category,
      js "This ingredient may have some health concerns when consumed regularly.",
      some (js "Consume in moderation as part of a balanced diet."), []⟩
  else
    ⟨originalName, category,
      js "This appears to be a generally safe ingredient based on common food safety guidelines.",
      none, []⟩

/-- The method `getIngredientInfo`, for a string argument, on the loaded table. -/
def getIngredientInfo (db : IngredientTable) (ingredientName : JSString) : IngredientInfo :=
  match readEntry db (normalizeIngredientName ingredientName) with
  | some info =>
    ⟨ingredientName, categoryOrSafe info,
      orDefault info.description (js "No additional information available"),
      orNull info.warning, info.alternatives⟩
  | none => generateFallbackInfo ingredientName (normalizeIngredientName ingredientName)

/-! ## Usage quota tracker (`rateLimiting.js`) -/

/-- The persisted record, schema `{date, requests, timestamps[], lastReset}`. -/
structure UsageData where
  date : JSString
  requests : Int
  timestamps : List Int
  lastReset : Int
  deriving DecidableEq

/-- What the clock shows during one operation: `new Date().toDateString()` and
`Date.now()` in milliseconds. -/
structure Clock where
  today : JSString
  now : Int

/-- The item stored under `storageKey`: `none` when there is no item or its text does
not parse. Writes to the storage succeed. -/
abbrev Storage := Option UsageData

/-- The method `createNewUsageData`. -/
def createNewUsageData (clock : Clock) : UsageData :=
  { date := clock.today, requests := 0, timestamps := [], lastReset := clock.now }

/-- The method `getUsageData`. -/
def getUsageData (stored : Storage) (clock : Clock) : UsageData :=
  match stored with
  | none => createNewUsageData clock
  | some data => if data.date ≠ clock.today then createNewUsageData clock else data

/-- The method `canMakeRequest`. -/
def canMakeRequest (maxDailyRequests : Int) (stored : Storage) (clock : Clock) : Bool :=
  let usage := getUsageData stored clock
  if usage.requests ≥ maxDailyRequests then false
  else
    let oneMinuteAgo := clock.now - 60 * 1000
    let recentRequests := usage.timestamps.filter (fun timestamp => timestamp > oneMinuteAgo)
    if recentRequests.length ≥ 10 then false
    else true

/-- The method `recordRequest`: the record it saves. -/
def recordRequest (stored : Storage) (clock : Clock) : Storage :=
  let usage := getUsageData stored clock
  let oneHourAgo := clock.now - 60 * 60 * 1000
  some { usage with
    requests := usage.requests + 1
    timestamps := (usage.timestamps ++ [clock.now]).filter (fun timestamp => timestamp > oneHourAgo) }

/-- The method `getRemainingRequests`. -/
def getRemainingRequests (maxDailyRequests : Int) (stored : Storage) (clock : Clock) : Int :=
  max 0 (maxDailyRequests - (getUsageData stored clock).requests)

/-- The method `getRequestCount`. -/
def getRequestCount (stored : Storage) (clock : Clock) : Int :=
  (getUsageData stored clock).requests

/-- A run of `recordRequest` calls, one per clock reading, oldest first. -/
def recordAll (stored : Storage) : List Clock → Storage
  | [] => stored
  | c :: cs => recordAll (recordRequest stored c) cs

/-! ## JavaScript values -/

/-- The numbers that the report fields take: the results of `parseInt`, `Math.round`,
`Array.prototype.length`, `Math.min` and `Math.max` are integers, `NaN` or infinite. -/
inductive JSNum where
  | nan
  | negInf
  | posInf
  | int (z : Int)
  deriving DecidableEq

/-- A value of the JSON data model. A number is kept as the literal that denotes it. -/
inductive JSValue where
  | null
  | bool (b : Bool)
  | num (literal : JSString)
  | str (s : JSString)
  | arr (items : List JSValue)
  | obj (fields : List (JSString × JSValue))

/-- The function `Math.min` on two arguments. -/
def JSNum.min : JSNum → JSNum → JSNum
  | .nan, _ => .nan
  | _, .nan => .nan
  | .negInf, _ => .negInf
  | _, .negInf => .negInf
  | .posInf, y => y
  | x, .posInf => x
  | .int a, .int b => .int (Min.min a b)

/-- The function `Math.max` on two arguments. -/
def JSNum.max : JSNum → JSNum → JSNum
  | .nan, _ => .nan
  | _, .nan => .nan
  | .posInf, _ => .posInf
  | _, .posInf => .posInf
  | .negInf, y => y
  | x, .negInf => x
  | .int a, .int b => .int (Max.max a b)

/-- The operator `||` on a number: `NaN` and zero are falsy. -/
def JSNum.orElse (x d : JSNum) : JSNum :=
  match x with
  | .nan => d
  | .int 0 => d
  | _ => x

/-- The comparison `x >= n` of a number with an integer constant. -/
def JSNum.ge (x : JSNum) (n : Int) : Bool :=
  match x with
  | .nan => false
  | .negInf => false
  | .posInf => true
  | .int z => decide (z ≥ n)

/-- A property read `o.key` on a value that is not `null`: the last field of that
name when `o` is an object, `undefined` (here `none`) for the names this program reads
on any other value. -/
def JSValue.get (o : JSValue) (key : String) : Option JSValue :=
  match o with
  | .obj fields => fields.reverse.lookup (js key)
  | _ => none

/-- The test `Array.isArray(x) ? x : []`. -/
def arrayOrEmpty (x : Option JSValue) : List JSValue :=
  match x with
  | some (.arr items) => items
  | _ => []

mutual
/-- The abstract operation ToString raises a TypeError on a parsed value: on an object
with an own `toString` entry, which no parsed value makes callable while `valueOf`, own
or inherited, yields no primitive; and on an array that holds such a value, since
`Array.prototype.join` converts every element but `null`. -/
def toStringRaises : JSValue → Bool
  | .obj fields => fields.any (fun p => p.1 == js "toString")
  | .arr items => anyToStringRaises items
  | _ => false
/-- ToString raises on an element of the list. -/
def anyToStringRaises : List JSValue → Bool
  | [] => false
  | v :: vs => toStringRaises v || anyToStringRaises vs
end

/-! ## The built-in `JSON.parse` -/

/-- JSON white space: space, tab, line feed, carriage return. -/
def isJsonWs (c : Nat) : Bool := c == 32 || c == 9 || c == 10 || c == 13

/-- Skip JSON white space. -/
def skipWs (s : JSString) : JSString := s.dropWhile isJsonWs

/-- The value of a hexadecimal digit. -/
def hexVal (c : Nat) : Option Nat :=
  if 48 ≤ c && c ≤ 57 then some (c - 48)
  else if 97 ≤ c && c ≤ 102 then some (c - 87)
  else if 65 ≤ c && c ≤ 70 then some (c - 55)
  else none

/-- The code unit that a one-character escape stands for. -/
def unescape (e : Nat) : Option Nat :=
  if e == 34 then some 34
  else if e == 92 then some 92
  else if e == 47 then some 47
  else if e == 98 then some 8
  else if e == 102 then some 12
  else if e == 110 then some 10
  else if e == 114 then some 13
  else if e == 116 then some 9
  else none

/-- A JSON string after its opening quote: the decoded string and the text after the
closing quote. -/
def parseStringBody : JSString → Option (JSString × JSString)
  | [] => none
  | c :: rest =>
    if c == 34 then some ([], rest)
    else if c == 92 then
      match rest with
      | [] => none
      | e :: rest2 =>
        if e == 117 then
          match rest2 with
          | a :: b :: c2 :: d :: rest3 =>
            match hexVal a, hexVal b, hexVal c2, hexVal d with
            | some x, some y, some z, some w =>
              (parseStringBody rest3).map (fun r => ((x * 4096 + y * 256 + z * 16 + w) :: r.1, r.2))
            | _, _, _, _ => none
          | _ => none
        else
          match unescape e with
          | some u => (parseStringBody rest2).map (fun r => (u :: r.1, r.2))
          | none => none
    else if c < 32 then none
    else (parseStringBody rest).map (fun r => (c :: r.1, r.2))

/-- A non-empty run of digits and the text after it. -/
def parseDigits (s : JSString) : Option (JSString × JSString) :=
  match s.span isDigit with
  | ([], _) => none
  | (ds, rest) => some (ds, rest)

/-- A JSON number: the literal and the text after it. -/
def parseNumber (s : JSString) : Option (JSString × JSString) :=
  let signed : JSString × JSString :=
    match s with
    | c :: r => if c == 45 then ([45], r) else ([], s)
    | [] => ([], [])
  let intPart : Option (JSString × JSString) :=
    match signed.2 with
    | c :: r => if c == 48 then some ([48], r) else parseDigits (c :: r)
    | [] => none
  match intPart with
  | none => none
  | some (ds, r1) =>
    let frac : Option (JSString × JSString) :=
      match r1 with
      | c :: r => if c == 46 then (parseDigits r).map (fun p => (46 :: p.1, p.2)) else some ([], r1)
      | [] => some ([], [])
    match frac with
    | none => none
    | some (fs, r2) =>
      let expo : Option (JSString × JSString) :=
        match r2 with
        | c :: r =>
          if c == 101 || c == 69 then
            match r with
            | g :: r3 =>
              if g == 43 || g == 45 then (parseDigits r3).map (fun p => (c :: g :: p.1, p.2))
              else (parseDigits r).map (fun p => (c :: p.1, p.2))
            | [] => none
          else some ([], r2)
        | [] => some ([], [])
      match expo with
      | none => none
      | some (es, r4) => some (signed.1 ++ ds ++ fs ++ es, r4)

/-- The text after the keyword `w`, when the input starts with it. -/
def stripKeyword (w : String) (s : JSString) : Option JSString :=
  if (js w).isPrefixOf s then some (s.drop (js w).length) else none

mutual
/-- A JSON value at the start of the input (white space already skipped); the counter
bounds the nesting and the number of items visited on one path. -/
def parseValue : Nat → JSString → Option (JSValue × JSString)
  | 0, _ => none
  | n + 1, s =>
    match s with
    | [] => none
    | c :: rest =>
      if c == 123 then
        match skipWs rest with
        | [] => none
        | d :: r => if d == 125 then some (.obj [], r) else (parseMembers n (d :: r)).map (fun p => (.obj p.1, p.2))
      else if c == 91 then
        match skipWs rest with
        | [] => none
        | d :: r => if d == 93 then some (.arr [], r) else (parseElements n (d :: r)).map (fun p => (.arr p.1, p.2))
      else if c == 34 then (parseStringBody rest).map (fun p => (.str p.1, p.2))
      else
        match stripKeyword "null" s, stripKeyword "true" s, stripKeyword "false" s with
        | some r, _, _ => some (.null, r)
        | _, some r, _ => some (.bool true, r)
        | _, _, some r => some (.bool false, r)
        | _, _, _ => (parseNumber s).map (fun p => (.num p.1, p.2))
/-- The elements of an array up to the closing bracket. -/
def parseElements : Nat → JSString → Option (List JSValue × JSString)
  | 0, _ => none
  | n + 1, s =>
    match parseValue n s with
    | none => none
    | some (v, r) =>
      match skipWs r with
      | [] => none
      | c :: r2 =>
        if c == 44 then (parseElements n (skipWs r2)).map (fun p => (v :: p.1, p.2))
        else if c == 93 then some ([v], r2)
        else none
/-- The members of an object up to the closing brace. -/
def parseMembers : Nat → JSString → Option (List (JSString × JSValue) × JSString)
  | 0, _ => none
  | n + 1, s =>
    match s with
    | [] => none
    | q :: r0 =>
      if q == 34 then
        match parseStringBody r0 with
        | none => none
        | some (key, r1) =>
          match skipWs r1 with
          | [] => none
          | c :: r2 =>
            if c == 58 then
              match parseValue n (skipWs r2) with
              | none => none
              | some (v, r3) =>
                match skipWs r3 with
                | [] => none
                | d :: r4 =>
                  if d == 44 then (parseMembers n (skipWs r4)).map (fun p => ((key, v) :: p.1, p.2))
                  else if d == 125 then some ([(key, v)], r4)
                  else none
            else none
      else none
end

/-- The built-in `JSON.parse`; `none` stands for the SyntaxError it throws. -/
def jsonParse (text : JSString) : Option JSValue :=
  match parseValue (2 * text.length + 2) (skipWs text) with
  | some (v, rest) => if skipWs rest = [] then some v else none
  | none => none

/-! ## AI analysis client (`geminiService.js`) -/

/-- An exception with its `message`, when it has one. -/
structure JSError where
  message : Option JSString

/-- The numeric built-ins whose results depend on IEEE 754 arithmetic; they are taken
as given. -/
structure Host where
  /-- The number that `parseInt(x)` reads from a property value, `none` being
  `undefined`, once `x` is converted to a string; it is consulted only when that
  conversion raises nothing. -/
  parseInt : Option JSValue → JSNum
  /-- The call `Math.round(parseFloat(m))` on digits with an optional fraction: a
  natural number, or `none` for `Infinity`. -/
  roundFloat : JSString → Option Nat

/-- The call `parseInt(x)` raises on the property value `x`, `none` being `undefined`:
the conversion of `x` to a string, its first step, raises. -/
def parseIntRaises (x : Option JSValue) : Bool :=
  match x with
  | some v => toStringRaises v
  | none => false

/-- The call `parseInt(x)` on a property value: it converts `x` to a string first, which
can raise a TypeError, and reads the number then. -/
def callParseInt (host : Host) (x : Option JSValue) : Except JSError JSNum :=
  if parseIntRaises x then .error ⟨some (js "Cannot convert object to primitive value")⟩
  else .ok (host.parseInt x)

/-- The object `{ safe, moderate, highConcern }`. -/
structure Categories (α : Type) where
  safe : List α
  moderate : List α
  highConcern : List α

/-- The analysis report. Fields that the AI payload can fill hold arbitrary values. -/
structure Report where
  healthScore : JSNum
  totalIngredients : JSNum
  categories : Categories JSValue
  advice : JSString
  warnings : List JSValue
  details : JSValue
  source : JSString

/-- The class `[:\s]`. -/
def isColonOrSpace (c : Nat) : Bool := c == 58 || isSpace c

/-- The class `[.!?]`. -/
def isSentenceEnd (c : Nat) : Bool := c == 46 || c == 33 || c == 63

/-- The class `[,;]`. -/
def isDelimiter (c : Nat) : Bool := c == 44 || c == 59

/-- The array `patterns` of `extractIngredients`:
`/ingredients[:\s]*(.*?)(?:\.|$|nutritional|contains|allergen)/i` and
`/contains[:\s]*(.*?)(?:\.|$|nutritional|allergen)/i`. -/
def anchorPatterns : List Regex :=
  [ Regex.cat [Regex.lit "ingredients", .star (.cls isColonOrSpace), .group 1 (.lazyStar (.cls isDot)),
      Regex.anyOf [Regex.exact ".", .eoi, Regex.lit "nutritional", Regex.lit "contains",
        Regex.lit "allergen"]],
    Regex.cat [Regex.lit "contains", .star (.cls isColonOrSpace), .group 1 (.lazyStar (.cls isDot)),
      Regex.anyOf [Regex.exact ".", .eoi, Regex.lit "nutritional", Regex.lit "allergen"]] ]

/-- The first loop of `extractIngredients`: the first non-empty capture of an anchor
pattern, otherwise the whole text. -/
def segmentText (text : JSString) : List Regex → JSString
  | [] => text
  | p :: ps =>
    match p.exec text with
    | some m =>
      match m.capture 1 with
      | some (c :: cs) => c :: cs
      | _ => segmentText text ps
    | none => segmentText text ps

/-- The method `extractIngredients`. -/
def extractIngredients (text : JSString) : List JSString :=
  ((((splitBy isDelimiter (segmentText text anchorPatterns)).map trim).filter
    (fun ingredient => decide (ingredient.length > 2))).take 20)

/-- The statement `categories[category].push(ingredient)`: a category that names none of
the three arrays makes it throw a TypeError. -/
def pushCategory (categories : Categories JSString) (category ingredient : JSString) :
    Except JSError (Categories JSString) :=
  if category = js "safe" then .ok { categories with safe := categories.safe ++ [ingredient] }
  else if category = js "moderate" then
    .ok { categories with moderate := categories.moderate ++ [ingredient] }
  else if category = js "highConcern" then
    .ok { categories with highConcern := categories.highConcern ++ [ingredient] }
  else .error ⟨some (js "categories[category].push is not a function")⟩

/-- The loop of `categorizeIngredients`. -/
def categorizeLoop (db : IngredientTable) :
    List JSString → Categories JSString → Except JSError (Categories JSString)
  | [], categories => .ok categories
  | ingredient :: rest, categories =>
    match pushCategory categories (getIngredientRisk db ingredient) ingredient with
    | .ok next => categorizeLoop db rest next
    | .error e => .error e

/-- The method `categorizeIngredients`. -/
def categorizeIngredients (db : IngredientTable) (ingredients : List JSString) :
    Except JSError (Categories JSString) :=
  categorizeLoop db ingredients ⟨[], [], []⟩

/-- The patterns of `extractAdvice`: `/advice[:\s]*([^.!?]*[.!?])/i` and the same after
`recommend` and `consumption`. -/
def advicePatterns : List Regex :=
  ["advice", "recommend", "consumption"].map (fun w =>
    Regex.cat [Regex.lit w, .star (.cls isColonOrSpace),
      .group 1 (.seq (.star (.cls (fun c => !isSentenceEnd c))) (.cls isSentenceEnd))])

/-- The patterns of `extractWarnings`: `/warning[:\s]*([^.!?]*[.!?])/gi` and the same
after `caution` and `avoid`. -/
def warningPatterns : List Regex :=
  ["warning", "caution", "avoid"].map (fun w =>
    Regex.cat [Regex.lit w, .star (.cls isColonOrSpace),
      .group 1 (.seq (.star (.cls (fun c => !isSentenceEnd c))) (.cls isSentenceEnd))])

/-- The loop of `extractAdvice`; `none` is `null`. -/
def adviceLoop (text : JSString) : List Regex → Option JSString
  | [] => none
  | p :: ps =>
    match p.exec text with
    | some m =>
      match m.capture 1 with
      | some (c :: cs) => some (trim (c :: cs))
      | _ => adviceLoop text ps
    | none => adviceLoop text ps

/-- The method `extractAdvice`. -/
def extractAdvice (text : JSString) : Option JSString := adviceLoop text advicePatterns

/-- The method `extractWarnings`. -/
def extractWarnings (text : JSString) : List JSString :=
  warningPatterns.flatMap (fun p =>
    (matchAll p text).filterMap (fun m =>
      match m.capture 1 with
      | some (c :: cs) => some (trim (c :: cs))
      | _ => none))

/-- The method `generateAdviceFromScore`. -/
def generateAdviceFromScore (score : JSNum) : JSString :=
  if score.ge 8 then js "This product appears to be a healthy choice with mostly natural ingredients."
  else if score.ge 6 then js "Consume in moderation. Some ingredients may pose health concerns."
  else js "Consider avoiding this product or finding healthier alternatives."

/-- The assignment `details[key] = value` on an object literal: it replaces the field
or appends it, and under the key `__proto__` it creates no field. -/
def setField (fields : List (JSString × JSValue)) (key : JSString) (value : JSValue) :
    List (JSString × JSValue) :=
  if key = js "__proto__" then fields
  else if fields.any (fun p => decide (p.1 = key)) then
    fields.map (fun p => if p.1 = key then (key, value) else p)
  else fields ++ [(key, value)]

/-- The loop of `getIngredientDetails`. -/
def detailsLoop (db : IngredientTable) :
    List JSString → List (JSString × JSValue) → List (JSString × JSValue)
  | [], details => details
  | ingredient :: rest, details =>
    let info := getIngredientInfo db ingredient
    detailsLoop db rest (setField details ingredient
      (.obj [(js "risk", .str (orDefault (some info.category) (js "moderate"))),
             (js "description",
               .str (orDefault (some info.description) (js "No additional information available")))]))

/-- The method `getIngredientDetails`. -/
def getIngredientDetails (db : IngredientTable) (concernIngredients : List JSString) : JSValue :=
  .obj (detailsLoop db concernIngredients [])

/-- The method `generateWarningsFromCategories`. -/
def generateWarningsFromCategories (db : IngredientTable) (highConcernIngredients : List JSString) :
    List JSString :=
  let warnings := highConcernIngredients.filterMap (fun ingredient =>
    (getIngredientInfo db ingredient).warning)
  if warnings.length = 0 ∧ highConcernIngredients.length > 0 then
    warnings ++ [js "Contains ingredients that may pose health risks when consumed regularly"]
  else warnings

/-- The three lists as they stand in a report. -/
def Categories.toValues (c : Categories JSString) : Categories JSValue :=
  ⟨c.safe.map .str, c.moderate.map .str, c.highConcern.map .str⟩

/-- The method `validateAndCleanResponse`. Reading a property of `null` throws, and so
does either call of `parseInt` on a value that has no string; the fields of the object
literal are evaluated in order, `healthScore` first. -/
def validateAndCleanResponse (host : Host) (response : JSValue) : Except JSError Report :=
  match response with
  | .null => .error ⟨some (js "Cannot read properties of null")⟩
  | _ =>
    match callParseInt host (response.get "healthScore") with
    | .error e => .error e
    | .ok healthScore =>
    match callParseInt host (response.get "totalIngredients") with
    | .error e => .error e
    | .ok totalIngredients =>
    let categories := (response.get "categories").getD .null
    .ok
      { healthScore :=
          JSNum.max (.int 1) (JSNum.min (.int 10) (healthScore.orElse (.int 5)))
        totalIngredients := totalIngredients.orElse (.int 0)
        categories :=
          ⟨arrayOrEmpty (categories.get "safe"), arrayOrEmpty (categories.get "moderate"),
            arrayOrEmpty (categories.get "highConcern")⟩
        advice :=
          match response.get "advice" with
          | some (.str a) => a
          | _ => js "No specific advice available"
        warnings := arrayOrEmpty (response.get "warnings")
        details :=
          match response.get "details" with
          | some (.obj fields) => .obj fields
          | some (.arr items) => .arr items
          | some .null => .null
          | _ => .obj []
        source := js "gemini-ai" }

/-- The method `fallbackAnalysis`. -/
def fallbackAnalysis (db : IngredientTable) (ingredientText : JSString) : Except JSError Report :=
  let ingredients := extractIngredients ingredientText
  match categorizeIngredients db ingredients with
  | .error e => .error e
  | .ok categories =>
    let highConcernCount : Int := categories.highConcern.length
    let moderateCount : Int := categories.moderate.length
    let healthScore := JSNum.max (.int 1) (JSNum.min (.int 10)
      (.int (10 - highConcernCount * 2 - moderateCount * 1)))
    .ok
      { healthScore := healthScore
        totalIngredients := .int ingredients.length
        categories := categories.toValues
        advice := generateAdviceFromScore healthScore
        warnings := (generateWarningsFromCategories db categories.highConcern).map .str
        details := getIngredientDetails db (categories.highConcern ++ categories.moderate)
        source := js "offline-database" }

/-- The pattern `/(?:health\s*score|score)[:\s]*(\d+(?:\.\d+)?)/i`. -/
def scorePattern : Regex :=
  Regex.cat [.alt (Regex.cat [Regex.lit "health", .star (.cls isSpace), Regex.lit "score"]) (Regex.lit "score"),
    .star (.cls isColonOrSpace),
    .group 1 (.seq (Regex.plus (.cls isDigit))
      (Regex.opt (.seq (Regex.exact ".") (Regex.plus (.cls isDigit)))))]

/-- The method `parseTextResponse`. -/
def parseTextResponse (host : Host) (db : IngredientTable) (responseText originalText : JSString) :
    Except JSError Report :=
  let healthScore : JSNum :=
    match scorePattern.exec responseText with
    | some m =>
      match host.roundFloat ((m.capture 1).getD []) with
      | some n => .int n
      | none => .posInf
    | none => .int 5
  let ingredients := extractIngredients originalText
  match categorizeIngredients db ingredients with
  | .error e => .error e
  | .ok categories =>
    .ok
      { healthScore := JSNum.max (.int 1) (JSNum.min (.int 10) healthScore)
        totalIngredients := .int ingredients.length
        categories := categories.toValues
        advice := orDefault (extractAdvice responseText) (generateAdviceFromScore healthScore)
        warnings := (extractWarnings responseText).map .str
        details := getIngredientDetails db (categories.highConcern ++ categories.moderate)
        source := js "gemini-ai" }

/-- The pattern `/\{[\s\S]*\}/`. -/
def jsonSpanPattern : Regex :=
  Regex.cat [Regex.exact "\x7b", .star (.cls (fun _ => true)), Regex.exact "\x7d"]

/-- The method `parseGeminiResponse`: its `try` block, then its `catch` block. -/
def parseGeminiResponse (host : Host) (db : IngredientTable) (responseText originalText : JSString) :
    Except JSError Report :=
  let attempt : Except JSError Report :=
    match jsonSpanPattern.exec responseText with
    | some jsonMatch =>
      match jsonParse jsonMatch.matched with
      | some parsed => validateAndCleanResponse host parsed
      | none => .error ⟨some (js "Unexpected token in JSON")⟩
    | none => parseTextResponse host db responseText originalText
  match attempt with
  | .ok report => .ok report
  | .error _ => fallbackAnalysis db originalText

/-- The method `String.prototype.includes`. -/
def includes (s sub : JSString) : Bool :=
  match s with
  | [] => sub.isEmpty
  | x :: xs => sub.isPrefixOf (x :: xs) || includes xs sub

/-- The fields of the service object that `analyzeIngredients` reads or writes. -/
structure ServiceState where
  ready : Bool
  requestCount : Nat
  lastRequestTime : Int
  deriving DecidableEq

/-- What the collaborators of one `analyzeIngredients` call do: the clock at the
admission check, whether an API key is configured, whether the client can be built, the
outcome of the request (`generateContent`, `result.response`, `response.text()`), the
clock when the request is recorded and the time stored as `lastRequestTime`. -/
structure World where
  admission : Clock
  apiKey : Bool
  clientBuilds : Bool
  call : Except JSError JSString
  recording : Clock
  finished : Int

/-- The system state: the persisted quota record and the service object. -/
structure SystemState where
  storage : Storage
  service : ServiceState

/-- The method `GeminiService.initialize` (spelled `setup` here): it throws when no API
key is configured or when the client cannot be built. -/
def setup (service : ServiceState) (world : World) : Except JSError ServiceState :=
  if service.ready then .ok service
  else if !world.apiKey then
    .error ⟨some (js "Gemini API key not found. The app will use offline mode.")⟩
  else if !world.clientBuilds then .error ⟨none⟩
  else .ok { service with ready := true }

/-- The `catch` block of `analyzeIngredients`. -/
def onAnalysisError (db : IngredientTable) (ingredientText : JSString) (error : JSError) :
    Except JSError Report :=
  if (error.message.map (fun m => includes m (js "quota"))).getD false ||
      (error.message.map (fun m => includes m (js "limit"))).getD false then
    fallbackAnalysis db ingredientText
  else fallbackAnalysis db ingredientText

/-- The method `analyzeIngredients`: the report it returns (or the exception that
escapes it) and the state it leaves. The call of `enforceRateLimit` only delays the
request and leaves no trace here. -/
def analyzeIngredients (host : Host) (maxDailyRequests : Int) (db : IngredientTable)
    (state : SystemState) (world : World) (ingredientText : JSString) :
    Except JSError Report × SystemState :=
  if !canMakeRequest maxDailyRequests state.storage world.admission then
    match fallbackAnalysis db ingredientText with
    | .ok report => (.ok report, state)
    | .error e => (onAnalysisError db ingredientText e, state)
  else
    match setup state.service world with
    | .error e => (onAnalysisError db ingredientText e, state)
    | .ok service =>
      match world.call with
      | .error e => (onAnalysisError db ingredientText e, { state with service := service })
      | .ok text =>
        let recorded : SystemState :=
          { storage := recordRequest state.storage world.recording
            service := { service with
              requestCount := service.requestCount + 1
              lastRequestTime := world.finished } }
        match parseGeminiResponse host db text ingredientText with
        | .ok report => (.ok report, recorded)
        | .error e => (onAnalysisError db ingredientText e, recorded)

/-! ## Reference notions of the specification -/

/-- The resolution order as the specification words it: the category of the table entry
under the normalized name when there is one; otherwise `highConcern` when some
high-concern pattern matches; otherwise `moderate` when some moderate pattern matches;
otherwise `safe`. -/
def referenceResolution (db : IngredientTable) (normalized : JSString) : JSString :=
  match db.lookup normalized with
  | some record => categoryOrSafe record
  | none =>
    if highConcernPatterns.any (fun p => p.test normalized) then js "highConcern"
    else if moderateConcernPatterns.any (fun p => p.test normalized) then js "moderate"
    else js "safe"

/-- A score that is an integer between 1 and 10. -/
def scoreInRange (x : JSNum) : Prop := ∃ z : Int, x = .int z ∧ 1 ≤ z ∧ z ≤ 10

/-- The AI path is unavailable: admission is denied, or credentials are missing, or the
external call raises. -/
def aiUnavailable (maxDailyRequests : Int) (state : SystemState) (world : World) : Prop :=
  canMakeRequest maxDailyRequests state.storage world.admission = false ∨
  (state.service.ready = false ∧ world.apiKey = false) ∨
  (∃ e, world.call = .error e)

/-- The response text carries no valid structured payload: it has no `{...}` span, or
its span fails `JSON.parse`. -/
def noValidPayload (responseText : JSString) : Bool :=
  match jsonSpanPattern.exec responseText with
  | none => true
  | some jsonMatch => (jsonParse jsonMatch.matched).isNone

/-- The number of stored timestamps inside the trailing minute of `now`. -/
def recentCount (now : Int) (timestamps : List Int) : Nat :=
  (timestamps.filter (fun timestamp => decide (timestamp > now - 60 * 1000))).length

/-- The list of a report that a category names. -/
def Categories.byRisk {α : Type} (c : Categories α) : RiskCategory → List α
  | .safe => c.safe
  | .moderate => c.moderate
  | .highConcern => c.highConcern

/-- The tokens that `getIngredientRisk` places in category `c`, in their order. -/
def tokensOf (db : IngredientTable) (tokens : List JSString) (c : RiskCategory) : List JSString :=
  tokens.filter (fun t => decide (getIngredientRisk db t = c.toJS))

/-- The three lists of a report partition the tokens: each list is the tokens of its
category in extraction order, a token lies in exactly the list that `getIngredientRisk`
names, and `totalIngredients` is the sum of the three lengths. -/
def partitionsTokens (db : IngredientTable) (tokens : List JSString) (r : Report) : Prop :=
  (∀ c : RiskCategory, r.categories.byRisk c = (tokensOf db tokens c).map .str) ∧
  (∀ t ∈ tokens, ∀ c : RiskCategory,
    (JSValue.str t ∈ r.categories.byRisk c ↔ getIngredientRisk db t = c.toJS)) ∧
  (∀ t ∈ tokens, ∃! c : RiskCategory, JSValue.str t ∈ r.categories.byRisk c) ∧
  (∀ c : RiskCategory, ∀ v ∈ r.categories.byRisk c, ∃ t ∈ tokens, v = .str t) ∧
  r.totalIngredients = .int ((r.categories.safe.length + r.categories.moderate.length +
    r.categories.highConcern.length : Nat) : Int)

/-! ## The built-in `parseInt`, where no floating point is involved -/

/-- The value of a digit in radix 10 or 16. -/
def digitValue (radix : Nat) (c : Nat) : Option Nat :=
  if radix = 16 then hexVal c
  else if isDigit c then some (c - 48)
  else none

/-- The value of the longest run of digits at the start of the input; `none` when the
input starts with no digit. -/
def readDigits (radix : Nat) : JSString → Option Nat → Option Nat
  | [], acc => acc
  | c :: cs, acc =>
    match digitValue radix c with
    | some d => readDigits radix cs (some (acc.getD 0 * radix + d))
    | none => acc

/-- The built-in `parseInt` on a string, radix omitted, in exact arithmetic: leading
white space, a sign, a `0x` prefix, then the longest run of digits; `NaN` without a
digit. JavaScript rounds the value to the nearest double, which leaves every integer up
to `2^53` as it is. -/
def parseIntString (s : JSString) : JSNum :=
  let trimmed := s.dropWhile isSpace
  let signed : Bool × JSString :=
    match trimmed with
    | c :: r => if c == 45 then (true, r) else if c == 43 then (false, r) else (false, trimmed)
    | [] => (false, [])
  let based : Nat × JSString :=
    match signed.2 with
    | z :: x :: r => if z == 48 && (x == 120 || x == 88) then (16, r) else (10, signed.2)
    | _ => (10, signed.2)
  match readDigits based.1 based.2 none with
  | none => .nan
  | some n => .int (if signed.1 then -(n : Int) else n)

/-- A JSON number literal that is an integer: an optional minus, then `0` or digits that
do not start with `0`. -/
def isIntegerLiteral (literal : JSString) : Bool :=
  let body : JSString :=
    match literal with
    | c :: r => if c == 45 then r else literal
    | [] => []
  match body with
  | [] => false
  | c :: cs => if c == 48 then cs.isEmpty else (c :: cs).all isDigit

/-- The integer that an integer literal denotes. -/
def integerLiteral (literal : JSString) : Option Int :=
  if isIntegerLiteral literal then
    match parseIntString literal with
    | .int z => some z
    | _ => none
  else none

/-- The abstract operation ToString on a property value (`none` being `undefined`),
where it raises nothing and its result involves no floating point: a number is covered
when it is an integer of magnitude at most `2^53`, whose string is its literal (`0` for
`-0`); an object has the string `[object Object]` unless the conversion raises; arrays
and the other numbers are left to the host. -/
def toStringExact : Option JSValue → Option JSString
  | none => some (js "undefined")
  | some .null => some (js "null")
  | some (.bool true) => some (js "true")
  | some (.bool false) => some (js "false")
  | some (.str s) => some s
  | some (.obj fields) =>
    if toStringRaises (.obj fields) then none else some (js "[object Object]")
  | some (.num literal) =>
    match integerLiteral literal with
    | some z => if z.natAbs ≤ 2 ^ 53 then some (if z = 0 then js "0" else literal) else none
    | none => none
  | some (.arr _) => none

/-- The built-in `parseInt(x)` wherever its result involves no floating point: `some r`
when the standard fixes the result `r` by exact arithmetic, `none` otherwise. -/
def standardParseInt (x : Option JSValue) : Option JSNum :=
  match toStringExact x with
  | none => none
  | some s =>
    match parseIntString s with
    | .int z => if z.natAbs ≤ 2 ^ 53 then some (.int z) else none
    | r => some r

/-- A host whose `parseInt` is the built-in one. -/
def Host.standard (host : Host) : Prop :=
  ∀ x r, standardParseInt x = some r → host.parseInt x = r

/-- A host whose `parseInt` follows the standard wherever `standardParseInt` decides; it
serves to instantiate the statements about standard hosts. -/
def sampleHost : Host :=
  ⟨fun x => (standardParseInt x).getD .nan, fun _ => none⟩

/-! ## Double-precision arithmetic

The division and the multiplication of JavaScript numbers, correctly rounded to the
nearest double with ties to even. The operands of this program stay away from overflow
and from the subnormal range, which are left out, and no caller divides by zero. -/

/-- A finite double: the value `m * 2 ^ e` with `2^52 ≤ |m| < 2^53`, or zero. -/
structure Double where
  m : Int
  e : Int
  deriving DecidableEq

/-- The number of binary digits of a natural number; the first argument bounds the
number of halvings. -/
def bitLength : Nat → Nat → Nat
  | 0, _ => 0
  | fuel + 1, n => if n = 0 then 0 else bitLength fuel (n / 2) + 1

/-- The exponent `e` of the double nearest to `a / d`, for positive `a` and `d`: the one
with `2^52 ≤ (a / d) / 2^e < 2^53`. -/
def Double.exponent (a d : Nat) : Int :=
  let l : Int := (bitLength a a : Int) - (bitLength d d : Int)
  let atLeast : Bool :=
    if 0 ≤ l then decide (d * 2 ^ l.toNat ≤ a) else decide (d ≤ a * 2 ^ (-l).toNat)
  (if atLeast then l else l - 1) - 52

/-- The integer nearest to `num / den`, ties to even. -/
def roundHalfEven (num den : Nat) : Nat :=
  let q := num / den
  let r := num % den
  if den < 2 * r then q + 1 else if 2 * r = den then q + q % 2 else q

/-- The quotient `n / d` of an integer by a positive natural number, rounded to the nearest
double, ties to even. -/
def Double.round (n : Int) (d : Nat) : Double :=
  let a := n.natAbs
  if a = 0 ∨ d = 0 then ⟨0, 0⟩
  else
    let e := Double.exponent a d
    let rounded :=
      if 0 ≤ e then roundHalfEven a (d * 2 ^ e.toNat) else roundHalfEven (a * 2 ^ (-e).toNat) d
    let sign : Int := if n < 0 then -1 else 1
    if rounded = 2 ^ 53 then ⟨sign * 2 ^ 52, e + 1⟩ else ⟨sign * rounded, e⟩

/-- The double nearest to an integer; an integer of magnitude at most `2^53` is a double. -/
def Double.ofInt (z : Int) : Double := Double.round z 1

/-- The rational number that a double denotes. -/
def Double.toRat (x : Double) : ℚ := x.m * (2 : ℚ) ^ x.e

/-- The numerator of a double over its denominator `Double.den`. -/
def Double.num (x : Double) : Int := if 0 ≤ x.e then x.m * 2 ^ x.e.toNat else x.m

/-- The denominator of a double: a power of two. -/
def Double.den (x : Double) : Nat := if 0 ≤ x.e then 1 else 2 ^ (-x.e).toNat

/-- The operator `*` on doubles. -/
def Double.mul (x y : Double) : Double :=
  Double.round (x.num * y.num) (x.den * y.den)

/-- The operator `/` on doubles, for a divisor that is not zero. -/
def Double.div (x y : Double) : Double :=
  Double.round (x.num * y.den * (if y.num < 0 then -1 else 1)) (x.den * y.num.natAbs)

/-! ## Further operations of the usage quota tracker -/

/-- The method `resetUsage`: the record it saves. -/
def resetUsage (clock : Clock) : Storage :=
  some (createNewUsageData clock)

/-- The method `emergencyStop`: the record it saves. -/
def emergencyStop (maxDailyRequests : Int) (stored : Storage) (clock : Clock) : Storage :=
  some { getUsageData stored clock with requests := maxDailyRequests + 1000 }

/-- The operations of the quota tracker. -/
inductive QuotaOp where
  | recordRequest
  | canMakeRequest
  | getRemainingRequests
  | getRequestCount
  | getUsagePercentage
  | getUsageStats
  | isApproachingLimit
  | getRecommendedDelay
  | resetUsage
  | emergencyStop
  deriving DecidableEq

/-- The persisted record after an operation: `recordRequest`, `resetUsage` and
`emergencyStop` call `saveUsageData`, the check and the getters do not. -/
def QuotaOp.run (maxDailyRequests : Int) (op : QuotaOp) (stored : Storage) (clock : Clock) :
    Storage :=
  match op with
  | .recordRequest => ReadLabel.recordRequest stored clock
  | .resetUsage => ReadLabel.resetUsage clock
  | .emergencyStop => ReadLabel.emergencyStop maxDailyRequests stored clock
  | .canMakeRequest => stored
  | .getRemainingRequests => stored
  | .getRequestCount => stored
  | .getUsagePercentage => stored
  | .getUsageStats => stored
  | .isApproachingLimit => stored
  | .getRecommendedDelay => stored

/-- The method `getTimeUntilReset`: the milliseconds from now to the next local midnight,
the instant that the `Date` arithmetic of the host yields. -/
def getTimeUntilReset (nextMidnight : Int) (clock : Clock) : Int :=
  nextMidnight - clock.now

/-- The result of `getRecommendedDelay`: `Infinity` or a number of milliseconds. -/
inductive Delay where
  | infinity
  | ms (q : ℚ)

/-- The value `recommendedDelayMs` of `getRecommendedDelay`, with its `hoursLeft`:
`(hoursLeft * 60 * 60 * 1000) / remaining` for
`hoursLeft = timeUntilReset / (60 * 60 * 1000)`, every operation rounded to a double. -/
def recommendedDelayMs (timeUntilReset remaining : Int) : Double :=
  let hoursLeft := Double.div (Double.ofInt timeUntilReset) (Double.ofInt (60 * 60 * 1000))
  Double.div
    (Double.mul (Double.mul (Double.mul hoursLeft (Double.ofInt 60)) (Double.ofInt 60))
      (Double.ofInt 1000))
    (Double.ofInt remaining)

/-- The method `getRecommendedDelay`; `Math.max` and `Math.min` are exact. -/
def getRecommendedDelay (maxDailyRequests : Int) (stored : Storage) (clock : Clock)
    (nextMidnight : Int) : Delay :=
  let remaining := getRemainingRequests maxDailyRequests stored clock
  if remaining ≤ 0 then .infinity
  else if remaining > 100 then .ms 2000
  else
    .ms (max 2000 (min 300000
      (recommendedDelayMs (getTimeUntilReset nextMidnight clock) remaining).toRat))

/-- The request of an `analyzeIngredients` call is dispatched: admission is granted and
the service is set up. -/
def requestDispatched (maxDailyRequests : Int) (state : SystemState) (world : World) : Prop :=
  canMakeRequest maxDailyRequests state.storage world.admission = true ∧
  ∃ service, setup state.service world = .ok service

/-! ## The usage quota tracker as a program on the storage (`rateLimiting.js`)

Every method of the class `RateLimiter` takes the item that `localStorage` holds under
the key of the tracker and returns its result together with the item it leaves behind. -/

/-- The comparison `x >= q` of a number with a rational constant. -/
def JSNum.geRat (x : JSNum) (q : ℚ) : Bool :=
  match x with
  | .nan => false
  | .negInf => false
  | .posInf => true
  | .int z => decide ((z : ℚ) ≥ q)

/-- The expression `Math.round((requests / maxDailyRequests) * 100)`; `Math.round` is the
exact floor of its argument plus one half. -/
def usagePercentage (requests maxDailyRequests : Int) : JSNum :=
  if maxDailyRequests = 0 then
    if requests = 0 then .nan else if requests > 0 then .posInf else .negInf
  else
    .int (Int.floor
      ((Double.mul (Double.div (Double.ofInt requests) (Double.ofInt maxDailyRequests))
        (Double.ofInt 100)).toRat + 1 / 2))

/-- The object that `getUsageStats` returns. -/
structure UsageStats where
  requestsToday : Int
  maxDailyRequests : Int
  remainingRequests : Int
  usagePercentage : JSNum
  timeUntilReset : Int
  canMakeRequest : Bool
  lastRequestTime : Option Int

namespace RateLimiter

/-- The call `localStorage.getItem(this.storageKey)` with the `JSON.parse` of its result:
the stored record, `none` when there is no item or its text does not parse. -/
def getItem (storage : Storage) : Storage × Storage := (storage, storage)

/-- The call `localStorage.setItem(this.storageKey, JSON.stringify(data))`. -/
def setItem (data : UsageData) (_storage : Storage) : Unit × Storage := ((), some data)

/-- The method `getUsageData`. -/
def getUsageData (clock : Clock) (storage : Storage) : UsageData × Storage :=
  let (stored, storage) := getItem storage
  match stored with
  | none => (createNewUsageData clock, storage)
  | some data =>
    if data.date ≠ clock.today then (createNewUsageData clock, storage) else (data, storage)

/-- The method `saveUsageData`. -/
def saveUsageData (data : UsageData) (storage : Storage) : Unit × Storage :=
  setItem data storage

/-- The method `canMakeRequest`. -/
def canMakeRequest (maxDailyRequests : Int) (clock : Clock) (storage : Storage) :
    Bool × Storage :=
  let (usage, storage) := getUsageData clock storage
  if usage.requests ≥ maxDailyRequests then (false, storage)
  else
    let oneMinuteAgo := clock.now - 60 * 1000
    let recentRequests := usage.timestamps.filter (fun timestamp => timestamp > oneMinuteAgo)
    if recentRequests.length ≥ 10 then (false, storage)
    else (true, storage)

/-- The method `recordRequest`. -/
def recordRequest (clock : Clock) (storage : Storage) : Unit × Storage :=
  let (usage, storage) := getUsageData clock storage
  let oneHourAgo := clock.now - 60 * 60 * 1000
  saveUsageData
    { usage with
      requests := usage.requests + 1
      timestamps := (usage.timestamps ++ [clock.now]).filter (fun timestamp => timestamp > oneHourAgo) }
    storage

/-- The method `getRemainingRequests`. -/
def getRemainingRequests (maxDailyRequests : Int) (clock : Clock) (storage : Storage) :
    Int × Storage :=
  let (usage, storage) := getUsageData clock storage
  (max 0 (maxDailyRequests - usage.requests), storage)

/-- The method `getRequestCount`. -/
def getRequestCount (clock : Clock) (storage : Storage) : Int × Storage :=
  let (usage, storage) := getUsageData clock storage
  (usage.requests, storage)

/-- The method `getUsagePercentage`. -/
def getUsagePercentage (maxDailyRequests : Int) (clock : Clock) (storage : Storage) :
    JSNum × Storage :=
  let (usage, storage) := getUsageData clock storage
  (usagePercentage usage.requests maxDailyRequests, storage)

/-- The method `resetUsage`. -/
def resetUsage (clock : Clock) (storage : Storage) : Unit × Storage :=
  saveUsageData (createNewUsageData clock) storage

/-- The method `getUsageStats`; the properties of the object literal are evaluated in
order. -/
def getUsageStats (maxDailyRequests nextMidnight : Int) (clock : Clock) (storage : Storage) :
    UsageStats × Storage :=
  let (usage, storage) := getUsageData clock storage
  let (remainingRequests, storage) := getRemainingRequests maxDailyRequests clock storage
  let (percentage, storage) := getUsagePercentage maxDailyRequests clock storage
  let timeUntilReset := getTimeUntilReset nextMidnight clock
  let (admitted, storage) := canMakeRequest maxDailyRequests clock storage
  ({ requestsToday := usage.requests
     maxDailyRequests := maxDailyRequests
     remainingRequests := remainingRequests
     usagePercentage := percentage
     timeUntilReset := timeUntilReset
     canMakeRequest := admitted
     lastRequestTime :=
       match usage.timestamps.getLast? with
       | some t => if t = 0 then none else some t
       | none => none }, storage)

/-- The method `isApproachingLimit`, whose threshold defaults to `0.9`. -/
def isApproachingLimit (maxDailyRequests : Int) (threshold : Double) (clock : Clock)
    (storage : Storage) : Bool × Storage :=
  let (percentage, storage) := getUsagePercentage maxDailyRequests clock storage
  (percentage.geRat (Double.mul threshold (Double.ofInt 100)).toRat, storage)

/-- The method `getRecommendedDelay`. -/
def getRecommendedDelay (maxDailyRequests nextMidnight : Int) (clock : Clock)
    (storage : Storage) : Delay × Storage :=
  let (_, storage) := getUsageData clock storage
  let (remaining, storage) := getRemainingRequests maxDailyRequests clock storage
  if remaining ≤ 0 then (.infinity, storage)
  else if remaining > 100 then (.ms 2000, storage)
  else
    (.ms (max 2000 (min 300000
      (recommendedDelayMs (getTimeUntilReset nextMidnight clock) remaining).toRat)), storage)

/-- The method `emergencyStop`. -/
def emergencyStop (maxDailyRequests : Int) (clock : Clock) (storage : Storage) :
    Unit × Storage :=
  let (usage, storage) := getUsageData clock storage
  saveUsageData { usage with requests := maxDailyRequests + 1000 } storage

end RateLimiter

/-- The item in the storage after an operation of the tracker, run as the method of
that name. -/
def QuotaOp.perform (maxDailyRequests nextMidnight : Int) (threshold : Double) (op : QuotaOp)
    (clock : Clock) (storage : Storage) : Storage :=
  match op with
  | .recordRequest => (RateLimiter.recordRequest clock storage).2
  | .canMakeRequest => (RateLimiter.canMakeRequest maxDailyRequests clock storage).2
  | .getRemainingRequests => (RateLimiter.getRemainingRequests maxDailyRequests clock storage).2
  | .getRequestCount => (RateLimiter.getRequestCount clock storage).2
  | .getUsagePercentage => (RateLimiter.getUsagePercentage maxDailyRequests clock storage).2
  | .getUsageStats => (RateLimiter.getUsageStats maxDailyRequests nextMidnight clock storage).2
  | .isApproachingLimit =>
    (RateLimiter.isApproachingLimit maxDailyRequests threshold clock storage).2
  | .getRecommendedDelay =>
    (RateLimiter.getRecommendedDelay maxDailyRequests nextMidnight clock storage).2
  | .resetUsage => (RateLimiter.resetUsage clock storage).2
  | .emergencyStop => (RateLimiter.emergencyStop maxDailyRequests clock storage).2

/-! ## Text extraction adapter (`tesseractService.js`) -/

/-- The class `[\w\s.,()%\-:]` of `cleanExtractedText`. -/
def isAllowed (c : Nat) : Bool :=
  isWord c || isSpace c || c == 46 || c == 44 || c == 40 || c == 41 || c == 37 || c == 45 ||
    c == 58

/-- The pattern `/[^\w\s.,()%\-:]/g`. -/
def disallowedPattern : Regex := .cls (fun c => !isAllowed c)

/-- The test `word.length > 1 || ['(', ')', ',', '.'].includes(word)`. -/
def keptWord (word : JSString) : Bool :=
  decide (word.length > 1) ||
    (word == js "(" || word == js ")" || word == js "," || word == js ".")

/-- The method `cleanExtractedText` on a string. -/
def cleanExtractedText (rawText : JSString) : JSString :=
  if rawText = [] then []
  else
    (js " ").intercalate
      ((splitBy (fun c => c == 32)
        (trim (replaceAll disallowedPattern [] (replaceAll spacesPattern (js " ") rawText)))).filter
        keptWord)

/-- What the collaborators of one `extractText` call do: whether the OCR worker can be
created and set up, whether `preprocessImage` resolves, and the outcome of
`worker.recognize`, whose `data.text` is `none` when it is not a string. -/
structure OcrWorld where
  workerStarts : Bool
  imageLoads : Bool
  recognized : Except JSError (Option JSString)

/-- The method `extractText`, for a service whose worker is ready or not. -/
def extractText (workerReady : Bool) (world : OcrWorld) : Except JSError JSString :=
  if !(workerReady || world.workerStarts) then .error ⟨some (js "OCR initialization failed")⟩
  else if !world.imageLoads then .error ⟨some (js "Failed to load image for preprocessing")⟩
  else
    match world.recognized with
    | .error e => .error e
    | .ok text =>
      let cleanText : JSString :=
        match text with
        | some rawText => cleanExtractedText rawText
        | none => []
      if cleanText = [] ∨ cleanText.length < 5 then
        .error ⟨some (js "Could not extract readable text from the image. Please ensure the label is clearly visible and well-lit.")⟩
      else .ok cleanText

/-! ## Analysis orchestrator (`LoadingScreen.jsx`, `App.jsx`) -/

/-- The values of the `stage` state of the loading screen. -/
inductive Stage where
  | processing
  | ocr
  | analysis
  | complete
  deriving DecidableEq

/-- One state update of `processImage`. -/
inductive Update where
  | stage (s : Stage)
  | progress (n : Nat)
  | extractedText (text : JSString)
  deriving DecidableEq

/-- The callback that ends a run of `processImage`. -/
inductive Outcome where
  | complete (results : Report)
  | failed (message : JSString)

/-- A run of `processImage`: its state updates in order and its final callback. -/
structure ScanRun where
  updates : List Update
  outcome : Outcome

/-- The expression `error.message || 'Failed to analyze ingredients'`. -/
def messageOf (e : JSError) : JSString :=
  orDefault e.message (js "Failed to analyze ingredients")

/-- The function `processImage`, given the outcome of `extractText` and the function
that `analyzeIngredients` computes on the extracted text. -/
def processImage (extraction : Except JSError JSString)
    (analyze : JSString → Except JSError Report) : ScanRun :=
  match extraction with
  | .error e => ⟨[.stage .ocr, .progress 10], .failed (messageOf e)⟩
  | .ok text =>
    if text = [] ∨ (trim text).length < 10 then
      ⟨[.stage .ocr, .progress 10, .extractedText text, .progress 50],
        .failed (js "Could not extract readable text from the image. Please try capturing the label again with better lighting.")⟩
    else
      match analyze text with
      | .error e =>
        ⟨[.stage .ocr, .progress 10, .extractedText text, .progress 50, .stage .analysis,
            .progress 60], .failed (messageOf e)⟩
      | .ok results =>
        ⟨[.stage .ocr, .progress 10, .extractedText text, .progress 50, .stage .analysis,
            .progress 60, .progress 90, .stage .complete, .progress 100], .complete results⟩

/-- The progress values of a run, in order, after the initial value 0. -/
def progressValues (run : ScanRun) : List Nat :=
  0 :: run.updates.filterMap (fun u =>
    match u with
    | .progress n => some n
    | _ => none)

/-- The application states `STATES` of `App.jsx`. -/
inductive AppState where
  | landing
  | camera
  | analyzing
  | results
  | error
  deriving DecidableEq

/-- The state of the `App` component; a captured image is known by its URL. -/
structure App where
  appState : AppState
  analysisData : Option Report
  error : Option JSString
  capturedImage : Option JSString

/-- The handler `handleScanStart`. -/
def handleScanStart (app : App) : App :=
  { app with appState := .camera, error := none }

/-- The handler `handleImageCapture`. -/
def handleImageCapture (imageData : JSString) (app : App) : App :=
  { app with capturedImage := some imageData, appState := .analyzing }

/-- The handler `handleAnalysisComplete`. -/
def handleAnalysisComplete (results : Report) (app : App) : App :=
  { app with analysisData := some results, appState := .results }

/-- The handler `handleAnalysisError`. -/
def handleAnalysisError (errorMessage : JSString) (app : App) : App :=
  { app with error := some errorMessage, appState := .error }

/-- The handler `handleRetry`. -/
def handleRetry (app : App) : App :=
  { app with appState := .camera, error := none, analysisData := none, capturedImage := none }

/-- The handler `handleStartOver`. -/
def handleStartOver (app : App) : App :=
  { app with appState := .landing, error := none, analysisData := none, capturedImage := none }

/-! ## The bundled table -/

/-- Modelled from the spec: the keys of the bundled table, which is not part of the
sources, are the normalized names of ingredients; the empty string and `__proto__` are
not among them. -/
def wellFormedTable (db : IngredientTable) : Prop :=
  db.lookup [] = none ∧ db.lookup (js "__proto__") = none

/-! ## Reference notions of the anchor segmentation -/

/-- The text `s` begins with the word `w`, letter case ignored: what a literal of a
pattern under the `i` flag matches at the start of `s`. -/
def startsWithCI : JSString → JSString → Bool
  | [], _ => true
  | _ :: _, [] => false
  | p :: ps, c :: cs => ciEq p c && startsWithCI ps cs

/-- The text begins with one of the terminators of the `ingredients` anchor: `.`,
`nutritional`, `contains` or `allergen`, letter case ignored. -/
def terminatorAt (s : JSString) : Bool :=
  s.head? == some 46 || startsWithCI (js "nutritional") s || startsWithCI (js "contains") s ||
    startsWithCI (js "allergen") s

/-! ## Properties of the ingredient risk database -/

theorem toJS_injective : ∀ a b : RiskCategory, a.toJS = b.toJS → a = b := by
  intro a b h
  cases a <;> cases b <;> first | rfl | (exact absurd h (by decide))

theorem firstMatch_eq_ite (name result rest : JSString) (ps : List Regex) :
    firstMatch name result ps rest =
      if ps.any (fun p => p.test name) then result else rest := by
  induction ps with
  | nil => simp [firstMatch]
  | cons p ps ih =>
    by_cases hp : p.test name = true
    · simp [firstMatch, hp]
    · simp [firstMatch, hp, ih]

theorem findPartialMatch_eq_toJS (n : JSString) : ∃ c : RiskCategory, findPartialMatch n = c.toJS := by
  unfold findPartialMatch
  rw [firstMatch_eq_ite, firstMatch_eq_ite]
  split
  · exact ⟨.highConcern, rfl⟩
  · split
    · exact ⟨.moderate, rfl⟩
    · exact ⟨.safe, rfl⟩

theorem categoryOrSafe_eq_toJS (r : IngredientRecord) : ∃ c : RiskCategory, categoryOrSafe r = c.toJS := by
  unfold categoryOrSafe
  cases r.category with
  | none => exact ⟨.safe, rfl⟩
  | some c => exact ⟨c, rfl⟩

theorem getIngredientRisk_eq_toJS (db : IngredientTable) (name : JSString) :
    ∃ c : RiskCategory, getIngredientRisk db name = c.toJS := by
  unfold getIngredientRisk
  split
  · exact ⟨.safe, rfl⟩
  · split
    · exact categoryOrSafe_eq_toJS _
    · exact findPartialMatch_eq_toJS _

/-- C1: for every ingredient name and every loaded table, the empty one included,
`getIngredientRisk` is a total function whose result is exactly one of the strings
`safe`, `moderate`, `highConcern`. -/
theorem getIngredientRisk_total (db : IngredientTable) (name : JSString) :
    ∃! c : RiskCategory, getIngredientRisk db name = c.toJS := by
  obtain ⟨c, hc⟩ := getIngredientRisk_eq_toJS db name
  exact ⟨c, hc, fun d hd => toJS_injective d c (hd.symm.trans hc)⟩

theorem findPartialMatch_eq_reference (n : JSString) :
    findPartialMatch n =
      if highConcernPatterns.any (fun p => p.test n) then js "highConcern"
      else if moderateConcernPatterns.any (fun p => p.test n) then js "moderate"
      else js "safe" := by
  unfold findPartialMatch
  rw [firstMatch_eq_ite, firstMatch_eq_ite]

theorem findPartialMatch_constructor : findPartialMatch (js "constructor") = js "safe" := by decide

theorem findPartialMatch_proto : findPartialMatch (js "__proto__") = js "safe" := by decide

theorem getIngredientRisk_eq_reference (db : IngredientTable) (name : JSString) (h : name ≠ []) :
    getIngredientRisk db name = referenceResolution db (normalizeIngredientName name) := by
  unfold getIngredientRisk referenceResolution readEntry
  rw [if_neg h]
  cases hl : db.lookup (normalizeIngredientName name) with
  | some r => rfl
  | none =>
    simp only []
    by_cases hk : normalizeIngredientName name = js "constructor" ∨
        normalizeIngredientName name = js "__proto__"
    · rw [if_pos hk, ← findPartialMatch_eq_reference]
      rcases hk with hk | hk
      · rw [hk, findPartialMatch_constructor]; rfl
      · rw [hk, findPartialMatch_proto]; rfl
    · rw [if_neg hk, ← findPartialMatch_eq_reference]

/-- C2: for every non-empty name, `getIngredientRisk` follows the reference resolution
order on the normalized name; an exact table entry overrides every pattern; without an
entry, a name that matches a high-concern pattern is `highConcern` even when a moderate
pattern matches too, as for `sodium benzoate` and `E102`. -/
theorem getIngredientRisk_resolution_order (db : IngredientTable) (name : JSString)
    (h : name ≠ []) :
    getIngredientRisk db name = referenceResolution db (normalizeIngredientName name) ∧
    (∀ record, db.lookup (normalizeIngredientName name) = some record →
      getIngredientRisk db name = categoryOrSafe record) ∧
    (db.lookup (normalizeIngredientName name) = none →
      highConcernPatterns.any (fun p => p.test (normalizeIngredientName name)) = true →
      getIngredientRisk db name = js "highConcern") ∧
    (moderateConcernPatterns.any (fun p => p.test (normalizeIngredientName (js "sodium benzoate"))) = true ∧
      (db.lookup (normalizeIngredientName (js "sodium benzoate")) = none →
        getIngredientRisk db (js "sodium benzoate") = js "highConcern")) ∧
    (moderateConcernPatterns.any (fun p => p.test (normalizeIngredientName (js "E102"))) = true ∧
      (db.lookup (normalizeIngredientName (js "E102")) = none →
        getIngredientRisk db (js "E102") = js "highConcern")) := by
  have key : ∀ n : JSString, n ≠ [] → db.lookup (normalizeIngredientName n) = none →
      highConcernPatterns.any (fun p => p.test (normalizeIngredientName n)) = true →
      getIngredientRisk db n = js "highConcern" := by
    intro n hn hl hp
    rw [getIngredientRisk_eq_reference db n hn]
    unfold referenceResolution
    rw [hl]
    simp only [hp, if_true]
  refine ⟨getIngredientRisk_eq_reference db name h, ?_, key name h, ⟨by decide, ?_⟩, ⟨by decide, ?_⟩⟩
  · intro record hr
    rw [getIngredientRisk_eq_reference db name h]
    unfold referenceResolution
    rw [hr]
  · intro hl
    exact key _ (by decide) hl (by decide)
  · intro hl
    exact key _ (by decide) hl (by decide)

theorem getIngredientRisk_resolution_order_witness :
    js "E102" ≠ [] ∧ getIngredientRisk [] (js "E102") = js "highConcern" :=
  ⟨by decide, (getIngredientRisk_resolution_order [] (js "E102") (by decide)).2.2.1 rfl (by decide)⟩

/-! ## Properties of the reports -/

theorem categorizeLoop_eq (db : IngredientTable) (l : List JSString) :
    ∀ cats : Categories JSString,
      categorizeLoop db l cats = .ok
        ⟨cats.safe ++ l.filter (fun x => decide (getIngredientRisk db x = js "safe")),
          cats.moderate ++ l.filter (fun x => decide (getIngredientRisk db x = js "moderate")),
          cats.highConcern ++ l.filter (fun x => decide (getIngredientRisk db x = js "highConcern"))⟩ := by
  induction l with
  | nil => intro cats; simp [categorizeLoop]
  | cons x xs ih =>
    intro cats
    obtain ⟨c, hc⟩ := getIngredientRisk_eq_toJS db x
    have h1 : js "moderate" ≠ js "safe" := by decide
    have h2 : js "highConcern" ≠ js "safe" := by decide
    have h3 : js "highConcern" ≠ js "moderate" := by decide
    cases c <;>
      simp [categorizeLoop, pushCategory, hc, RiskCategory.toJS, ih, h1, h2, h3, h1.symm, h2.symm, h3.symm]

theorem categorizeIngredients_eq (db : IngredientTable) (l : List JSString) :
    categorizeIngredients db l = .ok
      ⟨l.filter (fun x => decide (getIngredientRisk db x = js "safe")),
        l.filter (fun x => decide (getIngredientRisk db x = js "moderate")),
        l.filter (fun x => decide (getIngredientRisk db x = js "highConcern"))⟩ := by
  unfold categorizeIngredients
  rw [categorizeLoop_eq]
  simp

theorem clamp_int (z : Int) :
    JSNum.max (.int 1) (JSNum.min (.int 10) (.int z)) = .int (max 1 (min 10 z)) := rfl

theorem clamp_inRange (x : JSNum) (hx : x ≠ .nan) :
    scoreInRange (JSNum.max (.int 1) (JSNum.min (.int 10) x)) := by
  cases x with
  | nan => exact absurd rfl hx
  | negInf => exact ⟨1, rfl, by decide, by decide⟩
  | posInf => exact ⟨10, rfl, by decide, by decide⟩
  | int z => exact ⟨max 1 (min 10 z), clamp_int z, by omega, by omega⟩

theorem orElse_ne_nan (x : JSNum) (d : Int) : x.orElse (.int d) ≠ .nan := by
  unfold JSNum.orElse
  split <;> simp_all

theorem fallbackAnalysis_spec (db : IngredientTable) (text : JSString) :
    ∃ r, fallbackAnalysis db text = .ok r ∧
      r.healthScore = .int (max 1 (min 10
        (10 - 2 * (r.categories.highConcern.length : Int) - (r.categories.moderate.length : Int)))) ∧
      r.categories = Categories.toValues
        ⟨(extractIngredients text).filter (fun x => decide (getIngredientRisk db x = js "safe")),
          (extractIngredients text).filter (fun x => decide (getIngredientRisk db x = js "moderate")),
          (extractIngredients text).filter (fun x => decide (getIngredientRisk db x = js "highConcern"))⟩ ∧
      r.totalIngredients = .int (extractIngredients text).length ∧
      r.source = js "offline-database" := by
  simp only [fallbackAnalysis, categorizeIngredients_eq]
  refine ⟨_, rfl, ?_, rfl, rfl, rfl⟩
  simp only [Categories.toValues, List.length_map, clamp_int]
  congr 1
  omega

theorem fallbackAnalysis_inRange (db : IngredientTable) (text : JSString) :
    ∃ r, fallbackAnalysis db text = .ok r ∧ scoreInRange r.healthScore := by
  obtain ⟨r, hr, hs, _⟩ := fallbackAnalysis_spec db text
  exact ⟨r, hr, _, hs, by omega, by omega⟩

theorem parseTextResponse_inRange (host : Host) (db : IngredientTable) (resp orig : JSString) :
    ∃ r, parseTextResponse host db resp orig = .ok r ∧ scoreInRange r.healthScore ∧
      r.source = js "gemini-ai" := by
  simp only [parseTextResponse, categorizeIngredients_eq]
  refine ⟨_, rfl, ?_, rfl⟩
  apply clamp_inRange
  split
  · split <;> simp
  · simp

theorem validateAndCleanResponse_eq (host : Host) (response : JSValue) (hn : response ≠ .null)
    (h1 : parseIntRaises (response.get "healthScore") = false)
    (h2 : parseIntRaises (response.get "totalIngredients") = false) :
    validateAndCleanResponse host response = .ok
      { healthScore := JSNum.max (.int 1) (JSNum.min (.int 10)
          ((host.parseInt (response.get "healthScore")).orElse (.int 5)))
        totalIngredients := (host.parseInt (response.get "totalIngredients")).orElse (.int 0)
        categories :=
          ⟨arrayOrEmpty (((response.get "categories").getD .null).get "safe"),
            arrayOrEmpty (((response.get "categories").getD .null).get "moderate"),
            arrayOrEmpty (((response.get "categories").getD .null).get "highConcern")⟩
        advice :=
          match response.get "advice" with
          | some (.str a) => a
          | _ => js "No specific advice available"
        warnings := arrayOrEmpty (response.get "warnings")
        details :=
          match response.get "details" with
          | some (.obj fields) => .obj fields
          | some (.arr items) => .arr items
          | some .null => .null
          | _ => .obj []
        source := js "gemini-ai" } := by
  unfold validateAndCleanResponse
  split
  · exact absurd rfl hn
  · simp only [callParseInt, h1, h2, Bool.false_eq_true, if_false]

theorem validateAndCleanResponse_raises (host : Host) (response : JSValue)
    (h : response = .null ∨ parseIntRaises (response.get "healthScore") = true ∨
      parseIntRaises (response.get "totalIngredients") = true) :
    ∃ e, validateAndCleanResponse host response = .error e := by
  unfold validateAndCleanResponse
  split
  · exact ⟨_, rfl⟩
  · rename_i hn
    cases h1 : parseIntRaises (response.get "healthScore") with
    | true =>
      simp only [callParseInt, h1, if_true]
      exact ⟨_, rfl⟩
    | false =>
      cases h2 : parseIntRaises (response.get "totalIngredients") with
      | true =>
        simp only [callParseInt, h1, h2, Bool.false_eq_true, if_false, if_true]
        exact ⟨_, rfl⟩
      | false =>
        rcases h with h | h | h
        · exact absurd h (hn · )
        · rw [h1] at h; cases h
        · rw [h2] at h; cases h

theorem validateAndCleanResponse_ok (host : Host) (response : JSValue) (r : Report)
    (h : validateAndCleanResponse host response = .ok r) :
    response ≠ .null ∧ parseIntRaises (response.get "healthScore") = false ∧
      parseIntRaises (response.get "totalIngredients") = false := by
  refine ⟨?_, ?_, ?_⟩
  · intro hn
    obtain ⟨e, he⟩ := validateAndCleanResponse_raises host response (Or.inl hn)
    rw [he] at h
    cases h
  · cases h1 : parseIntRaises (response.get "healthScore") with
    | false => rfl
    | true =>
      obtain ⟨e, he⟩ := validateAndCleanResponse_raises host response (Or.inr (Or.inl h1))
      rw [he] at h
      cases h
  · cases h2 : parseIntRaises (response.get "totalIngredients") with
    | false => rfl
    | true =>
      obtain ⟨e, he⟩ := validateAndCleanResponse_raises host response (Or.inr (Or.inr h2))
      rw [he] at h
      cases h

theorem validateAndCleanResponse_inRange (host : Host) (response : JSValue) (r : Report)
    (h : validateAndCleanResponse host response = .ok r) : scoreInRange r.healthScore := by
  obtain ⟨hn, h1, h2⟩ := validateAndCleanResponse_ok host response r h
  rw [validateAndCleanResponse_eq host response hn h1 h2] at h
  cases h
  exact clamp_inRange _ (orElse_ne_nan _ 5)

theorem parseGeminiResponse_inRange (host : Host) (db : IngredientTable) (resp orig : JSString) :
    ∃ r, parseGeminiResponse host db resp orig = .ok r ∧ scoreInRange r.healthScore := by
  unfold parseGeminiResponse
  simp only []
  split
  · rename_i report hreport
    refine ⟨report, rfl, ?_⟩
    split at hreport
    · split at hreport
      · rename_i parsed _
        exact validateAndCleanResponse_inRange host parsed report hreport
      · cases hreport
    · obtain ⟨r, hr, hs, _⟩ := parseTextResponse_inRange host db resp orig
      rw [hr] at hreport
      cases hreport
      exact hs
  · exact fallbackAnalysis_inRange db orig

theorem onAnalysisError_eq (db : IngredientTable) (text : JSString) (e : JSError) :
    onAnalysisError db text e = fallbackAnalysis db text := by
  unfold onAnalysisError
  split <;> rfl

theorem analyzeIngredients_inRange (host : Host) (maxDailyRequests : Int) (db : IngredientTable)
    (state : SystemState) (world : World) (text : JSString) :
    ∃ r, (analyzeIngredients host maxDailyRequests db state world text).1 = .ok r ∧
      scoreInRange r.healthScore := by
  obtain ⟨rf, hrf, hsf⟩ := fallbackAnalysis_inRange db text
  obtain ⟨rg, hrg, hsg⟩ := parseGeminiResponse_inRange host db
    (match world.call with | .ok t => t | .error _ => []) text
  unfold analyzeIngredients
  split
  · rw [hrf]; exact ⟨rf, rfl, hsf⟩
  · split
    · rw [onAnalysisError_eq, hrf]; exact ⟨rf, rfl, hsf⟩
    · split
      · rw [onAnalysisError_eq, hrf]; exact ⟨rf, rfl, hsf⟩
      · rename_i t ht
        rw [ht] at hrg
        simp only [] at hrg ⊢
        rw [hrg]
        exact ⟨rg, rfl, hsg⟩

theorem analyzeIngredients_unavailable (host : Host) (maxDailyRequests : Int) (db : IngredientTable)
    (state : SystemState) (world : World) (text : JSString)
    (h : aiUnavailable maxDailyRequests state world) :
    (analyzeIngredients host maxDailyRequests db state world text).1 = fallbackAnalysis db text := by
  obtain ⟨rf, hrf, _⟩ := fallbackAnalysis_inRange db text
  unfold analyzeIngredients
  split
  · rw [hrf]
  · rename_i hc
    split
    · rw [onAnalysisError_eq]
    · rename_i service hs
      split
      · rw [onAnalysisError_eq]
      · rename_i t ht
        exfalso
        rcases h with h | ⟨h1, h2⟩ | ⟨e, he⟩
        · simp [h] at hc
        · simp [setup, h1, h2] at hs
        · rw [he] at ht; cases ht

/-- C3: every report, whether `validateAndCleanResponse` builds it from a payload,
`parseTextResponse` from a response text, `fallbackAnalysis` from an ingredient text, or
`analyzeIngredients` returns it, has an integer `healthScore` with
`1 <= healthScore <= 10`. `validateAndCleanResponse` builds a report from a JSON object
payload exactly when `parseInt` raises on neither its `healthScore` nor its
`totalIngredients`; the other two builders and `analyzeIngredients` always return one. -/
theorem healthScore_in_range :
    (∀ (host : Host) (response : JSValue) (r : Report),
      validateAndCleanResponse host response = .ok r → scoreInRange r.healthScore) ∧
    (∀ (host : Host) (fields : List (JSString × JSValue)),
      (∃ r, validateAndCleanResponse host (.obj fields) = .ok r) ↔
        (parseIntRaises ((JSValue.obj fields).get "healthScore") = false ∧
          parseIntRaises ((JSValue.obj fields).get "totalIngredients") = false)) ∧
    (∀ (host : Host) (db : IngredientTable) (responseText originalText : JSString),
      ∃ r, parseTextResponse host db responseText originalText = .ok r ∧
        scoreInRange r.healthScore) ∧
    (∀ (db : IngredientTable) (ingredientText : JSString),
      ∃ r, fallbackAnalysis db ingredientText = .ok r ∧ scoreInRange r.healthScore) ∧
    (∀ (host : Host) (maxDailyRequests : Int) (db : IngredientTable) (state : SystemState)
        (world : World) (ingredientText : JSString),
      ∃ r, (analyzeIngredients host maxDailyRequests db state world ingredientText).1 = .ok r ∧
        scoreInRange r.healthScore) := by
  refine ⟨validateAndCleanResponse_inRange, ?_, ?_, fallbackAnalysis_inRange,
    analyzeIngredients_inRange⟩
  · intro host fields
    constructor
    · rintro ⟨r, hr⟩
      exact (validateAndCleanResponse_ok host _ r hr).2
    · rintro ⟨h1, h2⟩
      exact ⟨_, validateAndCleanResponse_eq host (.obj fields) (by simp) h1 h2⟩
  · intro host db resp orig
    obtain ⟨r, hr, hs, _⟩ := parseTextResponse_inRange host db resp orig
    exact ⟨r, hr, hs⟩

/-- C4: `analyzeIngredients` always returns a report and never raises; when admission is
denied, credentials are missing or the external call raises, the report is exactly
`fallbackAnalysis` of the same text. -/
theorem analyzeIngredients_best_effort (host : Host) (maxDailyRequests : Int)
    (db : IngredientTable) (state : SystemState) (world : World) (ingredientText : JSString) :
    (∃ r, (analyzeIngredients host maxDailyRequests db state world ingredientText).1 = .ok r) ∧
    (aiUnavailable maxDailyRequests state world →
      (analyzeIngredients host maxDailyRequests db state world ingredientText).1 =
        fallbackAnalysis db ingredientText ∧
      ∃ r, fallbackAnalysis db ingredientText = .ok r) := by
  obtain ⟨r, hr, _⟩ := analyzeIngredients_inRange host maxDailyRequests db state world ingredientText
  obtain ⟨rf, hrf, _⟩ := fallbackAnalysis_inRange db ingredientText
  exact ⟨⟨r, hr⟩, fun h =>
    ⟨analyzeIngredients_unavailable host maxDailyRequests db state world ingredientText h, rf, hrf⟩⟩

theorem analyzeIngredients_best_effort_witness :
    aiUnavailable 1500 ⟨none, ⟨false, 0, 0⟩⟩
      ⟨⟨js "Mon Jan 01 2024", 0⟩, false, true, .ok [], ⟨js "Mon Jan 01 2024", 0⟩, 0⟩ ∧
    (analyzeIngredients ⟨fun _ => .nan, fun _ => none⟩ 1500 [] ⟨none, ⟨false, 0, 0⟩⟩
      ⟨⟨js "Mon Jan 01 2024", 0⟩, false, true, .ok [], ⟨js "Mon Jan 01 2024", 0⟩, 0⟩
      (js "Water, Salt")).1 = fallbackAnalysis [] (js "Water, Salt") :=
  ⟨Or.inr (Or.inl ⟨rfl, rfl⟩),
    ((analyzeIngredients_best_effort ⟨fun _ => .nan, fun _ => none⟩ 1500 [] ⟨none, ⟨false, 0, 0⟩⟩
      ⟨⟨js "Mon Jan 01 2024", 0⟩, false, true, .ok [], ⟨js "Mon Jan 01 2024", 0⟩, 0⟩
      (js "Water, Salt")).2 (Or.inr (Or.inl ⟨rfl, rfl⟩))).1⟩

theorem parseGeminiResponse_no_span (host : Host) (db : IngredientTable) (resp orig : JSString)
    (h : jsonSpanPattern.exec resp = none) :
    parseGeminiResponse host db resp orig = parseTextResponse host db resp orig := by
  obtain ⟨r, hr, _⟩ := parseTextResponse_inRange host db resp orig
  unfold parseGeminiResponse
  simp only [h, hr]

theorem parseGeminiResponse_bad_span (host : Host) (db : IngredientTable) (resp orig : JSString)
    (m : MatchResult) (h : jsonSpanPattern.exec resp = some m) (hp : jsonParse m.matched = none) :
    parseGeminiResponse host db resp orig = fallbackAnalysis db orig := by
  unfold parseGeminiResponse
  simp only [h, hp]

/-- C5, as stated, fails: the response `{oops}` carries a span that `JSON.parse` rejects,
and `parseGeminiResponse` answers with the offline report of the original text, whose
source and score differ from those of `parseTextResponse`. -/
theorem parseGeminiResponse_invalid_span_counterexample :
    noValidPayload (js "\x7boops\x7d") = true ∧
    ∀ host : Host,
      parseGeminiResponse host [] (js "\x7boops\x7d") (js "Water") =
        fallbackAnalysis [] (js "Water") ∧
      parseGeminiResponse host [] (js "\x7boops\x7d") (js "Water") ≠
        parseTextResponse host [] (js "\x7boops\x7d") (js "Water") := by
  have hspan : (jsonSpanPattern.exec (js "\x7boops\x7d")).map MatchResult.matched =
      some (js "\x7boops\x7d") := by decide
  have hparse : jsonParse (js "\x7boops\x7d") = none := by
    have : (jsonParse (js "\x7boops\x7d")).isNone = true := by decide
    simpa using this
  refine ⟨by decide, fun host => ?_⟩
  obtain ⟨m, hm⟩ : ∃ m, jsonSpanPattern.exec (js "\x7boops\x7d") = some m := by
    cases h : jsonSpanPattern.exec (js "\x7boops\x7d") with
    | none => rw [h] at hspan; cases hspan
    | some m => exact ⟨m, rfl⟩
  have hmm : m.matched = js "\x7boops\x7d" := by
    rw [hm] at hspan; simpa using hspan
  have hfb := parseGeminiResponse_bad_span host [] (js "\x7boops\x7d") (js "Water") m hm
    (by rw [hmm]; exact hparse)
  refine ⟨hfb, ?_⟩
  rw [hfb]
  obtain ⟨r1, h1, _, _, _, hs1⟩ := fallbackAnalysis_spec [] (js "Water")
  obtain ⟨r2, h2, _, hs2⟩ := parseTextResponse_inRange host [] (js "\x7boops\x7d") (js "Water")
  rw [h1, h2]
  intro heq
  have : r1 = r2 := Except.ok.inj heq
  rw [this, hs2] at hs1
  exact absurd hs1 (by decide)

/-- C5, amended: a response text without any `{...}` span is handled by
`parseTextResponse`; a response whose span fails `JSON.parse` is handled by
`fallbackAnalysis` on the original text; either way `parseGeminiResponse` does not raise
and returns a report with `1 <= healthScore <= 10`. -/
theorem parseGeminiResponse_no_valid_payload (host : Host) (db : IngredientTable)
    (responseText originalText : JSString) (h : noValidPayload responseText = true) :
    (∃ r, parseGeminiResponse host db responseText originalText = .ok r ∧
      scoreInRange r.healthScore) ∧
    (jsonSpanPattern.exec responseText = none →
      parseGeminiResponse host db responseText originalText =
        parseTextResponse host db responseText originalText) ∧
    (jsonSpanPattern.exec responseText ≠ none →
      parseGeminiResponse host db responseText originalText =
        fallbackAnalysis db originalText) := by
  refine ⟨parseGeminiResponse_inRange host db responseText originalText,
    parseGeminiResponse_no_span host db responseText originalText, ?_⟩
  intro hne
  unfold noValidPayload at h
  cases hm : jsonSpanPattern.exec responseText with
  | none => exact absurd hm hne
  | some m =>
    rw [hm] at h
    simp only [Option.isNone_iff_eq_none] at h
    exact parseGeminiResponse_bad_span host db responseText originalText m hm h

theorem parseGeminiResponse_no_valid_payload_witness :
    noValidPayload (js "\x7boops\x7d") = true ∧
    ∃ r, parseGeminiResponse ⟨fun _ => .nan, fun _ => none⟩ [] (js "\x7boops\x7d") (js "Water") = .ok r ∧
      scoreInRange r.healthScore :=
  ⟨by decide,
    (parseGeminiResponse_no_valid_payload ⟨fun _ => .nan, fun _ => none⟩ [] (js "\x7boops\x7d")
      (js "Water") (by decide)).1⟩

/-! ## Properties of the usage quota tracker -/

theorem canMakeRequest_eq_false_iff (L : Int) (stored : Storage) (clock : Clock) :
    canMakeRequest L stored clock = false ↔
      ((getUsageData stored clock).requests ≥ L ∨
        recentCount clock.now (getUsageData stored clock).timestamps ≥ 10) := by
  unfold canMakeRequest recentCount
  simp only []
  by_cases h1 : (getUsageData stored clock).requests ≥ L
  · simp [h1]
  · by_cases h2 : (List.filter (fun timestamp => decide (timestamp > clock.now - 60 * 1000))
        (getUsageData stored clock).timestamps).length ≥ 10
    · simp [h1, h2]
    · simp [h1, h2]

theorem getUsageData_same_day (data : UsageData) (clock : Clock) (h : data.date = clock.today) :
    getUsageData (some data) clock = data := by
  simp [getUsageData, h]

theorem getUsageData_stale (data : UsageData) (clock : Clock) (h : data.date ≠ clock.today) :
    getUsageData (some data) clock = createNewUsageData clock := by
  simp [getUsageData, h]

theorem getUsageData_date (stored : Storage) (clock : Clock) :
    (getUsageData stored clock).date = clock.today := by
  unfold getUsageData
  split
  · rfl
  · split
    · rfl
    · rename_i h; simpa using h

theorem getUsageData_now_irrelevant (stored : Storage) (today : JSString) (a b : Int) :
    (getUsageData stored ⟨today, a⟩).requests = (getUsageData stored ⟨today, b⟩).requests ∧
    (getUsageData stored ⟨today, a⟩).timestamps = (getUsageData stored ⟨today, b⟩).timestamps := by
  unfold getUsageData
  split
  · exact ⟨rfl, rfl⟩
  · split
    · exact ⟨rfl, rfl⟩
    · exact ⟨rfl, rfl⟩

theorem recordRequest_count (stored : Storage) (today : JSString) (t now : Int) :
    (getUsageData (recordRequest stored ⟨today, t⟩) ⟨today, now⟩).requests =
      (getUsageData stored ⟨today, now⟩).requests + 1 := by
  have hd := getUsageData_date stored ⟨today, t⟩
  have hn := (getUsageData_now_irrelevant stored today t now).1
  unfold recordRequest
  simp only []
  rw [getUsageData_same_day _ _ (by simpa using hd)]
  simp [hn]

theorem recordAll_count (today : JSString) (now : Int) (times : List Int) :
    ∀ stored : Storage,
      (getUsageData (recordAll stored (times.map (fun t => (⟨today, t⟩ : Clock)))) ⟨today, now⟩).requests =
        (getUsageData stored ⟨today, now⟩).requests + times.length := by
  induction times with
  | nil => intro stored; simp [recordAll]
  | cons t ts ih =>
    intro stored
    simp only [List.map_cons, recordAll, List.length_cons]
    rw [ih, recordRequest_count]
    push_cast
    ring

theorem recordRequest_recent (stored : Storage) (today : JSString) (t now : Int)
    (h1 : now - 60 * 1000 < t) (h2 : t ≤ now) :
    recentCount now (getUsageData (recordRequest stored ⟨today, t⟩) ⟨today, now⟩).timestamps =
      recentCount now (getUsageData stored ⟨today, now⟩).timestamps + 1 := by
  have hd := getUsageData_date stored ⟨today, t⟩
  have hn := (getUsageData_now_irrelevant stored today t now).2
  unfold recordRequest
  simp only []
  rw [getUsageData_same_day _ _ (by simpa using hd)]
  simp only [recentCount, List.filter_filter, ← hn]
  rw [List.filter_append]
  have hp : (List.filter (fun a => decide (a > now - 60 * 1000) && decide (a > t - 60 * 60 * 1000))
      (getUsageData stored ⟨today, t⟩).timestamps) =
      List.filter (fun a => decide (a > now - 60 * 1000)) (getUsageData stored ⟨today, t⟩).timestamps := by
    apply List.filter_congr
    intro x _
    by_cases hx : x > now - 60 * 1000
    · have hy : x > t - 60 * 60 * 1000 := by omega
      rw [decide_eq_true hx, decide_eq_true hy]; rfl
    · rw [decide_eq_false hx]; rfl
  rw [hp]
  have ht : (decide (t > now - 60 * 1000) && decide (t > t - 60 * 60 * 1000)) = true := by
    have hy : t > t - 60 * 60 * 1000 := by omega
    have hz : t > now - 60 * 1000 := h1
    rw [decide_eq_true hz, decide_eq_true hy]; rfl
  rw [List.length_append, List.filter_cons, if_pos ht]
  rfl

theorem recordAll_recent (today : JSString) (now : Int) (times : List Int)
    (h : ∀ t ∈ times, now - 60 * 1000 < t ∧ t ≤ now) :
    ∀ stored : Storage,
      recentCount now
          (getUsageData (recordAll stored (times.map (fun t => (⟨today, t⟩ : Clock)))) ⟨today, now⟩).timestamps =
        recentCount now (getUsageData stored ⟨today, now⟩).timestamps + times.length := by
  induction times with
  | nil => intro stored; simp [recordAll]
  | cons t ts ih =>
    intro stored
    simp only [List.map_cons, recordAll, List.length_cons]
    rw [ih (fun x hx => h x (List.mem_cons_of_mem _ hx)),
      recordRequest_recent stored today t now (h t (List.mem_cons_self _ _)).1
        (h t (List.mem_cons_self _ _)).2]
    omega

/-- C6, as stated, fails: with a count below the limit and exactly ten timestamps inside
the trailing minute, not more, `canMakeRequest` already returns false. -/
theorem canMakeRequest_ten_recent_counterexample :
    canMakeRequest 1500
        (some ⟨js "Mon Jan 01 2024", 0, List.replicate 10 1704100000000, 1704067200000⟩)
        ⟨js "Mon Jan 01 2024", 1704100000000⟩ = false ∧
      ¬ ((0 : Int) ≥ 1500 ∨
        ((List.replicate 10 (1704100000000 : Int)).filter
          (fun t => decide (t > 1704100000000 - 60000))).length > 10) := by
  decide

/-- C6, amended: for a persisted state of the current calendar day, `canMakeRequest`
returns false if and only if the count is at least `maxDailyRequests` or at least 10
stored timestamps `t` satisfy `t > now - 60000`; in every other case it returns true. -/
theorem canMakeRequest_denies_iff (maxDailyRequests : Int) (data : UsageData) (clock : Clock)
    (h : data.date = clock.today) :
    (canMakeRequest maxDailyRequests (some data) clock = false ↔
      (data.requests ≥ maxDailyRequests ∨
        (data.timestamps.filter (fun t => decide (t > clock.now - 60000))).length ≥ 10)) ∧
    (¬ (data.requests ≥ maxDailyRequests ∨
        (data.timestamps.filter (fun t => decide (t > clock.now - 60000))).length ≥ 10) →
      canMakeRequest maxDailyRequests (some data) clock = true) := by
  have key := canMakeRequest_eq_false_iff maxDailyRequests (some data) clock
  rw [getUsageData_same_day data clock h] at key
  have key2 : canMakeRequest maxDailyRequests (some data) clock = false ↔
      (data.requests ≥ maxDailyRequests ∨
        (data.timestamps.filter (fun t => decide (t > clock.now - 60000))).length ≥ 10) := key
  refine ⟨key2, fun hn => ?_⟩
  cases hc : canMakeRequest maxDailyRequests (some data) clock with
  | true => rfl
  | false => exact absurd (key2.mp hc) hn

theorem canMakeRequest_denies_iff_witness :
    canMakeRequest 1500 (some ⟨js "Mon Jan 01 2024", 3, [1704100000000], 1704067200000⟩)
      ⟨js "Mon Jan 01 2024", 1704100030000⟩ = true :=
  (canMakeRequest_denies_iff 1500 ⟨js "Mon Jan 01 2024", 3, [1704100000000], 1704067200000⟩
    ⟨js "Mon Jan 01 2024", 1704100030000⟩ rfl).2 (by decide)

/-- C7: after `L` calls of `recordRequest` on one calendar day from an empty storage, the
persisted count is `L`; from then on, whatever is recorded later that day and whatever
the stored timestamps are, `canMakeRequest` returns false and `getRemainingRequests`
returns 0. -/
theorem daily_limit_reached (today : JSString) (times later : List Int) (now : Int) :
    getRequestCount (recordAll none (times.map (fun t => (⟨today, t⟩ : Clock)))) ⟨today, now⟩ =
      times.length ∧
    canMakeRequest times.length
      (recordAll (recordAll none (times.map (fun t => (⟨today, t⟩ : Clock))))
        (later.map (fun t => (⟨today, t⟩ : Clock)))) ⟨today, now⟩ = false ∧
    getRemainingRequests times.length
      (recordAll (recordAll none (times.map (fun t => (⟨today, t⟩ : Clock))))
        (later.map (fun t => (⟨today, t⟩ : Clock)))) ⟨today, now⟩ = 0 ∧
    (∀ timestamps lastReset (extra : Nat),
      canMakeRequest times.length (some ⟨today, times.length + extra, timestamps, lastReset⟩)
        ⟨today, now⟩ = false) := by
  have h0 : (getUsageData none ⟨today, now⟩).requests = 0 := rfl
  have h1 := recordAll_count today now times none
  rw [h0, zero_add] at h1
  have h2 := recordAll_count today now later (recordAll none (times.map (fun t => (⟨today, t⟩ : Clock))))
  rw [h1] at h2
  refine ⟨h1, ?_, ?_, ?_⟩
  · rw [canMakeRequest_eq_false_iff]
    left
    rw [h2]
    omega
  · unfold getRemainingRequests
    rw [h2]
    omega
  · intro timestamps lastReset extra
    rw [canMakeRequest_eq_false_iff]
    left
    rw [getUsageData_same_day _ _ rfl]
    show (times.length : Int) + extra ≥ times.length
    omega

/-- C8: for a persisted state of another calendar date, whatever its count and
timestamps, and a limit `L > 0`, `canMakeRequest` returns true, `getRequestCount` returns
0, `getRemainingRequests` returns `L`, and the next `recordRequest` persists a state of
the new date with count 1 and exactly one timestamp. -/
theorem day_rollover_resets (L : Int) (data : UsageData) (clock next : Clock)
    (hstale : data.date ≠ clock.today) (hL : L > 0) (hnext : next.today = clock.today) :
    canMakeRequest L (some data) clock = true ∧
    getRequestCount (some data) clock = 0 ∧
    getRemainingRequests L (some data) clock = L ∧
    recordRequest (some data) next =
      some { date := next.today, requests := 1, timestamps := [next.now], lastReset := next.now } := by
  have hstale2 : data.date ≠ next.today := by rw [hnext]; exact hstale
  refine ⟨?_, ?_, ?_, ?_⟩
  · cases hc : canMakeRequest L (some data) clock with
    | true => rfl
    | false =>
      rw [canMakeRequest_eq_false_iff, getUsageData_stale data clock hstale] at hc
      rcases hc with hc | hc
      · simp only [createNewUsageData] at hc; omega
      · simp [createNewUsageData, recentCount] at hc
  · unfold getRequestCount
    rw [getUsageData_stale data clock hstale]
    rfl
  · unfold getRemainingRequests
    rw [getUsageData_stale data clock hstale]
    simp only [createNewUsageData]
    omega
  · unfold recordRequest
    rw [getUsageData_stale data next hstale2]
    simp only [createNewUsageData, List.nil_append, zero_add]
    have ht : next.now > next.now - 60 * 60 * 1000 := by omega
    rw [List.filter_cons, if_pos (decide_eq_true ht)]
    rfl

theorem day_rollover_resets_witness :
    canMakeRequest 1500
      (some ⟨js "Mon Jan 01 2024", 2500, [1704100000000], 1704067200000⟩)
      ⟨js "Tue Jan 02 2024", 1704186000000⟩ = true :=
  (day_rollover_resets 1500 ⟨js "Mon Jan 01 2024", 2500, [1704100000000], 1704067200000⟩
    ⟨js "Tue Jan 02 2024", 1704186000000⟩ ⟨js "Tue Jan 02 2024", 1704186000000⟩
    (by decide) (by decide) rfl).1

/-- C9, as stated, fails: ten calls within ten seconds, five of them before midnight and
five after, leave five timestamps in the record of the new day, and the check that
follows within the same minute returns true. -/
theorem burst_across_midnight_counterexample :
    canMakeRequest 1500
      (recordAll none
        [⟨js "Mon Jan 01 2024", 1704153595000⟩, ⟨js "Mon Jan 01 2024", 1704153596000⟩,
         ⟨js "Mon Jan 01 2024", 1704153597000⟩, ⟨js "Mon Jan 01 2024", 1704153598000⟩,
         ⟨js "Mon Jan 01 2024", 1704153599000⟩, ⟨js "Tue Jan 02 2024", 1704153600000⟩,
         ⟨js "Tue Jan 02 2024", 1704153601000⟩, ⟨js "Tue Jan 02 2024", 1704153602000⟩,
         ⟨js "Tue Jan 02 2024", 1704153603000⟩, ⟨js "Tue Jan 02 2024", 1704153604000⟩])
      ⟨js "Tue Jan 02 2024", 1704153605000⟩ = true ∧
    (1704153605000 : Int) - 1704153595000 < 60000 := by
  decide

theorem recordAll_burst (L : Int) (stored : Storage) (today : JSString) (times : List Int)
    (now : Int) (hlen : 10 ≤ times.length)
    (hwindow : ∀ t ∈ times, now - 60000 < t ∧ t ≤ now) :
    canMakeRequest L (recordAll stored (times.map (fun t => (⟨today, t⟩ : Clock))))
      ⟨today, now⟩ = false := by
  rw [canMakeRequest_eq_false_iff]
  right
  have h := recordAll_recent today now times (fun t ht => by
    have := hwindow t ht
    constructor <;> omega) stored
  show recentCount now _ ≥ 10
  rw [h]
  omega

/-- C9, amended: if 10 `recordRequest` calls at times `t1 <= ... <= t10` and the
`canMakeRequest` check that follows at a time `now >= t10` all happen on one calendar
day, and `now - t1 < 60000` (all ten calls lie in the trailing 60-second window), the
check returns false, whatever the daily cap and the state before the calls. -/
theorem burst_guard_denies (L : Int) (stored : Storage) (today : JSString)
    (t1 t2 t3 t4 t5 t6 t7 t8 t9 t10 now : Int)
    (h12 : t1 ≤ t2) (h23 : t2 ≤ t3) (h34 : t3 ≤ t4) (h45 : t4 ≤ t5) (h56 : t5 ≤ t6)
    (h67 : t6 ≤ t7) (h78 : t7 ≤ t8) (h89 : t8 ≤ t9) (h910 : t9 ≤ t10) (hnow : t10 ≤ now)
    (hwindow : now - t1 < 60000) :
    canMakeRequest L
      (recordAll stored
        [⟨today, t1⟩, ⟨today, t2⟩, ⟨today, t3⟩, ⟨today, t4⟩, ⟨today, t5⟩,
         ⟨today, t6⟩, ⟨today, t7⟩, ⟨today, t8⟩, ⟨today, t9⟩, ⟨today, t10⟩])
      ⟨today, now⟩ = false := by
  have h := recordAll_burst L stored today [t1, t2, t3, t4, t5, t6, t7, t8, t9, t10] now
    (by simp) (by
      intro t ht
      simp only [List.mem_cons, List.mem_singleton, List.not_mem_nil, or_false] at ht
      rcases ht with h | h | h | h | h | h | h | h | h | h <;> subst h <;> constructor <;> omega)
  simpa using h

theorem burst_guard_denies_witness :
    canMakeRequest 1500
      (recordAll none
        [⟨js "Mon Jan 01 2024", 1704100000000⟩, ⟨js "Mon Jan 01 2024", 1704100001000⟩,
         ⟨js "Mon Jan 01 2024", 1704100002000⟩, ⟨js "Mon Jan 01 2024", 1704100003000⟩,
         ⟨js "Mon Jan 01 2024", 1704100004000⟩, ⟨js "Mon Jan 01 2024", 1704100005000⟩,
         ⟨js "Mon Jan 01 2024", 1704100006000⟩, ⟨js "Mon Jan 01 2024", 1704100007000⟩,
         ⟨js "Mon Jan 01 2024", 1704100008000⟩, ⟨js "Mon Jan 01 2024", 1704100009000⟩])
      ⟨js "Mon Jan 01 2024", 1704100010000⟩ = false :=
  burst_guard_denies 1500 none (js "Mon Jan 01 2024")
    1704100000000 1704100001000 1704100002000 1704100003000 1704100004000
    1704100005000 1704100006000 1704100007000 1704100008000 1704100009000 1704100010000
    (by decide) (by decide) (by decide) (by decide) (by decide) (by decide) (by decide)
    (by decide) (by decide) (by decide) (by decide)

theorem getIngredientRisk_no_entry (db : IngredientTable) (name : JSString) (h : name ≠ [])
    (hl : db.lookup (normalizeIngredientName name) = none) :
    getIngredientRisk db name = findPartialMatch (normalizeIngredientName name) := by
  unfold getIngredientRisk readEntry
  rw [if_neg h, hl]
  simp only []
  by_cases hk : normalizeIngredientName name = js "constructor" ∨
      normalizeIngredientName name = js "__proto__"
  · rw [if_pos hk]
    rcases hk with hk | hk
    · rw [hk, findPartialMatch_constructor]; rfl
    · rw [hk, findPartialMatch_proto]; rfl
  · rw [if_neg hk]

/-- C10: the offline report has `healthScore = max(1, min(10, 10 - 2*h - m))` for the
lengths `h` and `m` of its own `highConcern` and `moderate` lists; for the text
`Water, Sugar, Trans Fat, Salt` and a table without entries for these names, the lists
are `highConcern = [Trans Fat]`, `safe = [Water, Sugar, Salt]`, `moderate = []` and the
score is 8. -/
theorem fallbackAnalysis_score (db : IngredientTable) (ingredientText : JSString) :
    (∃ r, fallbackAnalysis db ingredientText = .ok r ∧
      r.healthScore = .int (max 1 (min 10
        (10 - 2 * (r.categories.highConcern.length : Int) - (r.categories.moderate.length : Int))))) ∧
    ((∀ n ∈ [js "Water", js "Sugar", js "Trans Fat", js "Salt"],
        db.lookup (normalizeIngredientName n) = none) →
      ∃ r, fallbackAnalysis db (js "Water, Sugar, Trans Fat, Salt") = .ok r ∧
        r.categories.highConcern = [.str (js "Trans Fat")] ∧
        r.categories.safe = [.str (js "Water"), .str (js "Sugar"), .str (js "Salt")] ∧
        r.categories.moderate = [] ∧
        r.healthScore = .int 8) := by
  constructor
  · obtain ⟨r, hr, hs, _⟩ := fallbackAnalysis_spec db ingredientText
    exact ⟨r, hr, hs⟩
  · intro hno
    obtain ⟨r, hr, hs, hc, _⟩ := fallbackAnalysis_spec db (js "Water, Sugar, Trans Fat, Salt")
    have hx : extractIngredients (js "Water, Sugar, Trans Fat, Salt") =
        [js "Water", js "Sugar", js "Trans Fat", js "Salt"] := by decide
    have w1 : getIngredientRisk db (js "Water") = js "safe" := by
      rw [getIngredientRisk_no_entry db _ (by decide) (hno _ (by simp))]; decide
    have w2 : getIngredientRisk db (js "Sugar") = js "safe" := by
      rw [getIngredientRisk_no_entry db _ (by decide) (hno _ (by simp))]; decide
    have w3 : getIngredientRisk db (js "Trans Fat") = js "highConcern" := by
      rw [getIngredientRisk_no_entry db _ (by decide) (hno _ (by simp))]; decide
    have w4 : getIngredientRisk db (js "Salt") = js "safe" := by
      rw [getIngredientRisk_no_entry db _ (by decide) (hno _ (by simp))]; decide
    have d1 : decide (js "safe" = js "moderate") = false := by decide
    have d2 : decide (js "safe" = js "highConcern") = false := by decide
    have d3 : decide (js "highConcern" = js "safe") = false := by decide
    have d4 : decide (js "highConcern" = js "moderate") = false := by decide
    have d5 : decide (js "safe" = js "safe") = true := by decide
    have d6 : decide (js "highConcern" = js "highConcern") = true := by decide
    rw [hx] at hc
    simp only [List.filter_cons, List.filter_nil, w1, w2, w3, w4, d1, d2, d3, d4, d5, d6,
      Categories.toValues, List.map_cons, List.map_nil, if_true, Bool.false_eq_true, if_false] at hc
    refine ⟨r, hr, ?_, ?_, ?_, ?_⟩
    · rw [hc]; rfl
    · rw [hc]; rfl
    · rw [hc]
    · rw [hs, hc]; rfl

theorem fallbackAnalysis_score_witness :
    ∃ r, fallbackAnalysis [] (js "Water, Sugar, Trans Fat, Salt") = .ok r ∧
      r.categories.highConcern = [.str (js "Trans Fat")] ∧
      r.categories.safe = [.str (js "Water"), .str (js "Sugar"), .str (js "Salt")] ∧
      r.categories.moderate = [] ∧
      r.healthScore = .int 8 :=
  (fallbackAnalysis_score [] []).2 (fun _ _ => rfl)

/-! ## Further properties of the reports -/

theorem parseTextResponse_spec (host : Host) (db : IngredientTable) (resp orig : JSString) :
    ∃ r, parseTextResponse host db resp orig = .ok r ∧
      r.categories = Categories.toValues
        ⟨(extractIngredients orig).filter (fun x => decide (getIngredientRisk db x = js "safe")),
          (extractIngredients orig).filter (fun x => decide (getIngredientRisk db x = js "moderate")),
          (extractIngredients orig).filter (fun x => decide (getIngredientRisk db x = js "highConcern"))⟩ ∧
      r.totalIngredients = .int (extractIngredients orig).length ∧
      r.source = js "gemini-ai" := by
  simp only [parseTextResponse, categorizeIngredients_eq]
  exact ⟨_, rfl, rfl, rfl, rfl⟩

theorem byRisk_toValues (db : IngredientTable) (tokens : List JSString) (c : RiskCategory) :
    (Categories.toValues
      ⟨tokens.filter (fun x => decide (getIngredientRisk db x = js "safe")),
        tokens.filter (fun x => decide (getIngredientRisk db x = js "moderate")),
        tokens.filter (fun x => decide (getIngredientRisk db x = js "highConcern"))⟩).byRisk c =
      (tokensOf db tokens c).map .str := by
  cases c <;> rfl

theorem tokensOf_lengths (db : IngredientTable) (tokens : List JSString) :
    (tokensOf db tokens .safe).length + (tokensOf db tokens .moderate).length +
      (tokensOf db tokens .highConcern).length = tokens.length := by
  induction tokens with
  | nil => rfl
  | cons t ts ih =>
    obtain ⟨c, hc⟩ := getIngredientRisk_eq_toJS db t
    have h1 : js "moderate" ≠ js "safe" := by decide
    have h2 : js "highConcern" ≠ js "safe" := by decide
    have h3 : js "highConcern" ≠ js "moderate" := by decide
    simp only [tokensOf, RiskCategory.toJS] at ih ⊢
    cases c <;>
      simp [List.filter_cons, hc, RiskCategory.toJS, h1, h2, h3, h1.symm, h2.symm, h3.symm] <;> omega

theorem str_mem_map_iff (t : JSString) (l : List JSString) :
    JSValue.str t ∈ l.map JSValue.str ↔ t ∈ l := by
  constructor
  · intro h
    obtain ⟨a, ha, he⟩ := List.mem_map.mp h
    cases he
    exact ha
  · intro h
    exact List.mem_map.mpr ⟨t, h, rfl⟩

theorem partitionsTokens_of (db : IngredientTable) (tokens : List JSString) (r : Report)
    (hc : r.categories = Categories.toValues
        ⟨tokens.filter (fun x => decide (getIngredientRisk db x = js "safe")),
          tokens.filter (fun x => decide (getIngredientRisk db x = js "moderate")),
          tokens.filter (fun x => decide (getIngredientRisk db x = js "highConcern"))⟩)
    (ht : r.totalIngredients = .int tokens.length) :
    partitionsTokens db tokens r := by
  have hby : ∀ c : RiskCategory, r.categories.byRisk c = (tokensOf db tokens c).map .str := by
    intro c; rw [hc]; exact byRisk_toValues db tokens c
  have hmem : ∀ t ∈ tokens, ∀ c : RiskCategory,
      (JSValue.str t ∈ r.categories.byRisk c ↔ getIngredientRisk db t = c.toJS) := by
    intro t ht c
    rw [hby c, str_mem_map_iff]
    simp [tokensOf, List.mem_filter, ht]
  refine ⟨hby, hmem, ?_, ?_, ?_⟩
  · intro t ht
    obtain ⟨c, hc2⟩ := getIngredientRisk_eq_toJS db t
    refine ⟨c, (hmem t ht c).mpr hc2, fun d hd => ?_⟩
    exact toJS_injective d c (((hmem t ht d).mp hd).symm.trans hc2)
  · intro c v hv
    rw [hby c] at hv
    obtain ⟨t, ht2, he⟩ := List.mem_map.mp hv
    exact ⟨t, (List.mem_filter.mp ht2).1, he.symm⟩
  · have h1 := hby .safe
    have h2 := hby .moderate
    have h3 := hby .highConcern
    simp only [Categories.byRisk] at h1 h2 h3
    rw [ht, h1, h2, h3, List.length_map, List.length_map, List.length_map, tokensOf_lengths]

/-- C12: in the report of `fallbackAnalysis`, and in the report of `parseTextResponse`
for the original text, the three category lists partition the tokens of
`extractIngredients`: every token lies in exactly one list, the one `getIngredientRisk`
names, in extraction order, no list holds anything else, and `totalIngredients` is
`|safe| + |moderate| + |highConcern|`. -/
theorem categories_partition_tokens (host : Host) (db : IngredientTable)
    (ingredientText responseText : JSString) :
    (∃ r, fallbackAnalysis db ingredientText = .ok r ∧
      partitionsTokens db (extractIngredients ingredientText) r) ∧
    (∃ r, parseTextResponse host db responseText ingredientText = .ok r ∧
      partitionsTokens db (extractIngredients ingredientText) r) := by
  constructor
  · obtain ⟨r, hr, _, hc, ht, _⟩ := fallbackAnalysis_spec db ingredientText
    exact ⟨r, hr, partitionsTokens_of db _ r hc ht⟩
  · obtain ⟨r, hr, hc, ht, _⟩ := parseTextResponse_spec host db responseText ingredientText
    exact ⟨r, hr, partitionsTokens_of db _ r hc ht⟩
/-- C11: with the AI path unavailable and no table entries for the names involved,
`analyzeIngredients` on `INGREDIENTS: Water, Partially Hydrogenated Oil, Salt` returns a
report whose tokens are exactly `Water`, `Partially Hydrogenated Oil`, `Salt`, whose
`highConcern` list contains `Partially Hydrogenated Oil` and whose `healthScore` is 8. -/
theorem analyzeIngredients_offline_example (host : Host) (maxDailyRequests : Int)
    (db : IngredientTable) (state : SystemState) (world : World)
    (hun : aiUnavailable maxDailyRequests state world)
    (hno : ∀ n ∈ [js "Water", js "Partially Hydrogenated Oil", js "Salt"],
      db.lookup (normalizeIngredientName n) = none) :
    extractIngredients (js "INGREDIENTS: Water, Partially Hydrogenated Oil, Salt") =
      [js "Water", js "Partially Hydrogenated Oil", js "Salt"] ∧
    ∃ r, (analyzeIngredients host maxDailyRequests db state world
        (js "INGREDIENTS: Water, Partially Hydrogenated Oil, Salt")).1 = .ok r ∧
      r.totalIngredients = .int 3 ∧
      r.categories.safe = [.str (js "Water"), .str (js "Salt")] ∧
      r.categories.moderate = [] ∧
      r.categories.highConcern = [.str (js "Partially Hydrogenated Oil")] ∧
      JSValue.str (js "Partially Hydrogenated Oil") ∈ r.categories.highConcern ∧
      r.healthScore = .int 8 := by
  have hx : extractIngredients (js "INGREDIENTS: Water, Partially Hydrogenated Oil, Salt") =
      [js "Water", js "Partially Hydrogenated Oil", js "Salt"] := by decide
  refine ⟨hx, ?_⟩
  obtain ⟨r, hr, hs, hc, ht, _⟩ :=
    fallbackAnalysis_spec db (js "INGREDIENTS: Water, Partially Hydrogenated Oil, Salt")
  have w1 : getIngredientRisk db (js "Water") = js "safe" := by
    rw [getIngredientRisk_no_entry db _ (by decide) (hno _ (by simp))]; decide
  have w2 : getIngredientRisk db (js "Partially Hydrogenated Oil") = js "highConcern" := by
    rw [getIngredientRisk_no_entry db _ (by decide) (hno _ (by simp))]; decide
  have w3 : getIngredientRisk db (js "Salt") = js "safe" := by
    rw [getIngredientRisk_no_entry db _ (by decide) (hno _ (by simp))]; decide
  have d1 : decide (js "safe" = js "moderate") = false := by decide
  have d2 : decide (js "safe" = js "highConcern") = false := by decide
  have d3 : decide (js "highConcern" = js "safe") = false := by decide
  have d4 : decide (js "highConcern" = js "moderate") = false := by decide
  have d5 : decide (js "safe" = js "safe") = true := by decide
  have d6 : decide (js "highConcern" = js "highConcern") = true := by decide
  rw [hx] at hc ht
  simp only [List.filter_cons, List.filter_nil, w1, w2, w3, d1, d2, d3, d4, d5, d6,
    Categories.toValues, List.map_cons, List.map_nil, if_true, Bool.false_eq_true, if_false] at hc
  refine ⟨r, ?_, ht, ?_, ?_, ?_, ?_, ?_⟩
  · rw [analyzeIngredients_unavailable host maxDailyRequests db state world _ hun]
    exact hr
  · rw [hc]; rfl
  · rw [hc]
  · rw [hc]; rfl
  · rw [hc]; exact List.mem_singleton.mpr rfl
  · rw [hs, hc]; rfl

theorem analyzeIngredients_offline_example_witness :
    ∃ r, (analyzeIngredients ⟨fun _ => .nan, fun _ => none⟩ 1500 [] ⟨none, ⟨false, 0, 0⟩⟩
        ⟨⟨js "Mon Jan 01 2024", 0⟩, false, true, .ok [], ⟨js "Mon Jan 01 2024", 0⟩, 0⟩
        (js "INGREDIENTS: Water, Partially Hydrogenated Oil, Salt")).1 = .ok r ∧
      r.healthScore = .int 8 := by
  obtain ⟨_, r, hr, _, _, _, _, _, hs⟩ :=
    analyzeIngredients_offline_example ⟨fun _ => .nan, fun _ => none⟩ 1500 [] ⟨none, ⟨false, 0, 0⟩⟩
      ⟨⟨js "Mon Jan 01 2024", 0⟩, false, true, .ok [], ⟨js "Mon Jan 01 2024", 0⟩, 0⟩
      (Or.inr (Or.inl ⟨rfl, rfl⟩)) (fun _ _ => rfl)
  exact ⟨r, hr, hs⟩

theorem parseGeminiResponse_cases (host : Host) (db : IngredientTable) (resp orig : JSString) :
    ∃ r, parseGeminiResponse host db resp orig = .ok r ∧
      (fallbackAnalysis db orig = .ok r ∨ parseTextResponse host db resp orig = .ok r ∨
        ∃ parsed, validateAndCleanResponse host parsed = .ok r) := by
  obtain ⟨rf, hrf, _⟩ := fallbackAnalysis_inRange db orig
  unfold parseGeminiResponse
  simp only []
  split
  · rename_i report hreport
    refine ⟨report, rfl, ?_⟩
    split at hreport
    · split at hreport
      · rename_i parsed _
        exact Or.inr (Or.inr ⟨parsed, hreport⟩)
      · cases hreport
    · exact Or.inr (Or.inl hreport)
  · exact ⟨rf, hrf, Or.inl hrf⟩

theorem analyzeIngredients_cases (host : Host) (maxDailyRequests : Int) (db : IngredientTable)
    (state : SystemState) (world : World) (text : JSString) :
    ∃ r, (analyzeIngredients host maxDailyRequests db state world text).1 = .ok r ∧
      (fallbackAnalysis db text = .ok r ∨
        (∃ resp, parseTextResponse host db resp text = .ok r) ∨
        ∃ parsed, validateAndCleanResponse host parsed = .ok r) := by
  obtain ⟨rf, hrf, _⟩ := fallbackAnalysis_inRange db text
  unfold analyzeIngredients
  split
  · rw [hrf]; exact ⟨rf, rfl, Or.inl rfl⟩
  · split
    · rw [onAnalysisError_eq, hrf]; exact ⟨rf, rfl, Or.inl rfl⟩
    · split
      · rw [onAnalysisError_eq, hrf]; exact ⟨rf, rfl, Or.inl rfl⟩
      · rename_i t ht
        obtain ⟨rg, hrg, hcase⟩ := parseGeminiResponse_cases host db t text
        simp only []
        rw [hrg]
        refine ⟨rg, rfl, ?_⟩
        rcases hcase with h | h | h
        · exact Or.inl h
        · exact Or.inr (Or.inl ⟨t, h⟩)
        · exact Or.inr (Or.inr h)

theorem validateAndCleanResponse_source (host : Host) (response : JSValue) (r : Report)
    (h : validateAndCleanResponse host response = .ok r) : r.source = js "gemini-ai" := by
  obtain ⟨hn, h1, h2⟩ := validateAndCleanResponse_ok host response r h
  rw [validateAndCleanResponse_eq host response hn h1 h2] at h
  cases h
  rfl

/-- C13, as stated, fails: the text `Salt, Salt` yields the token `Salt` twice, and the
offline report that `analyzeIngredients` returns lists it twice under `safe`; a validated
AI payload keeps whatever arrays the payload holds, repeated names included. -/
theorem category_lists_duplicates_counterexample :
    (∃ r, (analyzeIngredients ⟨fun _ => .nan, fun _ => none⟩ 1500 [] ⟨none, ⟨false, 0, 0⟩⟩
        ⟨⟨js "Mon Jan 01 2024", 0⟩, false, true, .ok [], ⟨js "Mon Jan 01 2024", 0⟩, 0⟩
        (js "Salt, Salt")).1 = .ok r ∧
      r.categories.safe = [.str (js "Salt"), .str (js "Salt")] ∧
      ¬ (r.categories.safe ++ r.categories.moderate ++ r.categories.highConcern).Nodup) ∧
    (∀ host : Host, ∃ r,
      validateAndCleanResponse host
        (.obj [(js "categories", .obj [(js "safe", .arr [.str (js "Salt"), .str (js "Salt")])])]) =
          .ok r ∧
      ¬ (r.categories.safe ++ r.categories.moderate ++ r.categories.highConcern).Nodup) := by
  constructor
  · obtain ⟨r, hr, _, hc, _⟩ := fallbackAnalysis_spec [] (js "Salt, Salt")
    have hx : extractIngredients (js "Salt, Salt") = [js "Salt", js "Salt"] := by decide
    have w : getIngredientRisk [] (js "Salt") = js "safe" := by decide
    have d1 : decide (js "safe" = js "moderate") = false := by decide
    have d2 : decide (js "safe" = js "highConcern") = false := by decide
    have d5 : decide (js "safe" = js "safe") = true := by decide
    rw [hx] at hc
    simp only [List.filter_cons, List.filter_nil, w, d1, d2, d5,
      Categories.toValues, List.map_cons, List.map_nil, if_true, Bool.false_eq_true, if_false] at hc
    have hsafe : r.categories.safe = [.str (js "Salt"), .str (js "Salt")] := by rw [hc]; rfl
    refine ⟨r, ?_, hsafe, ?_⟩
    · rw [analyzeIngredients_unavailable _ _ _ _ _ _ (Or.inr (Or.inl ⟨rfl, rfl⟩))]
      exact hr
    · rw [hsafe]
      simp
  · intro host
    refine ⟨_, validateAndCleanResponse_eq host _ (by simp) rfl rfl, ?_⟩
    simp [JSValue.get, arrayOrEmpty, js]

/-- C13, amended: in every report built by `fallbackAnalysis` or by `parseTextResponse`,
whatever the text, no ingredient name lies in two different category lists; and the
concatenation of the three lists contains no duplicates whenever the tokens of
`extractIngredients` are pairwise distinct. -/
theorem category_lists_nodup (host : Host) (db : IngredientTable)
    (ingredientText responseText : JSString) :
    (∃ r, fallbackAnalysis db ingredientText = .ok r ∧
      (∀ c d : RiskCategory, c ≠ d → ∀ v ∈ r.categories.byRisk c, v ∉ r.categories.byRisk d) ∧
      ((extractIngredients ingredientText).Nodup →
        (r.categories.safe ++ r.categories.moderate ++ r.categories.highConcern).Nodup)) ∧
    (∃ r, parseTextResponse host db responseText ingredientText = .ok r ∧
      (∀ c d : RiskCategory, c ≠ d → ∀ v ∈ r.categories.byRisk c, v ∉ r.categories.byRisk d) ∧
      ((extractIngredients ingredientText).Nodup →
        (r.categories.safe ++ r.categories.moderate ++ r.categories.highConcern).Nodup)) := by
  have key : ∀ r : Report, partitionsTokens db (extractIngredients ingredientText) r →
      (∀ c d : RiskCategory, c ≠ d → ∀ v ∈ r.categories.byRisk c, v ∉ r.categories.byRisk d) ∧
      ((extractIngredients ingredientText).Nodup →
        (r.categories.safe ++ r.categories.moderate ++ r.categories.highConcern).Nodup) := by
    intro r ⟨hby, hmem, _, hback, _⟩
    have hdisj : ∀ c d : RiskCategory, c ≠ d →
        ∀ v ∈ r.categories.byRisk c, v ∉ r.categories.byRisk d := by
      intro c d hcd v hv hv2
      obtain ⟨t, ht, he⟩ := hback c v hv
      subst he
      exact hcd (toJS_injective c d (((hmem t ht c).mp hv).symm.trans ((hmem t ht d).mp hv2)))
    refine ⟨hdisj, fun hnodup => ?_⟩
    have hnd : ∀ c : RiskCategory, (r.categories.byRisk c).Nodup := by
      intro c
      rw [hby c]
      refine List.Nodup.map ?_ (hnodup.filter _)
      intro a b hab
      cases hab
      rfl
    have h1 := hnd .safe
    have h2 := hnd .moderate
    have h3 := hnd .highConcern
    have d12 := hdisj .safe .moderate (by decide)
    have d13 := hdisj .safe .highConcern (by decide)
    have d23 := hdisj .moderate .highConcern (by decide)
    simp only [Categories.byRisk] at h1 h2 h3 d12 d13 d23
    rw [List.nodup_append, List.nodup_append]
    refine ⟨⟨h1, h2, fun v hv hv2 => d12 v hv hv2⟩, h3, ?_⟩
    intro v hv hv2
    rcases List.mem_append.mp hv with h | h
    · exact d13 v h hv2
    · exact d23 v h hv2
  constructor
  · obtain ⟨r, hr, _, hc, ht, _⟩ := fallbackAnalysis_spec db ingredientText
    exact ⟨r, hr, key r (partitionsTokens_of db _ r hc ht)⟩
  · obtain ⟨r, hr, hc, ht, _⟩ := parseTextResponse_spec host db responseText ingredientText
    exact ⟨r, hr, key r (partitionsTokens_of db _ r hc ht)⟩

theorem category_lists_nodup_witness :
    (extractIngredients (js "Water, Salt")).Nodup ∧
    ∃ r, fallbackAnalysis [] (js "Water, Salt") = .ok r ∧
      (r.categories.safe ++ r.categories.moderate ++ r.categories.highConcern).Nodup := by
  have h : (extractIngredients (js "Water, Salt")).Nodup := by decide
  obtain ⟨⟨r, hr, _, hn⟩, _⟩ :=
    category_lists_nodup ⟨fun _ => .nan, fun _ => none⟩ [] (js "Water, Salt") []
  exact ⟨h, r, hr, hn h⟩

theorem parseGeminiResponse_raises (host : Host) (db : IngredientTable) (resp orig : JSString)
    (m : MatchResult) (parsed : JSValue) (hm : jsonSpanPattern.exec resp = some m)
    (hp : jsonParse m.matched = some parsed)
    (h : parsed = .null ∨ parseIntRaises (parsed.get "healthScore") = true ∨
      parseIntRaises (parsed.get "totalIngredients") = true) :
    parseGeminiResponse host db resp orig = fallbackAnalysis db orig := by
  obtain ⟨e, he⟩ := validateAndCleanResponse_raises host parsed h
  unfold parseGeminiResponse
  simp only [hm, hp, he]

/-- C14, as stated, fails: the report of `fallbackAnalysis` carries the source
`offline-database` and a report derived from the AI response carries `gemini-ai`;
neither is `ai` or `offline`. -/
theorem report_source_counterexample :
    (∃ r, fallbackAnalysis [] (js "Water") = .ok r ∧
      r.source = js "offline-database" ∧ r.source ≠ js "offline" ∧ r.source ≠ js "ai") ∧
    (∀ host : Host, ∃ r, validateAndCleanResponse host (.obj []) = .ok r ∧
      r.source = js "gemini-ai" ∧ r.source ≠ js "ai" ∧ r.source ≠ js "offline") := by
  constructor
  · obtain ⟨r, hr, _, _, _, hs⟩ := fallbackAnalysis_spec [] (js "Water")
    refine ⟨r, hr, hs, ?_, ?_⟩ <;> rw [hs] <;> decide
  · intro host
    refine ⟨_, validateAndCleanResponse_eq host _ (by simp) rfl rfl, rfl, ?_, ?_⟩
    · show js "gemini-ai" ≠ js "ai"
      decide
    · show js "gemini-ai" ≠ js "offline"
      decide

/-- C14, amended: every report returned by `analyzeIngredients` carries a source field
equal to `gemini-ai` or `offline-database`: `offline-database` for every report of
`fallbackAnalysis`, the AI-unavailable case included, and `gemini-ai` for every report
that `validateAndCleanResponse` builds and for every report of `parseTextResponse`. A
payload on which `validateAndCleanResponse` raises yields no such report:
`parseGeminiResponse` answers with the report of `fallbackAnalysis`. -/
theorem report_source (host : Host) (maxDailyRequests : Int) (db : IngredientTable)
    (state : SystemState) (world : World) (ingredientText responseText : JSString)
    (response : JSValue) :
    (∃ r, (analyzeIngredients host maxDailyRequests db state world ingredientText).1 = .ok r ∧
      (r.source = js "gemini-ai" ∨ r.source = js "offline-database")) ∧
    (∃ r, fallbackAnalysis db ingredientText = .ok r ∧ r.source = js "offline-database") ∧
    (aiUnavailable maxDailyRequests state world →
      ∃ r, (analyzeIngredients host maxDailyRequests db state world ingredientText).1 = .ok r ∧
        r.source = js "offline-database") ∧
    (∀ r, validateAndCleanResponse host response = .ok r → r.source = js "gemini-ai") ∧
    (∃ r, parseTextResponse host db responseText ingredientText = .ok r ∧
      r.source = js "gemini-ai") ∧
    (∀ m, jsonSpanPattern.exec responseText = some m → jsonParse m.matched = some response →
      (response = .null ∨ parseIntRaises (response.get "healthScore") = true ∨
        parseIntRaises (response.get "totalIngredients") = true) →
      parseGeminiResponse host db responseText ingredientText =
        fallbackAnalysis db ingredientText) := by
  obtain ⟨rf, hrf, _, _, _, hsf⟩ := fallbackAnalysis_spec db ingredientText
  refine ⟨?_, ⟨rf, hrf, hsf⟩, ?_, validateAndCleanResponse_source host response, ?_, ?_⟩
  · obtain ⟨r, hr, hcase⟩ := analyzeIngredients_cases host maxDailyRequests db state world ingredientText
    refine ⟨r, hr, ?_⟩
    rcases hcase with h | ⟨resp, h⟩ | ⟨parsed, h⟩
    · right
      rw [hrf] at h
      cases h
      exact hsf
    · left
      obtain ⟨r2, hr2, _, _, hs2⟩ := parseTextResponse_spec host db resp ingredientText
      rw [hr2] at h
      cases h
      exact hs2
    · left
      exact validateAndCleanResponse_source host parsed r h
  · intro hun
    refine ⟨rf, ?_, hsf⟩
    rw [analyzeIngredients_unavailable host maxDailyRequests db state world _ hun]
    exact hrf
  · obtain ⟨r2, hr2, _, _, hs2⟩ := parseTextResponse_spec host db responseText ingredientText
    exact ⟨r2, hr2, hs2⟩
  · intro m hm hp h
    exact parseGeminiResponse_raises host db responseText ingredientText m response hm hp h

theorem report_source_witness :
    ∃ r, (analyzeIngredients ⟨fun _ => .nan, fun _ => none⟩ 1500 [] ⟨none, ⟨false, 0, 0⟩⟩
        ⟨⟨js "Mon Jan 01 2024", 0⟩, false, true, .ok [], ⟨js "Mon Jan 01 2024", 0⟩, 0⟩
        (js "Water")).1 = .ok r ∧ r.source = js "offline-database" :=
  (report_source ⟨fun _ => .nan, fun _ => none⟩ 1500 [] ⟨none, ⟨false, 0, 0⟩⟩
    ⟨⟨js "Mon Jan 01 2024", 0⟩, false, true, .ok [], ⟨js "Mon Jan 01 2024", 0⟩, 0⟩
    (js "Water") [] .null).2.2.1 (Or.inr (Or.inl ⟨rfl, rfl⟩))

/-! ## Properties of the validated payload -/

theorem sampleHost_standard : sampleHost.standard := by
  intro x r h
  simp [sampleHost, h]

theorem integerLiteral_parse (literal : JSString) (s : Int) (h : integerLiteral literal = some s) :
    parseIntString literal = .int s := by
  unfold integerLiteral at h
  split at h
  · split at h
    · rename_i z hz
      cases h
      exact hz
    · cases h
  · cases h

theorem standardParseInt_integer (literal : JSString) (s : Int)
    (h : integerLiteral literal = some s) (hs : s.natAbs ≤ 2 ^ 53) :
    standardParseInt (some (.num literal)) = some (.int s) := by
  have hp := integerLiteral_parse literal s h
  simp only [standardParseInt, toStringExact, h, hs, if_true]
  by_cases h0 : s = 0
  · subst h0
    have : parseIntString (js "0") = .int 0 := by decide
    simp [this]
  · simp only [h0, if_false, hp, hs, if_true]

theorem validateAndCleanResponse_score_eq (host : Host) (response : JSValue) (r : Report)
    (h : validateAndCleanResponse host response = .ok r) :
    r.healthScore = JSNum.max (.int 1) (JSNum.min (.int 10)
        ((host.parseInt (response.get "healthScore")).orElse (.int 5))) ∧
      r.totalIngredients =
        (host.parseInt (response.get "totalIngredients")).orElse (.int 0) := by
  obtain ⟨hn, h1, h2⟩ := validateAndCleanResponse_ok host response r h
  rw [validateAndCleanResponse_eq host response hn h1 h2] at h
  cases h
  exact ⟨rfl, rfl⟩

theorem orElse_int (s d : Int) (h : s ≠ 0) : (JSNum.int s).orElse (.int d) = .int s := by
  unfold JSNum.orElse
  split
  · rename_i heq; cases heq
  · rename_i heq; cases heq; exact absurd rfl h
  · rfl

/-- C15: the code diverges from the clamp. For the payload `{"healthScore": 0}` the
built-in `parseInt` reads 0, which `|| 5` replaces before the clamp, so
`validateAndCleanResponse` answers 5 where `max(1, min(10, 0))` is 1; the sibling
`parseTextResponse` clamps the score 0 of a response text to 1. -/
theorem healthScore_zero_defaulted :
    standardParseInt (some (.num (js "0"))) = some (.int 0) ∧
    (∀ host : Host, host.standard →
      ∃ r, validateAndCleanResponse host (.obj [(js "healthScore", .num (js "0"))]) = .ok r ∧
        r.healthScore = .int 5 ∧ r.healthScore ≠ .int (max 1 (min 10 0))) ∧
    (∀ (host : Host) (db : IngredientTable), host.roundFloat (js "0") = some 0 →
      ∃ r, parseTextResponse host db (js "score: 0") (js "Water") = .ok r ∧
        r.healthScore = .int (max 1 (min 10 0))) := by
  have h0 : standardParseInt (some (.num (js "0"))) = some (.int 0) := by decide
  refine ⟨h0, fun host hstd => ?_, fun host db hround => ?_⟩
  · obtain ⟨r, hr⟩ : ∃ r, validateAndCleanResponse host
        (.obj [(js "healthScore", .num (js "0"))]) = .ok r :=
      ⟨_, validateAndCleanResponse_eq host _ (by simp) rfl rfl⟩
    obtain ⟨hs, _⟩ := validateAndCleanResponse_score_eq host _ r hr
    have hg : (JSValue.obj [(js "healthScore", .num (js "0"))]).get "healthScore" =
        some (.num (js "0")) := by rfl
    rw [hg, hstd _ _ h0] at hs
    refine ⟨_, hr, hs, ?_⟩
    rw [hs]
    decide
  · have hcap : (scorePattern.exec (js "score: 0")).map (fun m => (m.capture 1).getD []) =
        some (js "0") := by decide
    simp only [parseTextResponse, categorizeIngredients_eq]
    refine ⟨_, rfl, ?_⟩
    cases hm : scorePattern.exec (js "score: 0") with
    | none =>
      rw [hm] at hcap
      cases hcap
    | some m =>
      rw [hm] at hcap
      simp only [Option.map_some', Option.some.injEq] at hcap
      simp only [hcap, hround]
      rfl

/-- On a host with the built-in `parseInt`, the `healthScore` of a report that
`validateAndCleanResponse` builds: `max(1, min(10, s))` for a non-zero integer `s` of
magnitude at most `2^53`; 5 when the payload's value is 0, missing, `null`, a boolean,
an object or a string without a leading integer. -/
theorem validateAndCleanResponse_score (host : Host) (hstd : host.standard)
    (fields : List (JSString × JSValue)) (r : Report)
    (hr : validateAndCleanResponse host (.obj fields) = .ok r) :
    (∀ literal s, (JSValue.obj fields).get "healthScore" = some (.num literal) →
      integerLiteral literal = some s → s.natAbs ≤ 2 ^ 53 → s ≠ 0 →
      r.healthScore = .int (max 1 (min 10 s))) ∧
    (∀ literal, (JSValue.obj fields).get "healthScore" = some (.num literal) →
      integerLiteral literal = some 0 → r.healthScore = .int 5) ∧
    (((JSValue.obj fields).get "healthScore" = none ∨
      (JSValue.obj fields).get "healthScore" = some .null ∨
      (∃ b, (JSValue.obj fields).get "healthScore" = some (.bool b)) ∨
      (∃ f, (JSValue.obj fields).get "healthScore" = some (.obj f)) ∨
      (∃ s, (JSValue.obj fields).get "healthScore" = some (.str s) ∧ parseIntString s = .nan)) →
      r.healthScore = .int 5) := by
  obtain ⟨hs, _⟩ := validateAndCleanResponse_score_eq host _ r hr
  obtain ⟨_, hraise, _⟩ := validateAndCleanResponse_ok host _ r hr
  refine ⟨?_, ?_, ?_⟩
  · intro literal s hg hl hb h0
    rw [hs, hg, hstd _ _ (standardParseInt_integer literal s hl hb), orElse_int s 5 h0]
    rfl
  · intro literal hg hl
    rw [hs, hg, hstd _ _ (standardParseInt_integer literal 0 hl (by decide))]
    rfl
  · intro h
    have hnan : host.parseInt ((JSValue.obj fields).get "healthScore") = .nan := by
      rcases h with h | h | ⟨b, h⟩ | ⟨f, h⟩ | ⟨s, h, hp⟩
      · rw [h]; exact hstd _ _ (by decide)
      · rw [h]; exact hstd _ _ (by decide)
      · rw [h]; cases b <;> exact hstd _ _ (by decide)
      · rw [h] at hraise ⊢
        have hf : toStringRaises (.obj f) = false := hraise
        exact hstd _ _ (by
          simp only [standardParseInt, toStringExact, hf, Bool.false_eq_true, if_false]
          have : parseIntString (js "[object Object]") = .nan := by decide
          rw [this])
      · rw [h]; exact hstd _ _ (by simp only [standardParseInt, toStringExact, hp])
    rw [hs, hnan]
    rfl

/-- C16, as stated, fails: for the payload `{"totalIngredients": -3}` the result's
`totalIngredients` is -3, not a non-negative count; and for `{"details": null}` the
result's `details` is `null`. -/
theorem validated_fields_counterexample :
    standardParseInt (some (.num (js "-3"))) = some (.int (-3)) ∧
    (∀ host : Host, host.standard →
      ∃ r, validateAndCleanResponse host (.obj [(js "totalIngredients", .num (js "-3"))]) = .ok r ∧
        r.totalIngredients = .int (-3)) ∧
    (∀ host : Host,
      ∃ r, validateAndCleanResponse host (.obj [(js "details", .null)]) = .ok r ∧
        r.details = .null) := by
  have h3 : standardParseInt (some (.num (js "-3"))) = some (.int (-3)) := by decide
  refine ⟨h3, fun host hstd => ?_,
    fun host => ⟨_, validateAndCleanResponse_eq host _ (by simp) rfl rfl, rfl⟩⟩
  obtain ⟨r, hr⟩ : ∃ r, validateAndCleanResponse host
      (.obj [(js "totalIngredients", .num (js "-3"))]) = .ok r :=
    ⟨_, validateAndCleanResponse_eq host _ (by simp) rfl rfl⟩
  obtain ⟨_, ht⟩ := validateAndCleanResponse_score_eq host _ r hr
  have hg : (JSValue.obj [(js "totalIngredients", .num (js "-3"))]).get "totalIngredients" =
      some (.num (js "-3")) := by rfl
  rw [hg, hstd _ _ h3] at ht
  exact ⟨_, hr, ht⟩

/-- C16, amended: for every parsed JSON object payload, `validateAndCleanResponse` builds
a report exactly when `parseInt` raises on neither the payload's `healthScore` nor its
`totalIngredients`; in that report the three category lists and `warnings` are the
payload's value when that is an array and the empty array otherwise; `advice` is the
payload's when that is a string and a fixed default otherwise; `totalIngredients` is what
`parseInt` reads from the payload's value, an integer of either sign or an infinity, and
0 when it reads `NaN`; `details` is the payload's when that is a name-to-entry map, and
the empty map when the payload's is missing, a string, a number or a boolean. -/
theorem validated_fields (host : Host) (fields : List (JSString × JSValue)) :
    ((∃ r, validateAndCleanResponse host (.obj fields) = .ok r) ↔
      (parseIntRaises ((JSValue.obj fields).get "healthScore") = false ∧
        parseIntRaises ((JSValue.obj fields).get "totalIngredients") = false)) ∧
    ∀ r, validateAndCleanResponse host (.obj fields) = .ok r →
      ((∀ items, (((JSValue.obj fields).get "categories").getD .null).get "safe" =
          some (.arr items) → r.categories.safe = items) ∧
        ((∀ items, (((JSValue.obj fields).get "categories").getD .null).get "safe" ≠
          some (.arr items)) → r.categories.safe = [])) ∧
      ((∀ items, (((JSValue.obj fields).get "categories").getD .null).get "moderate" =
          some (.arr items) → r.categories.moderate = items) ∧
        ((∀ items, (((JSValue.obj fields).get "categories").getD .null).get "moderate" ≠
          some (.arr items)) → r.categories.moderate = [])) ∧
      ((∀ items, (((JSValue.obj fields).get "categories").getD .null).get "highConcern" =
          some (.arr items) → r.categories.highConcern = items) ∧
        ((∀ items, (((JSValue.obj fields).get "categories").getD .null).get "highConcern" ≠
          some (.arr items)) → r.categories.highConcern = [])) ∧
      ((∀ items, (JSValue.obj fields).get "warnings" = some (.arr items) → r.warnings = items) ∧
        ((∀ items, (JSValue.obj fields).get "warnings" ≠ some (.arr items)) → r.warnings = [])) ∧
      ((∀ a, (JSValue.obj fields).get "advice" = some (.str a) → r.advice = a) ∧
        ((∀ a, (JSValue.obj fields).get "advice" ≠ some (.str a)) →
          r.advice = js "No specific advice available")) ∧
      (r.totalIngredients ≠ .nan ∧
        (host.parseInt ((JSValue.obj fields).get "totalIngredients") = .nan →
          r.totalIngredients = .int 0) ∧
        (∀ z, z ≠ 0 → host.parseInt ((JSValue.obj fields).get "totalIngredients") = .int z →
          r.totalIngredients = .int z)) ∧
      ((∀ entries, (JSValue.obj fields).get "details" = some (.obj entries) →
          r.details = .obj entries) ∧
        (((JSValue.obj fields).get "details" = none ∨
          (∃ s, (JSValue.obj fields).get "details" = some (.str s)) ∨
          (∃ n, (JSValue.obj fields).get "details" = some (.num n)) ∨
          (∃ b, (JSValue.obj fields).get "details" = some (.bool b))) →
          r.details = .obj [])) := by
  have harr : ∀ x : Option JSValue,
      (∀ items, x = some (.arr items) → arrayOrEmpty x = items) ∧
      ((∀ items, x ≠ some (.arr items)) → arrayOrEmpty x = []) := by
    intro x
    constructor
    · intro items h; rw [h]; rfl
    · intro h
      unfold arrayOrEmpty
      split
      · rename_i items; exact absurd rfl (h items)
      · rfl
  constructor
  · constructor
    · rintro ⟨r, hr⟩
      exact (validateAndCleanResponse_ok host _ r hr).2
    · rintro ⟨h1, h2⟩
      exact ⟨_, validateAndCleanResponse_eq host (.obj fields) (by simp) h1 h2⟩
  intro r hr
  obtain ⟨hn, h1, h2⟩ := validateAndCleanResponse_ok host _ r hr
  rw [validateAndCleanResponse_eq host _ hn h1 h2] at hr
  cases hr
  refine ⟨harr _, harr _, harr _, harr _, ?_, ?_, ?_⟩
  · constructor
    · intro a h; simp only [h]
    · intro h
      dsimp only
      split
      · rename_i a heq; exact absurd heq (h a)
      · rfl
  · refine ⟨orElse_ne_nan _ 0, ?_, ?_⟩
    · intro h; simp only [h]; rfl
    · intro z hz h; simp only [h]; exact orElse_int z 0 hz
  · constructor
    · intro entries h; simp only [h]
    · intro h
      rcases h with h | ⟨s, h⟩ | ⟨n, h⟩ | ⟨b, h⟩ <;> simp only [h]

/-! ## Further properties of the usage quota tracker -/

theorem analyzeIngredients_storage_recorded (host : Host) (maxDailyRequests : Int)
    (db : IngredientTable) (state : SystemState) (world : World) (text : JSString)
    (hd : requestDispatched maxDailyRequests state world) (t : JSString) (ht : world.call = .ok t) :
    (analyzeIngredients host maxDailyRequests db state world text).2.storage =
      recordRequest state.storage world.recording := by
  obtain ⟨hc, service, hs⟩ := hd
  unfold analyzeIngredients
  simp only [hc, hs, ht, Bool.not_true, Bool.false_eq_true, if_false]
  split <;> rfl

theorem analyzeIngredients_storage_unchanged (host : Host) (maxDailyRequests : Int)
    (db : IngredientTable) (state : SystemState) (world : World) (text : JSString)
    (h : ¬ requestDispatched maxDailyRequests state world ∨ ∃ e, world.call = .error e) :
    (analyzeIngredients host maxDailyRequests db state world text).2.storage = state.storage := by
  unfold analyzeIngredients
  split
  · split <;> rfl
  · rename_i hc
    have hc2 : canMakeRequest maxDailyRequests state.storage world.admission = true := by
      simpa using hc
    split
    · rfl
    · rename_i service hs
      split
      · rfl
      · rename_i t ht
        exfalso
        rcases h with h | ⟨e, he⟩
        · exact h ⟨hc2, service, hs⟩
        · rw [he] at ht; cases ht
/-- C17, as stated, fails: a request that is dispatched and then raises is not recorded;
the persisted count stays as it was. -/
theorem dispatch_raises_counterexample :
    requestDispatched 1500 ⟨none, ⟨false, 0, 0⟩⟩
      ⟨⟨js "Mon Jan 01 2024", 1704100000000⟩, true, true, .error ⟨some (js "fetch failed")⟩,
        ⟨js "Mon Jan 01 2024", 1704100001000⟩, 1704100001000⟩ ∧
    (analyzeIngredients ⟨fun _ => .nan, fun _ => none⟩ 1500 [] ⟨none, ⟨false, 0, 0⟩⟩
      ⟨⟨js "Mon Jan 01 2024", 1704100000000⟩, true, true, .error ⟨some (js "fetch failed")⟩,
        ⟨js "Mon Jan 01 2024", 1704100001000⟩, 1704100001000⟩ (js "Water")).2.storage = none ∧
    getRequestCount
      (analyzeIngredients ⟨fun _ => .nan, fun _ => none⟩ 1500 [] ⟨none, ⟨false, 0, 0⟩⟩
        ⟨⟨js "Mon Jan 01 2024", 1704100000000⟩, true, true, .error ⟨some (js "fetch failed")⟩,
          ⟨js "Mon Jan 01 2024", 1704100001000⟩, 1704100001000⟩ (js "Water")).2.storage
      ⟨js "Mon Jan 01 2024", 1704100001000⟩ = 0 := by
  have h := analyzeIngredients_storage_unchanged ⟨fun _ => .nan, fun _ => none⟩ 1500 []
    ⟨none, ⟨false, 0, 0⟩⟩
    ⟨⟨js "Mon Jan 01 2024", 1704100000000⟩, true, true, .error ⟨some (js "fetch failed")⟩,
      ⟨js "Mon Jan 01 2024", 1704100001000⟩, 1704100001000⟩ (js "Water") (Or.inr ⟨_, rfl⟩)
  refine ⟨⟨by decide, _, rfl⟩, h, ?_⟩
  rw [h]
  rfl

/-- C17, amended: in `analyzeIngredients`, `recordRequest` is invoked exactly once for
each call whose dispatched request returns a response text, whether or not that response
parses, and never otherwise: the count of the day then increases by exactly 1, and the
persisted record is unchanged when admission is denied, when the set-up fails or when
the request raises; the record with the increment is the one that the next admission
check reads. -/
theorem recordRequest_once_per_response (host : Host) (maxDailyRequests : Int)
    (db : IngredientTable) (state : SystemState) (world : World) (ingredientText : JSString) :
    (requestDispatched maxDailyRequests state world → (∃ t, world.call = .ok t) →
      (analyzeIngredients host maxDailyRequests db state world ingredientText).2.storage =
        recordRequest state.storage world.recording ∧
      getRequestCount
          (analyzeIngredients host maxDailyRequests db state world ingredientText).2.storage
          world.recording =
        getRequestCount state.storage world.recording + 1 ∧
      ∀ next : Clock,
        canMakeRequest maxDailyRequests
          (analyzeIngredients host maxDailyRequests db state world ingredientText).2.storage next =
        canMakeRequest maxDailyRequests (recordRequest state.storage world.recording) next) ∧
    ((¬ requestDispatched maxDailyRequests state world ∨ ∃ e, world.call = .error e) →
      (analyzeIngredients host maxDailyRequests db state world ingredientText).2.storage =
        state.storage) := by
  refine ⟨fun hd ⟨t, ht⟩ => ?_,
    analyzeIngredients_storage_unchanged host maxDailyRequests db state world ingredientText⟩
  have h := analyzeIngredients_storage_recorded host maxDailyRequests db state world
    ingredientText hd t ht
  refine ⟨h, ?_, fun next => by rw [h]⟩
  rw [h]
  exact recordRequest_count state.storage world.recording.today world.recording.now
    world.recording.now

theorem recordRequest_once_per_response_witness :
    getRequestCount
        (analyzeIngredients ⟨fun _ => .nan, fun _ => none⟩ 1500 [] ⟨none, ⟨false, 0, 0⟩⟩
          ⟨⟨js "Mon Jan 01 2024", 1704100000000⟩, true, true, .ok (js "score: 7"),
            ⟨js "Mon Jan 01 2024", 1704100001000⟩, 1704100001000⟩ (js "Water")).2.storage
        ⟨js "Mon Jan 01 2024", 1704100001000⟩ =
      getRequestCount none ⟨js "Mon Jan 01 2024", 1704100001000⟩ + 1 :=
  ((recordRequest_once_per_response ⟨fun _ => .nan, fun _ => none⟩ 1500 [] ⟨none, ⟨false, 0, 0⟩⟩
    ⟨⟨js "Mon Jan 01 2024", 1704100000000⟩, true, true, .ok (js "score: 7"),
      ⟨js "Mon Jan 01 2024", 1704100001000⟩, 1704100001000⟩ (js "Water")).1
    ⟨by decide, _, rfl⟩ ⟨_, rfl⟩).2.1

/-- C18, as stated, fails: `resetUsage` on a record of the current day with count 5
leaves count 0, and `emergencyStop` lowers a count above `maxDailyRequests + 1000`. -/
theorem quota_count_decreases_counterexample :
    getRequestCount (some ⟨js "Mon Jan 01 2024", 5, [], 1704067200000⟩)
      ⟨js "Mon Jan 01 2024", 1704100000000⟩ = 5 ∧
    getRequestCount
      (QuotaOp.run 1500 .resetUsage (some ⟨js "Mon Jan 01 2024", 5, [], 1704067200000⟩)
        ⟨js "Mon Jan 01 2024", 1704100000000⟩)
      ⟨js "Mon Jan 01 2024", 1704100000000⟩ = 0 ∧
    getRequestCount
      (QuotaOp.run 1500 .emergencyStop (some ⟨js "Mon Jan 01 2024", 2501, [], 1704067200000⟩)
        ⟨js "Mon Jan 01 2024", 1704100000000⟩)
      ⟨js "Mon Jan 01 2024", 1704100000000⟩ = 2500 := by
  decide

theorem emergencyStop_count (L : Int) (stored : Storage) (clock : Clock) :
    getRequestCount (emergencyStop L stored clock) clock = L + 1000 := by
  have hd := getUsageData_date stored clock
  unfold getRequestCount emergencyStop
  rw [getUsageData_same_day _ _ (by simpa using hd)]

/-- C18, amended: within one calendar day, `recordRequest`, `canMakeRequest` and the
getters never decrease the persisted request count, and `emergencyStop` does not
decrease it while it is at most `maxDailyRequests + 1000`; with a positive limit, a
positive count returns to 0 through none of these operations, so it returns to 0 only
when the calendar date changes or `resetUsage` is called. -/
theorem quota_count_monotone (maxDailyRequests : Int) (op : QuotaOp) (stored : Storage)
    (clock : Clock) (hop : op ≠ .resetUsage)
    (hstop : op = .emergencyStop → getRequestCount stored clock ≤ maxDailyRequests + 1000)
    (hlimit : 0 < maxDailyRequests) :
    getRequestCount stored clock ≤
      getRequestCount (op.run maxDailyRequests stored clock) clock ∧
    (0 < getRequestCount stored clock →
      0 < getRequestCount (op.run maxDailyRequests stored clock) clock) ∧
    (getRequestCount (QuotaOp.run maxDailyRequests .resetUsage stored clock) clock = 0) ∧
    (∀ data : UsageData, data.date ≠ clock.today → getRequestCount (some data) clock = 0) := by
  have hrec : getRequestCount (recordRequest stored clock) clock =
      getRequestCount stored clock + 1 :=
    recordRequest_count stored clock.today clock.now clock.now
  have hstopc := emergencyStop_count maxDailyRequests stored clock
  refine ⟨?_, ?_, ?_, ?_⟩
  · cases op <;> first
      | exact absurd rfl hop
      | exact le_refl _
      | (simp only [QuotaOp.run]; rw [hrec]; omega)
      | (simp only [QuotaOp.run]; rw [hstopc]; exact hstop rfl)
  · intro hpos
    cases op <;> first
      | exact absurd rfl hop
      | exact hpos
      | (simp only [QuotaOp.run]; rw [hrec]; omega)
      | (simp only [QuotaOp.run]; rw [hstopc]; omega)
  · have hd : (createNewUsageData clock).date = clock.today := rfl
    simp only [QuotaOp.run, resetUsage, getRequestCount]
    rw [getUsageData_same_day _ _ hd]
    rfl
  · intro data hdata
    unfold getRequestCount
    rw [getUsageData_stale data clock hdata]
    rfl

theorem quota_count_monotone_witness :
    getRequestCount (some ⟨js "Mon Jan 01 2024", 5, [], 1704067200000⟩)
        ⟨js "Mon Jan 01 2024", 1704100000000⟩ ≤
      getRequestCount
        (QuotaOp.run 1500 .recordRequest (some ⟨js "Mon Jan 01 2024", 5, [], 1704067200000⟩)
          ⟨js "Mon Jan 01 2024", 1704100000000⟩)
        ⟨js "Mon Jan 01 2024", 1704100000000⟩ :=
  (quota_count_monotone 1500 .recordRequest (some ⟨js "Mon Jan 01 2024", 5, [], 1704067200000⟩)
    ⟨js "Mon Jan 01 2024", 1704100000000⟩ (by decide) (fun h => absurd h (by decide))
    (by decide)).1

/-- C19: after every `recordRequest` performed at time `now`, the persisted timestamp
list contains `now` and every stored timestamp `t` satisfies `t > now - 3600000`; on a
day rollover the list is cleared, so that the first record of the new day holds `now`
alone. -/
theorem timestamps_within_retention (stored : Storage) (clock : Clock) :
    (∃ data, recordRequest stored clock = some data ∧
      clock.now ∈ data.timestamps ∧
      ∀ t ∈ data.timestamps, t > clock.now - 3600000) ∧
    (∀ old : UsageData, old.date ≠ clock.today →
      (getUsageData (some old) clock).timestamps = [] ∧
      ∃ data, recordRequest (some old) clock = some data ∧ data.timestamps = [clock.now]) := by
  constructor
  · refine ⟨_, rfl, ?_, ?_⟩
    · simp only [List.mem_filter, List.mem_append, List.mem_singleton]
      refine ⟨Or.inr trivial, ?_⟩
      have : clock.now > clock.now - 60 * 60 * 1000 := by omega
      exact decide_eq_true this
    · intro t ht
      have h := (List.mem_filter.mp ht).2
      have h2 : t > clock.now - 60 * 60 * 1000 := of_decide_eq_true h
      omega
  · intro old hold
    refine ⟨by rw [getUsageData_stale old clock hold]; rfl, _, rfl, ?_⟩
    rw [getUsageData_stale old clock hold]
    simp only [createNewUsageData, List.nil_append]
    have ht : clock.now > clock.now - 60 * 60 * 1000 := by omega
    rw [List.filter_cons, if_pos (decide_eq_true ht)]
    rfl

theorem timestamps_within_retention_witness :
    (getUsageData (some ⟨js "Mon Jan 01 2024", 7, [1704100000000], 1704067200000⟩)
      ⟨js "Tue Jan 02 2024", 1704186000000⟩).timestamps = [] :=
  ((timestamps_within_retention none ⟨js "Tue Jan 02 2024", 1704186000000⟩).2
    ⟨js "Mon Jan 01 2024", 7, [1704100000000], 1704067200000⟩ (by decide)).1

/-! ## Properties of the double-precision arithmetic -/

/-- The function bitLength counts binary digits: `2^(k-1) ≤ n < 2^k` for `k = bitLength fuel n`. -/
theorem bitLength_spec : ∀ (fuel n : Nat), n ≤ fuel → 0 < n →
    2 ^ bitLength fuel n ≤ 2 * n ∧ n < 2 ^ bitLength fuel n := by
  intro fuel
  induction fuel with
  | zero => intro n h1 h2; omega
  | succ fuel ih =>
    intro n h1 h2
    rw [bitLength, if_neg (by omega)]
    by_cases h : n / 2 = 0
    · have hn : n = 1 := by omega
      subst hn
      have : bitLength fuel (1 / 2) = 0 := by cases fuel <;> simp [bitLength]
      rw [this]
      simp
    · obtain ⟨a, b⟩ := ih (n / 2) (by omega) (by omega)
      rw [pow_succ]
      generalize 2 ^ bitLength fuel (n / 2) = P at a b
      constructor <;> omega

/-- The function roundHalfEven is within one half of the quotient. -/
theorem roundHalfEven_spec (num den : Nat) (hden : 0 < den) :
    |(roundHalfEven num den : ℚ) - (num : ℚ) / den| ≤ 1 / 2 := by
  have hd : (0 : ℚ) < den := by exact_mod_cast hden
  have hdiv := Nat.div_add_mod num den
  have hmod := Nat.mod_lt num hden
  have hnum : (num : ℚ) = den * (num / den : Nat) + (num % den : Nat) := by
    exact_mod_cast hdiv.symm
  have hx : (num : ℚ) / den = (num / den : Nat) + ((num % den : Nat) : ℚ) / den := by
    rw [hnum]
    field_simp
    ring
  have h0 : (0 : ℚ) ≤ ((num % den : Nat) : ℚ) / den := div_nonneg (Nat.cast_nonneg _) hd.le
  rw [abs_le, hx]
  unfold roundHalfEven
  simp only []
  split_ifs with h1 h2
  · have h1q : (1 : ℚ) / 2 < ((num % den : Nat) : ℚ) / den := by
      rw [lt_div_iff₀ hd]
      have : (den : ℚ) < 2 * (num % den : Nat) := by exact_mod_cast h1
      linarith
    have hmq : ((num % den : Nat) : ℚ) / den < 1 := by
      rw [div_lt_one hd]
      exact_mod_cast hmod
    push_cast
    constructor <;> linarith
  · have h2q : ((num % den : Nat) : ℚ) / den = 1 / 2 := by
      rw [div_eq_iff (ne_of_gt hd)]
      have : (2 : ℚ) * (num % den : Nat) = den := by exact_mod_cast h2
      linarith
    have hq2 : ((num / den % 2 : Nat) : ℚ) ≤ 1 := by
      have : num / den % 2 ≤ 1 := by omega
      exact_mod_cast this
    have hq0 : (0 : ℚ) ≤ ((num / den % 2 : Nat) : ℚ) := Nat.cast_nonneg _
    rw [Nat.cast_add]
    constructor <;> linarith
  · have h3 : 2 * (num % den) < den := by omega
    have h3q : ((num % den : Nat) : ℚ) / den < 1 / 2 := by
      rw [div_lt_iff₀ hd]
      have : (2 : ℚ) * (num % den : Nat) < den := by exact_mod_cast h3
      linarith
    constructor <;> linarith
/-- The exponent chosen by Double.exponent scales the quotient into `[2^52, 2^53)`. -/
theorem double_exponent_spec (a d : Nat) (ha : 0 < a) (hd : 0 < d) :
    (2 : ℚ) ^ (Double.exponent a d + 52) ≤ (a : ℚ) / d ∧
      (a : ℚ) / d < (2 : ℚ) ^ (Double.exponent a d + 53) := by
  obtain ⟨hA1, hA2⟩ := bitLength_spec a a le_rfl ha
  obtain ⟨hD1, hD2⟩ := bitLength_spec d d le_rfl hd
  have hdq : (0 : ℚ) < d := by exact_mod_cast hd
  have haq : (0 : ℚ) < a := by exact_mod_cast ha
  have hA1q : (2 : ℚ) ^ bitLength a a ≤ 2 * a := by exact_mod_cast hA1
  have hA2q : (a : ℚ) < 2 ^ bitLength a a := by exact_mod_cast hA2
  have hD1q : (2 : ℚ) ^ bitLength d d ≤ 2 * d := by exact_mod_cast hD1
  have hD2q : (d : ℚ) < 2 ^ bitLength d d := by exact_mod_cast hD2
  have hpA : (0 : ℚ) < 2 ^ bitLength a a := by positivity
  have hpD : (0 : ℚ) < 2 ^ bitLength d d := by positivity
  have hl : (2 : ℚ) ^ ((bitLength a a : Int) - (bitLength d d : Int)) =
      2 ^ bitLength a a / 2 ^ bitLength d d := by
    rw [zpow_sub₀ (by norm_num), zpow_natCast, zpow_natCast]
  have hup : (a : ℚ) / d <
      (2 : ℚ) ^ ((bitLength a a : Int) - (bitLength d d : Int) + 1) := by
    have key : (a : ℚ) * 2 ^ bitLength d d < 2 ^ bitLength a a * (2 * d) := by
      nlinarith [mul_le_mul_of_nonneg_left hD1q haq.le,
        mul_lt_mul_of_pos_right hA2q (by linarith : (0 : ℚ) < 2 * d)]
    rw [zpow_add_one₀ (by norm_num), hl, div_lt_iff₀ hdq]
    have e : (2 : ℚ) ^ bitLength a a / 2 ^ bitLength d d * 2 * d =
        2 ^ bitLength a a * (2 * d) / 2 ^ bitLength d d := by ring
    rw [e, lt_div_iff₀ hpD]
    exact key
  have hlow : (2 : ℚ) ^ ((bitLength a a : Int) - (bitLength d d : Int) - 1) < (a : ℚ) / d := by
    have key : (2 : ℚ) ^ bitLength a a * d < 2 * a * 2 ^ bitLength d d := by
      nlinarith [mul_le_mul_of_nonneg_right hA1q hdq.le,
        mul_lt_mul_of_pos_left hD2q (by linarith : (0 : ℚ) < 2 * a)]
    rw [zpow_sub_one₀ (by norm_num), hl, lt_div_iff₀ hdq]
    have e : (2 : ℚ) ^ bitLength a a / 2 ^ bitLength d d * 2⁻¹ * d =
        2 ^ bitLength a a * d / (2 * 2 ^ bitLength d d) := by
      field_simp
      ring
    rw [e, div_lt_iff₀ (by positivity)]
    linarith
  have hcond : ∀ l : Int,
      ((if 0 ≤ l then decide (d * 2 ^ l.toNat ≤ a) else decide (d ≤ a * 2 ^ (-l).toNat)) = true) ↔
        (2 : ℚ) ^ l ≤ (a : ℚ) / d := by
    intro l
    by_cases h0 : 0 ≤ l
    · rw [if_pos h0, decide_eq_true_eq, le_div_iff₀ hdq]
      have hz : (2 : ℚ) ^ l = ((2 ^ l.toNat : Nat) : ℚ) := by
        rw [Nat.cast_pow, ← zpow_natCast, Int.toNat_of_nonneg h0]
        rfl
      rw [hz, mul_comm]
      exact_mod_cast Iff.rfl
    · rw [if_neg h0, decide_eq_true_eq, le_div_iff₀ hdq]
      have hneg : 0 ≤ -l := by omega
      have hz : (2 : ℚ) ^ l = (((2 ^ (-l).toNat : Nat) : ℚ))⁻¹ := by
        rw [Nat.cast_pow, ← zpow_natCast, Int.toNat_of_nonneg hneg, zpow_neg, inv_inv]
        rfl
      have hp : (0 : ℚ) < ((2 ^ (-l).toNat : Nat) : ℚ) := by positivity
      rw [hz, inv_mul_le_iff₀ hp, mul_comm]
      exact_mod_cast Iff.rfl
  unfold Double.exponent
  simp only []
  by_cases hc : (if 0 ≤ (bitLength a a : Int) - (bitLength d d : Int) then
      decide (d * 2 ^ ((bitLength a a : Int) - (bitLength d d : Int)).toNat ≤ a)
    else decide (d ≤ a * 2 ^ (-((bitLength a a : Int) - (bitLength d d : Int))).toNat)) = true
  · rw [if_pos hc]
    have := (hcond _).mp hc
    constructor
    · rw [sub_add_cancel]
      exact this
    · have e : (bitLength a a : Int) - (bitLength d d : Int) - 52 + 53 =
          (bitLength a a : Int) - (bitLength d d : Int) + 1 := by ring
      rw [e]
      exact hup
  · rw [if_neg hc]
    have := (not_congr (hcond _)).mp hc
    constructor
    · have e : (bitLength a a : Int) - (bitLength d d : Int) - 1 - 52 + 52 =
          (bitLength a a : Int) - (bitLength d d : Int) - 1 := by ring
      rw [e]
      exact hlow.le
    · have e : (bitLength a a : Int) - (bitLength d d : Int) - 1 - 52 + 53 =
          (bitLength a a : Int) - (bitLength d d : Int) := by ring
      rw [e]
      exact lt_of_not_le this
/-- The value of a rounded quotient: a scaled integer within one half of the scaled
quotient. -/
theorem double_round_toRat (n : Int) (d : Nat) (hn : n ≠ 0) (hd : 0 < d) :
    ∃ rounded : Nat,
      (Double.round n d).toRat =
        (if n < 0 then -1 else 1) * (rounded : ℚ) * (2 : ℚ) ^ Double.exponent n.natAbs d ∧
      |(rounded : ℚ) - (n.natAbs : ℚ) / d / (2 : ℚ) ^ Double.exponent n.natAbs d| ≤ 1 / 2 := by
  have ha : n.natAbs ≠ 0 := Int.natAbs_ne_zero.mpr hn
  have hdq : (0 : ℚ) < d := by exact_mod_cast hd
  refine ⟨if 0 ≤ Double.exponent n.natAbs d then
      roundHalfEven n.natAbs (d * 2 ^ (Double.exponent n.natAbs d).toNat)
    else roundHalfEven (n.natAbs * 2 ^ (-Double.exponent n.natAbs d).toNat) d, ?_, ?_⟩
  · unfold Double.round
    simp only []
    rw [if_neg (by omega)]
    generalize (if 0 ≤ Double.exponent n.natAbs d then
        roundHalfEven n.natAbs (d * 2 ^ (Double.exponent n.natAbs d).toNat)
      else roundHalfEven (n.natAbs * 2 ^ (-Double.exponent n.natAbs d).toNat) d) = R
    by_cases h2 : R = 2 ^ 53
    · have hRq : (R : ℚ) = 2 ^ 53 := by exact_mod_cast h2
      rw [if_pos h2, hRq]
      simp only [Double.toRat, zpow_add_one₀ (by norm_num : (2 : ℚ) ≠ 0)]
      split_ifs <;> push_cast <;> ring
    · rw [if_neg h2]
      simp only [Double.toRat]
      split_ifs <;> push_cast <;> ring
  · by_cases h0 : 0 ≤ Double.exponent n.natAbs d
    · rw [if_pos h0]
      have hden : 0 < d * 2 ^ (Double.exponent n.natAbs d).toNat := by positivity
      have := roundHalfEven_spec n.natAbs _ hden
      have hz : (2 : ℚ) ^ Double.exponent n.natAbs d =
          ((2 ^ (Double.exponent n.natAbs d).toNat : Nat) : ℚ) := by
        rw [Nat.cast_pow, ← zpow_natCast, Int.toNat_of_nonneg h0]
        rfl
      rw [hz, div_div]
      rw [Nat.cast_mul] at this
      exact this
    · rw [if_neg h0]
      have hneg : 0 ≤ -Double.exponent n.natAbs d := by omega
      have := roundHalfEven_spec (n.natAbs * 2 ^ (-Double.exponent n.natAbs d).toNat) d hd
      have hz : (2 : ℚ) ^ Double.exponent n.natAbs d =
          (((2 ^ (-Double.exponent n.natAbs d).toNat : Nat) : ℚ))⁻¹ := by
        rw [Nat.cast_pow, ← zpow_natCast, Int.toNat_of_nonneg hneg, zpow_neg, inv_inv]
        rfl
      rw [hz, div_inv_eq_mul, div_mul_eq_mul_div]
      rw [Nat.cast_mul] at this
      exact this

/-- Rounding to a double has relative error at most `2^-53`. -/
theorem double_round_rel (n : Int) (d : Nat) (hd : 0 < d) :
    |(Double.round n d).toRat - (n : ℚ) / d| ≤ |(n : ℚ) / d| / 2 ^ 53 := by
  by_cases hn : n = 0
  · subst hn
    simp [Double.round, Double.toRat]
  · have ha : 0 < n.natAbs := Int.natAbs_pos.mpr hn
    have hdq : (0 : ℚ) < d := by exact_mod_cast hd
    obtain ⟨he1, -⟩ := double_exponent_spec n.natAbs d ha hd
    obtain ⟨rounded, ht, hr⟩ := double_round_toRat n d hn hd
    have hP : (0 : ℚ) < (2 : ℚ) ^ Double.exponent n.natAbs d := by positivity
    rw [zpow_add₀ (by norm_num)] at he1
    have hsign : (n : ℚ) = (if n < 0 then -1 else 1) * (n.natAbs : ℚ) := by
      rw [Nat.cast_natAbs, Int.cast_abs]
      split_ifs with h
      · have : (n : ℚ) < 0 := by exact_mod_cast h
        rw [abs_of_neg this]
        ring
      · have : (0 : ℚ) ≤ n := by exact_mod_cast (not_lt.mp h)
        rw [abs_of_nonneg this]
        ring
    have hnd : (n : ℚ) / d = (if n < 0 then -1 else 1) * ((n.natAbs : ℚ) / d) := by
      rw [← mul_div_assoc, ← hsign]
    have habs : |(n : ℚ) / d| = (n.natAbs : ℚ) / d := by
      rw [abs_div, abs_of_pos hdq, Nat.cast_natAbs, Int.cast_abs]
    have hdiff : (Double.round n d).toRat - (n : ℚ) / d =
        (if n < 0 then -1 else 1) *
          (((rounded : ℚ) - (n.natAbs : ℚ) / d / (2 : ℚ) ^ Double.exponent n.natAbs d) *
            (2 : ℚ) ^ Double.exponent n.natAbs d) := by
      rw [ht, hnd]
      generalize (if n < 0 then (-1 : ℚ) else 1) = sg
      field_simp
      ring
    have hs1 : |(if n < 0 then (-1 : ℚ) else 1)| = 1 := by
      split_ifs <;> simp
    rw [hdiff, abs_mul, hs1, one_mul, abs_mul, abs_of_pos hP, habs]
    have h53 : (2 : ℚ) ^ (53 : Nat) = 2 * (2 : ℚ) ^ (52 : Int) := by norm_num
    rw [h53, le_div_iff₀ (by positivity)]
    nlinarith [mul_le_mul_of_nonneg_right hr hP.le]
/-- The denominator of a double is positive. -/
theorem double_den_pos (x : Double) : 0 < x.den := by
  unfold Double.den
  split_ifs <;> positivity

/-- A double is its numerator over its denominator. -/
theorem double_num_div_den (x : Double) : (x.num : ℚ) / x.den = x.toRat := by
  unfold Double.num Double.den Double.toRat
  by_cases h : 0 ≤ x.e
  · rw [if_pos h, if_pos h]
    have hz : (2 : ℚ) ^ x.e = (2 : ℚ) ^ x.e.toNat := by
      rw [← zpow_natCast, Int.toNat_of_nonneg h]
    rw [hz]
    push_cast
    ring
  · rw [if_neg h, if_neg h]
    have hneg : 0 ≤ -x.e := by omega
    have hz : (2 : ℚ) ^ x.e = ((2 : ℚ) ^ (-x.e).toNat)⁻¹ := by
      rw [← zpow_natCast, Int.toNat_of_nonneg hneg, zpow_neg, inv_inv]
    rw [hz]
    push_cast
    ring

/-- The product of two doubles has relative error at most `2^-53`. -/
theorem double_mul_rel (x y : Double) :
    |(Double.mul x y).toRat - x.toRat * y.toRat| ≤ |x.toRat * y.toRat| / 2 ^ 53 := by
  have h := double_round_rel (x.num * y.num) (x.den * y.den) (Nat.mul_pos (double_den_pos x) (double_den_pos y))
  have e : ((x.num * y.num : Int) : ℚ) / ((x.den * y.den : Nat) : ℚ) = x.toRat * y.toRat := by
    rw [← double_num_div_den x, ← double_num_div_den y]
    push_cast
    rw [div_mul_div_comm]
  rw [e] at h
  exact h

/-- The quotient of two doubles has relative error at most `2^-53`. -/
theorem double_div_rel (x y : Double) (hy : y.num ≠ 0) :
    |(Double.div x y).toRat - x.toRat / y.toRat| ≤ |x.toRat / y.toRat| / 2 ^ 53 := by
  have hpos : 0 < x.den * y.num.natAbs := Nat.mul_pos (double_den_pos x) (Int.natAbs_pos.mpr hy)
  have h := double_round_rel (x.num * y.den * (if y.num < 0 then -1 else 1)) (x.den * y.num.natAbs) hpos
  have hxd : (0 : ℚ) < x.den := by exact_mod_cast double_den_pos x
  have hyd : (0 : ℚ) < y.den := by exact_mod_cast double_den_pos y
  have hyq : (y.num : ℚ) ≠ 0 := by exact_mod_cast hy
  have e : ((x.num * y.den * (if y.num < 0 then -1 else 1) : Int) : ℚ) /
      ((x.den * y.num.natAbs : Nat) : ℚ) = x.toRat / y.toRat := by
    rw [← double_num_div_den x, ← double_num_div_den y]
    push_cast
    rw [Nat.cast_natAbs, Int.cast_abs]
    split_ifs with hneg
    · have : (y.num : ℚ) < 0 := by exact_mod_cast hneg
      rw [abs_of_neg this]
      field_simp
    · have : (0 : ℚ) ≤ y.num := by exact_mod_cast (not_lt.mp hneg)
      rw [abs_of_nonneg this]
      field_simp
  rw [e] at h
  exact h

/-- The double nearest to an integer has relative error at most `2^-53`. -/
theorem double_ofInt_rel (z : Int) : |(Double.ofInt z).toRat - (z : ℚ)| ≤ |(z : ℚ)| / 2 ^ 53 := by
  have h := double_round_rel z 1 Nat.one_pos
  simpa [Double.ofInt] using h

/-- Relative errors under a product. -/
theorem relError_mul (x y u v ε δ : ℚ) (h : |x - y| ≤ ε * |y|) (hb : |u - v| ≤ δ * |v|)
    (hε : 0 ≤ ε) : |x * u - y * v| ≤ (ε + δ + ε * δ) * |y * v| := by
  have e : x * u - y * v = (x - y) * u + y * (u - v) := by ring
  have hu : |u| ≤ |v| + δ * |v| := by
    have : |u| ≤ |v| + |u - v| := by
      have := abs_add v (u - v)
      simpa using this
    linarith
  have hy0 := abs_nonneg y
  have hv0 := abs_nonneg v
  have hδ : 0 ≤ δ * |v| := le_trans (abs_nonneg _) hb
  calc |x * u - y * v| = |(x - y) * u + y * (u - v)| := by rw [e]
    _ ≤ |x - y| * |u| + |y| * |u - v| := by
      rw [← abs_mul, ← abs_mul]
      exact abs_add _ _
    _ ≤ (ε * |y|) * (|v| + δ * |v|) + |y| * (δ * |v|) := by
      have h1 : |x - y| * |u| ≤ (ε * |y|) * (|v| + δ * |v|) :=
        mul_le_mul h hu (abs_nonneg _) (mul_nonneg hε hy0)
      have h2 : |y| * |u - v| ≤ |y| * (δ * |v|) := mul_le_mul_of_nonneg_left hb hy0
      linarith
    _ = (ε + δ + ε * δ) * |y * v| := by
      rw [abs_mul]
      ring

/-- Relative errors in sequence. -/
theorem relError_trans (x y z ε δ : ℚ) (h : |x - y| ≤ ε * |y|) (hb : |y - z| ≤ δ * |z|)
    (hε : 0 ≤ ε) : |x - z| ≤ (ε + δ + ε * δ) * |z| := by
  have hy : |y| ≤ |z| + δ * |z| := by
    have : |y| ≤ |z| + |y - z| := by
      have := abs_add z (y - z)
      simpa using this
    linarith
  have e : x - z = (x - y) + (y - z) := by ring
  calc |x - z| = |(x - y) + (y - z)| := by rw [e]
    _ ≤ |x - y| + |y - z| := abs_add _ _
    _ ≤ ε * (|z| + δ * |z|) + δ * |z| := by
      have := mul_le_mul_of_nonneg_left hy hε
      linarith
    _ = (ε + δ + ε * δ) * |z| := by ring

/-- Relative errors under a quotient. -/
theorem relError_div (x y u v ε δ : ℚ) (h : |x - y| ≤ ε * |y|) (hb : |u - v| ≤ δ * |v|)
    (hε : 0 ≤ ε) (hδ : δ < 1) (hvne : v ≠ 0) :
    u ≠ 0 ∧ |x / u - y / v| ≤ ((ε + δ) / (1 - δ)) * |y / v| := by
  have hv0 : 0 < |v| := abs_pos.mpr hvne
  have hulow : (1 - δ) * |v| ≤ |u| := by
    have : |v| ≤ |u| + |u - v| := by
      have := abs_sub_abs_le_abs_sub v u
      rw [abs_sub_comm v u] at this
      linarith
    linarith
  have hupos : 0 < |u| := lt_of_lt_of_le (mul_pos (by linarith) hv0) hulow
  have hu : u ≠ 0 := abs_pos.mp hupos
  refine ⟨hu, ?_⟩
  have e : x / u - y / v = ((x - y) * v - y * (u - v)) / (u * v) := by
    field_simp
    ring
  have hnum : |(x - y) * v - y * (u - v)| ≤ (ε + δ) * (|y| * |v|) := by
    calc |(x - y) * v - y * (u - v)| ≤ |(x - y) * v| + |y * (u - v)| := abs_sub _ _
      _ = |x - y| * |v| + |y| * |u - v| := by rw [abs_mul, abs_mul]
      _ ≤ (ε * |y|) * |v| + |y| * (δ * |v|) := by
        have h1 := mul_le_mul_of_nonneg_right h hv0.le
        have h2 := mul_le_mul_of_nonneg_left hb (abs_nonneg y)
        linarith
      _ = (ε + δ) * (|y| * |v|) := by ring
  rw [e, abs_div, abs_mul, abs_div, div_le_iff₀ (mul_pos hupos hv0)]
  have h1ε : 0 < 1 - δ := by linarith
  have hsum : 0 ≤ (ε + δ) * |y| := by
    have hδ0 : 0 ≤ δ := by
      by_contra hneg
      have : δ * |v| < 0 := mul_neg_of_neg_of_pos (not_le.mp hneg) hv0
      linarith [abs_nonneg (u - v)]
    exact mul_nonneg (by linarith) (abs_nonneg y)
  calc |(x - y) * v - y * (u - v)| ≤ (ε + δ) * (|y| * |v|) := hnum
    _ = (ε + δ) / (1 - δ) * (|y| / |v|) * ((1 - δ) * |v| * |v|) := by
      field_simp
      ring
    _ ≤ (ε + δ) / (1 - δ) * (|y| / |v|) * (|u| * |v|) := by
      apply mul_le_mul_of_nonneg_left
      · exact mul_le_mul_of_nonneg_right hulow hv0.le
      · have : 0 ≤ (ε + δ) * |y| / ((1 - δ) * |v|) :=
          div_nonneg hsum (mul_pos h1ε hv0).le
        have e2 : (ε + δ) / (1 - δ) * (|y| / |v|) = (ε + δ) * |y| / ((1 - δ) * |v|) := by
          field_simp
        rw [e2]
        exact this
set_option maxRecDepth 100000 in
/-- The constant `60 * 60 * 1000` as a double. -/
theorem double_ofInt_hour : Double.ofInt (60 * 60 * 1000) = ⟨7730941132800000, -31⟩ := by decide

set_option maxRecDepth 100000 in
/-- The constant 60 as a double. -/
theorem double_ofInt_sixty : Double.ofInt 60 = ⟨8444249301319680, -47⟩ := by decide

set_option maxRecDepth 100000 in
/-- The constant 1000 as a double. -/
theorem double_ofInt_thousand : Double.ofInt 1000 = ⟨8796093022208000, -43⟩ := by decide

/-- The constant `60 * 60 * 1000` is a double. -/
theorem double_ofInt_hour_toRat : (Double.ofInt (60 * 60 * 1000)).toRat = 3600000 := by
  rw [double_ofInt_hour]
  norm_num [Double.toRat]

/-- The constant 60 is a double. -/
theorem double_ofInt_sixty_toRat : (Double.ofInt 60).toRat = 60 := by
  rw [double_ofInt_sixty]
  norm_num [Double.toRat]

/-- The constant 1000 is a double. -/
theorem double_ofInt_thousand_toRat : (Double.ofInt 1000).toRat = 1000 := by
  rw [double_ofInt_thousand]
  norm_num [Double.toRat]

/-- A double that is not zero has a numerator that is not zero. -/
theorem double_num_ne_zero (x : Double) (h : x.toRat ≠ 0) : x.num ≠ 0 := by
  intro h0
  apply h
  rw [← double_num_div_den x, h0]
  simp

/-- The product with a constant that is a double adds one rounding. -/
theorem double_mul_const_rel (x k : Double) (y c ε : ℚ) (hk : k.toRat = c)
    (h : |x.toRat - y| ≤ ε * |y|) (hε : 0 ≤ ε) :
    |(Double.mul x k).toRat - y * c| ≤ (1 / 2 ^ 53 + ε + 1 / 2 ^ 53 * ε) * |y * c| := by
  have h1 : |(Double.mul x k).toRat - x.toRat * c| ≤ 1 / 2 ^ 53 * |x.toRat * c| := by
    have := double_mul_rel x k
    rw [hk] at this
    linarith [this, (by ring : |x.toRat * c| / 2 ^ 53 = 1 / 2 ^ 53 * |x.toRat * c|)]
  have h2 : |x.toRat * c - y * c| ≤ ε * |y * c| := by
    have := relError_mul x.toRat y c c ε 0 h (by simp) hε
    linarith [this, (by ring : (ε + 0 + ε * 0) * |y * c| = ε * |y * c|)]
  exact relError_trans _ _ _ _ _ h1 h2 (by positivity)

/-- The quotient by an approximated divisor. -/
theorem double_div_gen_rel (x k : Double) (y c ε δ : ℚ) (hc : c ≠ 0)
    (h : |x.toRat - y| ≤ ε * |y|) (hk : |k.toRat - c| ≤ δ * |c|) (hε : 0 ≤ ε) (hδ : δ < 1) :
    |(Double.div x k).toRat - y / c| ≤
      (1 / 2 ^ 53 + (ε + δ) / (1 - δ) + 1 / 2 ^ 53 * ((ε + δ) / (1 - δ))) * |y / c| := by
  obtain ⟨hk0, h2⟩ := relError_div x.toRat y k.toRat c ε δ h hk hε hδ hc
  have h1 : |(Double.div x k).toRat - x.toRat / k.toRat| ≤ 1 / 2 ^ 53 * |x.toRat / k.toRat| := by
    have := double_div_rel x k (double_num_ne_zero k hk0)
    linarith [this, (by ring : |x.toRat / k.toRat| / 2 ^ 53 = 1 / 2 ^ 53 * |x.toRat / k.toRat|)]
  exact relError_trans _ _ _ _ _ h1 h2 (by positivity)

/-- The double `recommendedDelayMs` is `timeUntilReset / remaining` up to a relative error
of `2^-50`: seven roundings of `2^-53` each. -/
theorem recommendedDelayMs_rel (timeUntilReset remaining : Int) (hr : remaining ≠ 0) :
    |(recommendedDelayMs timeUntilReset remaining).toRat - (timeUntilReset : ℚ) / remaining| ≤
      |(timeUntilReset : ℚ) / remaining| / 2 ^ 50 := by
  have hrq : (remaining : ℚ) ≠ 0 := by exact_mod_cast hr
  have ht : |(Double.ofInt timeUntilReset).toRat - (timeUntilReset : ℚ)| ≤
      1 / 2 ^ 53 * |(timeUntilReset : ℚ)| := by
    have := double_ofInt_rel timeUntilReset
    linarith [this, (by ring : |(timeUntilReset : ℚ)| / 2 ^ 53 = 1 / 2 ^ 53 * |(timeUntilReset : ℚ)|)]
  have hrem : |(Double.ofInt remaining).toRat - (remaining : ℚ)| ≤
      1 / 2 ^ 53 * |(remaining : ℚ)| := by
    have := double_ofInt_rel remaining
    linarith [this, (by ring : |(remaining : ℚ)| / 2 ^ 53 = 1 / 2 ^ 53 * |(remaining : ℚ)|)]
  have hc : |(Double.ofInt (60 * 60 * 1000)).toRat - (3600000 : ℚ)| ≤ 0 * |(3600000 : ℚ)| := by
    rw [double_ofInt_hour_toRat]
    simp
  have s1 := double_div_gen_rel (Double.ofInt timeUntilReset) (Double.ofInt (60 * 60 * 1000))
    timeUntilReset 3600000 (1 / 2 ^ 53) 0 (by norm_num) ht hc (by positivity) (by norm_num)
  have s2 := double_mul_const_rel _ (Double.ofInt 60) _ 60 _ double_ofInt_sixty_toRat s1 (by norm_num)
  have s3 := double_mul_const_rel _ (Double.ofInt 60) _ 60 _ double_ofInt_sixty_toRat s2 (by norm_num)
  have s4 := double_mul_const_rel _ (Double.ofInt 1000) _ 1000 _ double_ofInt_thousand_toRat s3 (by norm_num)
  have s5 := double_div_gen_rel _ (Double.ofInt remaining) _ (remaining : ℚ) _ (1 / 2 ^ 53) hrq s4 hrem
    (by norm_num) (by norm_num)
  have e : (timeUntilReset : ℚ) / 3600000 * 60 * 60 * 1000 / remaining =
      (timeUntilReset : ℚ) / remaining := by
    field_simp
    ring
  rw [e] at s5
  have key : ∀ E : ℚ, E ≤ 1 / 2 ^ 50 →
      E * |(timeUntilReset : ℚ) / remaining| ≤ |(timeUntilReset : ℚ) / remaining| / 2 ^ 50 := by
    intro E hE
    have := mul_le_mul_of_nonneg_right hE (abs_nonneg ((timeUntilReset : ℚ) / remaining))
    linarith
  exact le_trans s5 (key _ (by norm_num))

/-- Clamping to `[2000, 300000]` does not increase a distance. -/
theorem clamp_lipschitz (a b : ℚ) :
    |max 2000 (min 300000 a) - max 2000 (min 300000 b)| ≤ |a - b| := by
  have h1 := abs_max_sub_max_le_max (2000 : ℚ) (min 300000 a) 2000 (min 300000 b)
  have h2 := abs_min_sub_min_le_max (300000 : ℚ) a 300000 b
  simp only [sub_self, abs_zero] at h1 h2
  have h3 : max 0 |min 300000 a - min 300000 b| = |min 300000 a - min 300000 b| :=
    max_eq_right (abs_nonneg _)
  have h4 : max 0 |a - b| = |a - b| := max_eq_right (abs_nonneg _)
  rw [h3] at h1
  rw [h4] at h2
  exact le_trans h1 h2

set_option maxRecDepth 100000 in
theorem recommendedDelayMs_hour :
    recommendedDelayMs 3600000 100 = ⟨4947802324992000, -37⟩ := by decide

set_option maxRecDepth 100000 in
theorem recommendedDelayMs_rounded :
    recommendedDelayMs 1000000 100 = ⟨5497558138880001, -39⟩ := by decide

/-- C20, as stated, fails: on a fresh day with limit 1500 and 86000000 ms until the reset,
the remaining budget is 1500, and `getRecommendedDelay` returns 2000 where
`max(2000, min(300000, 86000000 / 1500))` is above 57333; and with 100 requests
remaining and 1000000 ms until the reset it returns `10000 + 2^-39`, which prints as
10000.000000000002, where `1000000 / 100` is 10000. -/
theorem recommended_delay_counterexample :
    getRemainingRequests 1500 none ⟨js "Mon Jan 01 2024", 1704067600000⟩ = 1500 ∧
    getTimeUntilReset 1704153600000 ⟨js "Mon Jan 01 2024", 1704067600000⟩ = 86000000 ∧
    getRecommendedDelay 1500 none ⟨js "Mon Jan 01 2024", 1704067600000⟩ 1704153600000 = .ms 2000 ∧
    max (2000 : ℚ) (min 300000 (86000000 / 1500)) > 57333 ∧
    getRemainingRequests 1500 (some ⟨js "Mon Jan 01 2024", 1400, [], 1704067200000⟩)
      ⟨js "Mon Jan 01 2024", 1704152600000⟩ = 100 ∧
    getTimeUntilReset 1704153600000 ⟨js "Mon Jan 01 2024", 1704152600000⟩ = 1000000 ∧
    getRecommendedDelay 1500 (some ⟨js "Mon Jan 01 2024", 1400, [], 1704067200000⟩)
      ⟨js "Mon Jan 01 2024", 1704152600000⟩ 1704153600000 = .ms (10000 + 1 / 2 ^ 39) ∧
    max (2000 : ℚ) (min 300000 (1000000 / 100)) = 10000 := by
  refine ⟨by decide, by decide, ?_, by norm_num, by decide, by decide, ?_, by norm_num⟩
  · have h : getRemainingRequests 1500 none ⟨js "Mon Jan 01 2024", 1704067600000⟩ = 1500 := by
      decide
    simp only [getRecommendedDelay, h]
    rfl
  · have h : getRemainingRequests 1500 (some ⟨js "Mon Jan 01 2024", 1400, [], 1704067200000⟩)
        ⟨js "Mon Jan 01 2024", 1704152600000⟩ = 100 := by decide
    have ht : getTimeUntilReset 1704153600000 ⟨js "Mon Jan 01 2024", 1704152600000⟩ =
        1000000 := by decide
    simp only [getRecommendedDelay, h, ht, recommendedDelayMs_rounded]
    rw [if_neg (by decide), if_neg (by decide)]
    congr 1
    norm_num [Double.toRat]

/-- C20, amended: `getRecommendedDelay` returns `Infinity` exactly when the remaining
daily budget is `<= 0`; for `0 < remaining <= 100` it returns `max(2000, min(300000, q))`
milliseconds, a value between 2 s and 5 min, where `q` is the double that the division
`(hoursLeft * 60 * 60 * 1000) / remaining` yields for
`hoursLeft = timeUntilReset / 3600000`, every operation rounded; for `remaining > 100`
it returns 2000. The double `q` is `timeUntilReset / remaining` where the operations
round nothing, as for one hour and 100 requests, and differs from it otherwise, as for
1000000 ms and 100 requests, by at most the fraction `2^-50` of it; so does the delay
returned from `max(2000, min(300000, timeUntilReset / remaining))`. -/
theorem recommended_delay (maxDailyRequests : Int) (stored : Storage) (clock : Clock)
    (nextMidnight : Int) :
    (getRecommendedDelay maxDailyRequests stored clock nextMidnight = .infinity ↔
      getRemainingRequests maxDailyRequests stored clock ≤ 0) ∧
    (0 < getRemainingRequests maxDailyRequests stored clock →
      getRemainingRequests maxDailyRequests stored clock ≤ 100 →
      getRecommendedDelay maxDailyRequests stored clock nextMidnight =
        .ms (max 2000 (min 300000
          (recommendedDelayMs (getTimeUntilReset nextMidnight clock)
            (getRemainingRequests maxDailyRequests stored clock)).toRat)) ∧
      (2000 : ℚ) ≤ max 2000 (min 300000
          (recommendedDelayMs (getTimeUntilReset nextMidnight clock)
            (getRemainingRequests maxDailyRequests stored clock)).toRat) ∧
      max 2000 (min 300000
          (recommendedDelayMs (getTimeUntilReset nextMidnight clock)
            (getRemainingRequests maxDailyRequests stored clock)).toRat) ≤ (300000 : ℚ) ∧
      |(recommendedDelayMs (getTimeUntilReset nextMidnight clock)
            (getRemainingRequests maxDailyRequests stored clock)).toRat -
          (getTimeUntilReset nextMidnight clock : ℚ) /
            getRemainingRequests maxDailyRequests stored clock| ≤
        |(getTimeUntilReset nextMidnight clock : ℚ) /
            getRemainingRequests maxDailyRequests stored clock| / 2 ^ 50 ∧
      |max 2000 (min 300000
          (recommendedDelayMs (getTimeUntilReset nextMidnight clock)
            (getRemainingRequests maxDailyRequests stored clock)).toRat) -
          max 2000 (min 300000 ((getTimeUntilReset nextMidnight clock : ℚ) /
            getRemainingRequests maxDailyRequests stored clock))| ≤
        |(getTimeUntilReset nextMidnight clock : ℚ) /
            getRemainingRequests maxDailyRequests stored clock| / 2 ^ 50) ∧
    (100 < getRemainingRequests maxDailyRequests stored clock →
      getRecommendedDelay maxDailyRequests stored clock nextMidnight = .ms 2000) ∧
    (recommendedDelayMs 3600000 100).toRat = 3600000 / 100 ∧
    (recommendedDelayMs 1000000 100).toRat = 1000000 / 100 + 1 / 2 ^ 39 := by
  refine ⟨?_, ?_, ?_, ?_, ?_⟩
  · unfold getRecommendedDelay
    simp only []
    constructor
    · intro h
      by_contra hn
      rw [if_neg hn] at h
      split at h <;> cases h
    · intro h
      rw [if_pos h]
  · intro hpos hle
    have hrel := recommendedDelayMs_rel (getTimeUntilReset nextMidnight clock)
      (getRemainingRequests maxDailyRequests stored clock) (by omega)
    refine ⟨?_, le_max_left _ _, max_le (by norm_num) (min_le_left _ _), hrel,
      le_trans (clamp_lipschitz _ _) hrel⟩
    unfold getRecommendedDelay
    simp only []
    rw [if_neg (by omega), if_neg (by omega)]
  · intro h
    unfold getRecommendedDelay
    simp only []
    rw [if_neg (by omega), if_pos h]
  · rw [recommendedDelayMs_hour]
    norm_num [Double.toRat]
  · rw [recommendedDelayMs_rounded]
    norm_num [Double.toRat]

theorem recommended_delay_witness :
    getRecommendedDelay 1500 (some ⟨js "Mon Jan 01 2024", 1450, [], 1704067200000⟩)
        ⟨js "Mon Jan 01 2024", 1704067600000⟩ 1704153600000 =
      .ms (max 2000 (min 300000
        (recommendedDelayMs
          (getTimeUntilReset 1704153600000 ⟨js "Mon Jan 01 2024", 1704067600000⟩)
          (getRemainingRequests 1500 (some ⟨js "Mon Jan 01 2024", 1450, [], 1704067200000⟩)
            ⟨js "Mon Jan 01 2024", 1704067600000⟩)).toRat)) :=
  ((recommended_delay 1500 (some ⟨js "Mon Jan 01 2024", 1450, [], 1704067200000⟩)
    ⟨js "Mon Jan 01 2024", 1704067600000⟩ 1704153600000).2.1 (by decide) (by decide)).1

/-! ## Properties of the text extraction adapter and the orchestrator -/

/-- C21: given an OCR engine that initialises and returns the raw text `r`, `extractText`
fails if and only if `cleanExtractedText r` has fewer than 5 characters, and otherwise
returns exactly `cleanExtractedText r`. -/
theorem extractText_fails_iff (workerReady : Bool) (world : OcrWorld) (r : JSString)
    (hstart : workerReady = true ∨ world.workerStarts = true) (himage : world.imageLoads = true)
    (hrec : world.recognized = .ok (some r)) :
    ((∃ e, extractText workerReady world = .error e) ↔ (cleanExtractedText r).length < 5) ∧
    (¬ (cleanExtractedText r).length < 5 →
      extractText workerReady world = .ok (cleanExtractedText r)) := by
  have h1 : (!(workerReady || world.workerStarts)) = false := by
    rcases hstart with h | h <;> simp [h]
  have hval : extractText workerReady world =
      if cleanExtractedText r = [] ∨ (cleanExtractedText r).length < 5 then
        .error ⟨some (js "Could not extract readable text from the image. Please ensure the label is clearly visible and well-lit.")⟩
      else .ok (cleanExtractedText r) := by
    unfold extractText
    simp only [h1, himage, hrec, Bool.not_true, Bool.false_eq_true, if_false]
  have hshort : (cleanExtractedText r = [] ∨ (cleanExtractedText r).length < 5) ↔
      (cleanExtractedText r).length < 5 := by
    constructor
    · rintro (h | h)
      · rw [h]; decide
      · exact h
    · exact Or.inr
  constructor
  · constructor
    · rintro ⟨e, he⟩
      by_contra hn
      rw [hval, if_neg (fun h => hn (hshort.mp h))] at he
      cases he
    · intro h
      rw [hval, if_pos (hshort.mpr h)]
      exact ⟨_, rfl⟩
  · intro hn
    rw [hval, if_neg (fun h => hn (hshort.mp h))]

theorem extractText_fails_iff_witness :
    extractText true ⟨true, true, .ok (some (js "Salt, oil"))⟩ =
      .ok (cleanExtractedText (js "Salt, oil")) :=
  (extractText_fails_iff true ⟨true, true, .ok (some (js "Salt, oil"))⟩ (js "Salt, oil")
    (Or.inl rfl) rfl rfl).2 (by decide)

/-- C26: the code diverges from the claim. Cancel on the analyzing screen runs
`handleRetry`, which leaves for the camera state and clears the captured image; the run
of `processImage` and its timer are not cleaned up, so the late `onAnalysisComplete` of
the abandoned scan stores its results and moves the application to the results state,
without an image, and a late `onAnalysisError` moves it to the error state. -/
theorem abandoned_scan_result_applied :
    (handleRetry ⟨.analyzing, none, none, some (js "blob:label")⟩).appState = .camera ∧
    (∀ results : Report,
      (handleAnalysisComplete results
        (handleRetry ⟨.analyzing, none, none, some (js "blob:label")⟩)).appState = .results ∧
      (handleAnalysisComplete results
        (handleRetry ⟨.analyzing, none, none, some (js "blob:label")⟩)).analysisData =
          some results ∧
      (handleAnalysisComplete results
        (handleRetry ⟨.analyzing, none, none, some (js "blob:label")⟩)).capturedImage =
          none) ∧
    (handleAnalysisError (js "OCR initialization failed")
      (handleStartOver ⟨.analyzing, none, none, some (js "blob:label")⟩)).appState = .error ∧
    (handleAnalysisError (js "OCR initialization failed")
      (handleStartOver ⟨.analyzing, none, none, some (js "blob:label")⟩)).error =
        some (js "OCR initialization failed") :=
  ⟨rfl, fun _ => ⟨rfl, rfl, rfl⟩, rfl, rfl⟩

/-- The handlers of `App` do not look at the current state: after `handleRetry` or
`handleStartOver`, and from whatever state the application is in, `handleAnalysisComplete`
stores the results and moves the application to the results state, and
`handleAnalysisError` stores the message and moves it to the error state; nothing else
of the state changes. -/
theorem late_result_is_applied (app : App) (results : Report) (message : JSString) :
    (handleRetry app = ⟨.camera, none, none, none⟩ ∧
      handleStartOver app = ⟨.landing, none, none, none⟩) ∧
    (∀ abandoned ∈ [handleRetry app, handleStartOver app],
      handleAnalysisComplete results abandoned =
        ⟨.results, some results, none, none⟩ ∧
      handleAnalysisError message abandoned = ⟨.error, none, some message, none⟩) ∧
    (handleAnalysisComplete results app =
        ⟨.results, some results, app.error, app.capturedImage⟩ ∧
      handleAnalysisError message app =
        ⟨.error, app.analysisData, some message, app.capturedImage⟩) := by
  refine ⟨⟨rfl, rfl⟩, ?_, rfl, rfl⟩
  intro abandoned h
  simp only [List.mem_cons, List.mem_singleton, List.not_mem_nil, or_false] at h
  rcases h with h | h <;> subst h <;> exact ⟨rfl, rfl⟩

/-- C27, as stated, fails: `extractText` succeeds with the 9 characters `Salt, oil`, and
`processImage` stops at progress 50 with the failed callback, although neither the
extraction nor the analysis raised. -/
theorem short_text_counterexample :
    extractText true ⟨true, true, .ok (some (js "Salt, oil"))⟩ = .ok (js "Salt, oil") ∧
    ∀ analyze : JSString → Except JSError Report,
      (processImage (.ok (js "Salt, oil")) analyze).updates =
        [.stage .ocr, .progress 10, .extractedText (js "Salt, oil"), .progress 50] ∧
      ∃ message, (processImage (.ok (js "Salt, oil")) analyze).outcome = .failed message := by
  refine ⟨rfl, fun analyze => ?_⟩
  have h : (js "Salt, oil" = [] ∨ (trim (js "Salt, oil")).length < 10) := Or.inr (by decide)
  have hp : processImage (.ok (js "Salt, oil")) analyze =
      ⟨[.stage .ocr, .progress 10, .extractedText (js "Salt, oil"), .progress 50],
        .failed (js "Could not extract readable text from the image. Please try capturing the label again with better lighting.")⟩ := by
    unfold processImage
    simp only []
    rw [if_pos h]
  rw [hp]
  exact ⟨rfl, _, rfl⟩
/-- C27, amended: in `processImage`, whenever text extraction succeeds with a text of at
least 10 characters after trimming, the scan moves from extracting to analyzing at
progress 50 and 60 and, on a produced report, to complete at progress 100; the run ends
with the failed callback exactly when extraction raises, when the extracted text has
fewer than 10 characters after trimming, or when analysis raises; and the progress
values of a run never decrease. -/
theorem processImage_transitions (extraction : Except JSError JSString)
    (analyze : JSString → Except JSError Report) :
    (∀ text, extraction = .ok text → 10 ≤ (trim text).length →
      (∃ later, (processImage extraction analyze).updates =
        [.stage .ocr, .progress 10, .extractedText text, .progress 50, .stage .analysis,
          .progress 60] ++ later) ∧
      (∀ results, analyze text = .ok results →
        (processImage extraction analyze).updates =
          [.stage .ocr, .progress 10, .extractedText text, .progress 50, .stage .analysis,
            .progress 60, .progress 90, .stage .complete, .progress 100] ∧
        (processImage extraction analyze).outcome = .complete results)) ∧
    ((∃ message, (processImage extraction analyze).outcome = .failed message) ↔
      ((∃ e, extraction = .error e) ∨
        (∃ text, extraction = .ok text ∧ (trim text).length < 10) ∨
        (∃ text e, extraction = .ok text ∧ analyze text = .error e))) ∧
    (progressValues (processImage extraction analyze)).Pairwise (fun a b => a ≤ b) := by
  have hempty : ∀ text : JSString, text = [] → (trim text).length < 10 := by
    intro text h
    subst h
    decide
  cases hx : extraction with
  | error e =>
    have hp : processImage (.error e) analyze =
        ⟨[.stage .ocr, .progress 10], .failed (messageOf e)⟩ := rfl
    rw [hp]
    refine ⟨?_, ⟨fun _ => Or.inl ⟨e, rfl⟩, fun _ => ⟨_, rfl⟩⟩, ?_⟩
    · intro text h
      cases h
    · simp [progressValues]
  | ok text =>
    by_cases hshort : text = [] ∨ (trim text).length < 10
    · have hp : processImage (.ok text) analyze =
          ⟨[.stage .ocr, .progress 10, .extractedText text, .progress 50],
            .failed (js "Could not extract readable text from the image. Please try capturing the label again with better lighting.")⟩ := by
        unfold processImage
        simp only []
        rw [if_pos hshort]
      have hlt : (trim text).length < 10 := hshort.elim (hempty text) id
      rw [hp]
      refine ⟨?_, ⟨fun _ => Or.inr (Or.inl ⟨text, rfl, hlt⟩), fun _ => ⟨_, rfl⟩⟩, ?_⟩
      · intro t ht hlen
        cases ht
        omega
      · simp [progressValues]
    · have hlong : ¬ (trim text).length < 10 := fun h => hshort (Or.inr h)
      cases ha : analyze text with
      | error e =>
        have hp : processImage (.ok text) analyze =
            ⟨[.stage .ocr, .progress 10, .extractedText text, .progress 50, .stage .analysis,
              .progress 60], .failed (messageOf e)⟩ := by
          unfold processImage
          simp only []
          rw [if_neg hshort]
          simp only [ha]
        rw [hp]
        refine ⟨?_, ⟨fun _ => Or.inr (Or.inr ⟨text, e, rfl, ha⟩), fun _ => ⟨_, rfl⟩⟩, ?_⟩
        · intro t ht _
          cases ht
          refine ⟨⟨[], rfl⟩, ?_⟩
          intro results hr
          rw [ha] at hr
          cases hr
        · simp [progressValues]
      | ok results =>
        have hp : processImage (.ok text) analyze =
            ⟨[.stage .ocr, .progress 10, .extractedText text, .progress 50, .stage .analysis,
              .progress 60, .progress 90, .stage .complete, .progress 100],
              .complete results⟩ := by
          unfold processImage
          simp only []
          rw [if_neg hshort]
          simp only [ha]
        rw [hp]
        refine ⟨?_, ⟨?_, ?_⟩, ?_⟩
        · intro t ht _
          cases ht
          refine ⟨⟨_, rfl⟩, ?_⟩
          intro r hr
          rw [ha] at hr
          cases hr
          exact ⟨rfl, rfl⟩
        · rintro ⟨m, hm⟩
          cases hm
        · rintro (⟨e, he⟩ | ⟨t, ht, hlen⟩ | ⟨t, e, ht, he⟩)
          · cases he
          · cases ht
            exact absurd hlen hlong
          · cases ht
            rw [ha] at he
            cases he
        · simp [progressValues]

theorem processImage_transitions_witness :
    (∃ later, (processImage (.ok (js "Sugar, salt, palm oil"))
        (fun text => fallbackAnalysis [] text)).updates =
      [.stage .ocr, .progress 10, .extractedText (js "Sugar, salt, palm oil"), .progress 50,
        .stage .analysis, .progress 60] ++ later) ∧
    (∀ results, fallbackAnalysis [] (js "Sugar, salt, palm oil") = .ok results →
      (processImage (.ok (js "Sugar, salt, palm oil"))
          (fun text => fallbackAnalysis [] text)).updates =
        [.stage .ocr, .progress 10, .extractedText (js "Sugar, salt, palm oil"), .progress 50,
          .stage .analysis, .progress 60, .progress 90, .stage .complete, .progress 100] ∧
      (processImage (.ok (js "Sugar, salt, palm oil"))
          (fun text => fallbackAnalysis [] text)).outcome = .complete results) :=
  (processImage_transitions (.ok (js "Sugar, salt, palm oil"))
    (fun text => fallbackAnalysis [] text)).1 (js "Sugar, salt, palm oil") rfl (by decide)

/-! ## Frame property of the usage quota tracker -/

theorem tracker_getUsageData_eq (clock : Clock) (storage : Storage) :
    RateLimiter.getUsageData clock storage = (getUsageData storage clock, storage) := by
  unfold RateLimiter.getUsageData RateLimiter.getItem getUsageData
  cases storage with
  | none => rfl
  | some data =>
    simp only []
    split_ifs <;> rfl

theorem tracker_canMakeRequest_eq (maxDailyRequests : Int) (clock : Clock)
    (storage : Storage) :
    RateLimiter.canMakeRequest maxDailyRequests clock storage =
      (canMakeRequest maxDailyRequests storage clock, storage) := by
  simp only [RateLimiter.canMakeRequest, tracker_getUsageData_eq, canMakeRequest]
  split_ifs <;> rfl

theorem tracker_getRemainingRequests_eq (maxDailyRequests : Int) (clock : Clock)
    (storage : Storage) :
    RateLimiter.getRemainingRequests maxDailyRequests clock storage =
      (getRemainingRequests maxDailyRequests storage clock, storage) := by
  simp only [RateLimiter.getRemainingRequests, tracker_getUsageData_eq,
    getRemainingRequests]

theorem tracker_getRequestCount_eq (clock : Clock) (storage : Storage) :
    RateLimiter.getRequestCount clock storage = (getRequestCount storage clock, storage) := by
  simp only [RateLimiter.getRequestCount, tracker_getUsageData_eq, getRequestCount]

theorem tracker_getUsagePercentage_eq (maxDailyRequests : Int) (clock : Clock)
    (storage : Storage) :
    RateLimiter.getUsagePercentage maxDailyRequests clock storage =
      (usagePercentage (getUsageData storage clock).requests maxDailyRequests, storage) := by
  simp only [RateLimiter.getUsagePercentage, tracker_getUsageData_eq]

theorem tracker_getUsageStats_storage (maxDailyRequests nextMidnight : Int)
    (clock : Clock) (storage : Storage) :
    (RateLimiter.getUsageStats maxDailyRequests nextMidnight clock storage).2 = storage := by
  simp only [RateLimiter.getUsageStats, tracker_getUsageData_eq,
    tracker_getRemainingRequests_eq, tracker_getUsagePercentage_eq,
    tracker_canMakeRequest_eq]

theorem tracker_isApproachingLimit_storage (maxDailyRequests : Int) (threshold : Double)
    (clock : Clock) (storage : Storage) :
    (RateLimiter.isApproachingLimit maxDailyRequests threshold clock storage).2 = storage := by
  simp only [RateLimiter.isApproachingLimit, tracker_getUsagePercentage_eq]

theorem tracker_getRecommendedDelay_eq (maxDailyRequests nextMidnight : Int)
    (clock : Clock) (storage : Storage) :
    RateLimiter.getRecommendedDelay maxDailyRequests nextMidnight clock storage =
      (getRecommendedDelay maxDailyRequests storage clock nextMidnight, storage) := by
  simp only [RateLimiter.getRecommendedDelay, tracker_getUsageData_eq,
    tracker_getRemainingRequests_eq, getRecommendedDelay]
  split_ifs <;> rfl

theorem tracker_recordRequest_storage (clock : Clock) (storage : Storage) :
    (RateLimiter.recordRequest clock storage).2 = recordRequest storage clock := by
  simp only [RateLimiter.recordRequest, tracker_getUsageData_eq,
    RateLimiter.saveUsageData, RateLimiter.setItem, recordRequest]

theorem tracker_resetUsage_storage (clock : Clock) (storage : Storage) :
    (RateLimiter.resetUsage clock storage).2 = resetUsage clock := by
  simp only [RateLimiter.resetUsage, RateLimiter.saveUsageData, RateLimiter.setItem,
    resetUsage]

theorem tracker_emergencyStop_storage (maxDailyRequests : Int) (clock : Clock)
    (storage : Storage) :
    (RateLimiter.emergencyStop maxDailyRequests clock storage).2 =
      emergencyStop maxDailyRequests storage clock := by
  simp only [RateLimiter.emergencyStop, tracker_getUsageData_eq,
    RateLimiter.saveUsageData, RateLimiter.setItem, emergencyStop]

theorem quotaOp_run_eq_perform (maxDailyRequests nextMidnight : Int) (threshold : Double)
    (op : QuotaOp) (clock : Clock) (storage : Storage) :
    QuotaOp.run maxDailyRequests op storage clock =
      QuotaOp.perform maxDailyRequests nextMidnight threshold op clock storage := by
  cases op <;>
    simp only [QuotaOp.run, QuotaOp.perform, tracker_recordRequest_storage,
      tracker_canMakeRequest_eq, tracker_getRemainingRequests_eq,
      tracker_getRequestCount_eq, tracker_getUsagePercentage_eq,
      tracker_getUsageStats_storage, tracker_isApproachingLimit_storage,
      tracker_getRecommendedDelay_eq, tracker_resetUsage_storage,
      tracker_emergencyStop_storage]

/-- C30: checking admission does not consume quota. For every item in the storage and
every current time, also when the item is from a previous day, the methods
`canMakeRequest`, `getRemainingRequests`, `getRequestCount`, `getUsagePercentage` and
`getUsageStats` leave the storage exactly as it was, and so does the `getUsageData` they
start with, which answers an item of a previous day with a fresh record that it does
not save; a method of the tracker after which the storage differs is `recordRequest`,
`resetUsage` or `emergencyStop`, and each of these three saves a record whatever the
storage held. -/
theorem getters_leave_storage (maxDailyRequests nextMidnight : Int) (threshold : Double)
    (clock : Clock) (storage : Storage) :
    (RateLimiter.getUsageData clock storage).2 = storage ∧
    (∀ data, storage = some data → data.date ≠ clock.today →
      RateLimiter.getUsageData clock storage = (createNewUsageData clock, some data)) ∧
    (RateLimiter.canMakeRequest maxDailyRequests clock storage).2 = storage ∧
    (RateLimiter.getRemainingRequests maxDailyRequests clock storage).2 = storage ∧
    (RateLimiter.getRequestCount clock storage).2 = storage ∧
    (RateLimiter.getUsagePercentage maxDailyRequests clock storage).2 = storage ∧
    (RateLimiter.getUsageStats maxDailyRequests nextMidnight clock storage).2 = storage ∧
    (∀ op, QuotaOp.perform maxDailyRequests nextMidnight threshold op clock storage ≠ storage →
      op = .recordRequest ∨ op = .resetUsage ∨ op = .emergencyStop) ∧
    (∃ saved, (RateLimiter.recordRequest clock storage).2 = some saved) ∧
    (∃ saved, (RateLimiter.resetUsage clock storage).2 = some saved) ∧
    (∃ saved, (RateLimiter.emergencyStop maxDailyRequests clock storage).2 = some saved) := by
  refine ⟨?_, ?_, ?_, ?_, ?_, ?_, tracker_getUsageStats_storage _ _ _ _, ?_, ?_, ?_, ?_⟩
  · rw [tracker_getUsageData_eq]
  · intro data hs hd
    rw [tracker_getUsageData_eq, hs, getUsageData_stale data clock hd]
  · rw [tracker_canMakeRequest_eq]
  · rw [tracker_getRemainingRequests_eq]
  · rw [tracker_getRequestCount_eq]
  · rw [tracker_getUsagePercentage_eq]
  · intro op h
    rw [← quotaOp_run_eq_perform] at h
    cases op <;> first
      | exact Or.inl rfl
      | exact Or.inr (Or.inl rfl)
      | exact Or.inr (Or.inr rfl)
      | exact absurd rfl h
  · rw [tracker_recordRequest_storage]
    exact ⟨_, rfl⟩
  · rw [tracker_resetUsage_storage]
    exact ⟨_, rfl⟩
  · rw [tracker_emergencyStop_storage]
    exact ⟨_, rfl⟩

/-! ## Properties of the offline report -/

theorem fallbackAnalysis_parts (db : IngredientTable) (text : JSString) :
    ∃ r cats, fallbackAnalysis db text = .ok r ∧
      cats = (⟨(extractIngredients text).filter (fun x => decide (getIngredientRisk db x = js "safe")),
        (extractIngredients text).filter (fun x => decide (getIngredientRisk db x = js "moderate")),
        (extractIngredients text).filter
          (fun x => decide (getIngredientRisk db x = js "highConcern"))⟩ : Categories JSString) ∧
      r.categories = cats.toValues ∧
      r.warnings = (generateWarningsFromCategories db cats.highConcern).map .str ∧
      r.details = getIngredientDetails db (cats.highConcern ++ cats.moderate) := by
  simp only [fallbackAnalysis, categorizeIngredients_eq]
  exact ⟨_, _, rfl, rfl, rfl, rfl, rfl⟩

theorem getIngredientInfo_category (db : IngredientTable) (name : JSString) (h : name ≠ []) :
    (getIngredientInfo db name).category = getIngredientRisk db name := by
  unfold getIngredientInfo getIngredientRisk
  rw [if_neg h]
  cases readEntry db (normalizeIngredientName name) with
  | some info => rfl
  | none =>
    simp only [generateFallbackInfo]
    split_ifs <;> rfl

theorem getIngredientRisk_ne_nil (db : IngredientTable) (name : JSString) :
    getIngredientRisk db name ≠ [] := by
  obtain ⟨c, hc⟩ := getIngredientRisk_eq_toJS db name
  rw [hc]
  cases c <;> decide

theorem getIngredientRisk_proto (db : IngredientTable) (h : db.lookup (js "__proto__") = none) :
    getIngredientRisk db (js "__proto__") = js "safe" := by
  have hn : normalizeIngredientName (js "__proto__") = js "__proto__" := by decide
  rw [getIngredientRisk_no_entry db (js "__proto__") (by decide) (by rw [hn]; exact h), hn]
  exact findPartialMatch_proto

theorem setField_keys (fields : List (JSString × JSValue)) (key : JSString) (value : JSValue)
    (k : JSString) :
    k ∈ (setField fields key value).map Prod.fst ↔
      k ∈ fields.map Prod.fst ∨ (k = key ∧ key ≠ js "__proto__") := by
  unfold setField
  by_cases hp : key = js "__proto__"
  · rw [if_pos hp]
    simp [hp]
  · rw [if_neg hp]
    by_cases ha : fields.any (fun p => decide (p.1 = key)) = true
    · rw [if_pos ha]
      have hmem : key ∈ fields.map Prod.fst := by
        simp only [List.any_eq_true, decide_eq_true_eq] at ha
        obtain ⟨p, hp1, hp2⟩ := ha
        exact List.mem_map.mpr ⟨p, hp1, hp2⟩
      have hmap : (fields.map (fun p => if p.1 = key then (key, value) else p)).map Prod.fst =
          fields.map Prod.fst := by
        rw [List.map_map]
        apply List.map_congr_left
        intro p _
        simp only [Function.comp]
        split_ifs with h
        · exact h.symm
        · rfl
      rw [hmap]
      constructor
      · exact Or.inl
      · rintro (h | ⟨h, _⟩)
        · exact h
        · rw [h]; exact hmem
    · rw [if_neg ha]
      simp [hp]

theorem setField_mem (fields : List (JSString × JSValue)) (key : JSString) (value : JSValue)
    (k : JSString) (v : JSValue) (h : (k, v) ∈ setField fields key value) :
    (k, v) ∈ fields ∨ (k = key ∧ v = value) := by
  unfold setField at h
  split_ifs at h with h1 h2
  · exact Or.inl h
  · obtain ⟨p, hp, he⟩ := List.mem_map.mp h
    split_ifs at he with h3
    · cases he
      exact Or.inr ⟨rfl, rfl⟩
    · subst he
      exact Or.inl hp
  · rcases List.mem_append.mp h with h | h
    · exact Or.inl h
    · simp only [List.mem_singleton] at h
      cases h
      exact Or.inr ⟨rfl, rfl⟩

theorem setField_nodup (fields : List (JSString × JSValue)) (key : JSString) (value : JSValue)
    (h : (fields.map Prod.fst).Nodup) : ((setField fields key value).map Prod.fst).Nodup := by
  unfold setField
  split_ifs with h1 h2
  · exact h
  · have hmap : (fields.map (fun p => if p.1 = key then (key, value) else p)).map Prod.fst =
        fields.map Prod.fst := by
      rw [List.map_map]
      apply List.map_congr_left
      intro p _
      simp only [Function.comp]
      split_ifs with h
      · exact h.symm
      · rfl
    rw [hmap]
    exact h
  · rw [List.map_append, List.nodup_append]
    refine ⟨h, List.nodup_singleton _, ?_⟩
    intro a ha hb
    simp only [List.map_cons, List.map_nil, List.mem_singleton] at hb
    subst hb
    apply h2
    obtain ⟨p, hp1, hp2⟩ := List.mem_map.mp ha
    exact List.any_eq_true.mpr ⟨p, hp1, by simp [hp2]⟩

theorem detailsLoop_keys (db : IngredientTable) (l : List JSString) :
    ∀ (acc : List (JSString × JSValue)) (k : JSString),
      k ∈ (detailsLoop db l acc).map Prod.fst ↔
        k ∈ acc.map Prod.fst ∨ (k ∈ l ∧ k ≠ js "__proto__") := by
  induction l with
  | nil => intro acc k; simp [detailsLoop]
  | cons x xs ih =>
    intro acc k
    simp only [detailsLoop, ih, setField_keys, List.mem_cons]
    constructor
    · rintro ((h | ⟨h1, h2⟩) | ⟨h1, h2⟩)
      · exact Or.inl h
      · exact Or.inr ⟨Or.inl h1, h1 ▸ h2⟩
      · exact Or.inr ⟨Or.inr h1, h2⟩
    · rintro (h | ⟨h1 | h1, h2⟩)
      · exact Or.inl (Or.inl h)
      · exact Or.inl (Or.inr ⟨h1, h1 ▸ h2⟩)
      · exact Or.inr ⟨h1, h2⟩

theorem detailsLoop_nodup (db : IngredientTable) (l : List JSString) :
    ∀ acc : List (JSString × JSValue), (acc.map Prod.fst).Nodup →
      ((detailsLoop db l acc).map Prod.fst).Nodup := by
  induction l with
  | nil => intro acc h; exact h
  | cons x xs ih =>
    intro acc h
    simp only [detailsLoop]
    exact ih _ (setField_nodup _ _ _ h)

theorem detailsLoop_risk (db : IngredientTable) (l : List JSString) :
    ∀ acc : List (JSString × JSValue),
      (∀ k v, (k, v) ∈ acc → v.get "risk" = some (.str (getIngredientInfo db k).category)) →
      ∀ k v, (k, v) ∈ detailsLoop db l acc →
        v.get "risk" = some (.str (getIngredientInfo db k).category) := by
  induction l with
  | nil => intro acc h; exact h
  | cons x xs ih =>
    intro acc h
    simp only [detailsLoop]
    apply ih
    intro k v hkv
    rcases setField_mem _ _ _ _ _ hkv with h1 | ⟨h1, h2⟩
    · exact h k v h1
    · subst h1 h2
      have hc : orDefault (some (getIngredientInfo db k).category) (js "moderate") =
          (getIngredientInfo db k).category := by
        cases hcat : (getIngredientInfo db k).category with
        | nil =>
          exfalso
          by_cases hk : k = []
          · subst hk
            revert hcat
            unfold getIngredientInfo
            cases readEntry db (normalizeIngredientName []) with
            | some info =>
              simp only [categoryOrSafe]
              cases info.category with
              | none => decide
              | some c => cases c <;> decide
            | none =>
              simp only [generateFallbackInfo]
              decide
          · rw [getIngredientInfo_category db k hk] at hcat
            exact getIngredientRisk_ne_nil db k hcat
        | cons c cs => rfl
      rw [hc]
      rfl

/-- C24: for every ingredient text the warnings of the offline report are derived only
from its high-concern ingredients: the list is empty if and only if `highConcern` is
empty; when some high-concern ingredient has a warning text the list is exactly those
warning texts in ingredient order; and when high-concern ingredients exist but none has
a warning text the list is exactly the one generic warning. -/
theorem offline_warnings (db : IngredientTable) (ingredientText : JSString) :
    ∃ r high, fallbackAnalysis db ingredientText = .ok r ∧
      high = (extractIngredients ingredientText).filter
        (fun x => decide (getIngredientRisk db x = js "highConcern")) ∧
      r.categories.highConcern = high.map .str ∧
      (r.warnings = [] ↔ high = []) ∧
      ((∃ i ∈ high, (getIngredientInfo db i).warning ≠ none) →
        r.warnings = (high.filterMap (fun i => (getIngredientInfo db i).warning)).map .str) ∧
      (high ≠ [] → (∀ i ∈ high, (getIngredientInfo db i).warning = none) →
        r.warnings =
          [.str (js "Contains ingredients that may pose health risks when consumed regularly")]) := by
  obtain ⟨r, cats, hr, hcats, hc, hw, -⟩ := fallbackAnalysis_parts db ingredientText
  refine ⟨r, cats.highConcern, hr, by rw [hcats], by rw [hc]; rfl, ?_, ?_, ?_⟩
  · rw [hw]
    unfold generateWarningsFromCategories
    simp only []
    constructor
    · intro h
      by_contra hne
      split_ifs at h with hcond
      · simp at h
      · apply hcond
        refine ⟨?_, List.length_pos.mpr hne⟩
        rw [List.map_eq_nil_iff] at h
        rw [h]
        rfl
    · intro h
      rw [h]
      rfl
  · rintro ⟨i, hi, hwi⟩
    rw [hw]
    unfold generateWarningsFromCategories
    simp only []
    rw [if_neg]
    rintro ⟨hlen, -⟩
    have hnil : cats.highConcern.filterMap (fun i => (getIngredientInfo db i).warning) = [] :=
      List.length_eq_zero.mp hlen
    rw [List.filterMap_eq_nil_iff] at hnil
    exact hwi (hnil i hi)
  · intro hne hall
    rw [hw]
    unfold generateWarningsFromCategories
    simp only []
    have hnil : cats.highConcern.filterMap (fun i => (getIngredientInfo db i).warning) = [] :=
      List.filterMap_eq_nil_iff.mpr hall
    rw [hnil, if_pos ⟨rfl, List.length_pos.mpr hne⟩]
    rfl

/-- C25: for every ingredient text and a table whose keys are normalized ingredient
names, the key set of the details map of the offline report is exactly the set of names
in its `highConcern` and `moderate` lists, no safe ingredient has an entry, the risk of
the entry of every key `k` equals `getIngredientRisk(k)`, and `getIngredientInfo` and
`getIngredientRisk` agree on the category of every non-empty name. -/
theorem offline_details (db : IngredientTable) (ingredientText : JSString)
    (hdb : wellFormedTable db) :
    (∃ (r : Report) (safe moderate high : List JSString) (fields : List (JSString × JSValue)), fallbackAnalysis db ingredientText = .ok r ∧
      r.categories = ⟨safe.map .str, moderate.map .str, high.map .str⟩ ∧
      r.details = .obj fields ∧
      (fields.map Prod.fst).Nodup ∧
      (∀ k, k ∈ fields.map Prod.fst ↔ k ∈ high ∨ k ∈ moderate) ∧
      (∀ k ∈ safe, k ∉ fields.map Prod.fst) ∧
      (∀ k v, (k, v) ∈ fields → v.get "risk" = some (.str (getIngredientRisk db k)))) ∧
    (∀ name, name ≠ [] → (getIngredientInfo db name).category = getIngredientRisk db name) := by
  refine ⟨?_, getIngredientInfo_category db⟩
  obtain ⟨r, cats, hr, hcats, hc, -, hd⟩ := fallbackAnalysis_parts db ingredientText
  have hproto : ∀ k, k ∈ cats.highConcern ∨ k ∈ cats.moderate → k ≠ js "__proto__" := by
    intro k hk hp
    subst hp
    have hs := getIngredientRisk_proto db hdb.2
    rw [hcats] at hk
    simp only [List.mem_filter, decide_eq_true_eq, hs] at hk
    rcases hk with ⟨-, h⟩ | ⟨-, h⟩ <;> revert h <;> decide
  have hnonempty : ∀ k, k ∈ cats.highConcern ∨ k ∈ cats.moderate → k ≠ [] := by
    intro k hk hp
    subst hp
    have hs : getIngredientRisk db [] = js "safe" := rfl
    rw [hcats] at hk
    simp only [List.mem_filter, decide_eq_true_eq, hs] at hk
    rcases hk with ⟨-, h⟩ | ⟨-, h⟩ <;> revert h <;> decide
  have hkeys : ∀ k, k ∈ (detailsLoop db (cats.highConcern ++ cats.moderate) []).map Prod.fst ↔
      k ∈ cats.highConcern ∨ k ∈ cats.moderate := by
    intro k
    rw [detailsLoop_keys]
    simp only [List.map_nil, List.not_mem_nil, false_or, List.mem_append]
    exact ⟨fun h => h.1, fun h => ⟨h, hproto k h⟩⟩
  refine ⟨r, cats.safe, cats.moderate, cats.highConcern,
    detailsLoop db (cats.highConcern ++ cats.moderate) [], hr, hc, hd, ?_, hkeys, ?_, ?_⟩
  · exact detailsLoop_nodup db _ [] List.nodup_nil
  · intro k hk hmem
    rw [hkeys] at hmem
    rw [hcats] at hk hmem
    simp only [List.mem_filter, decide_eq_true_eq] at hk hmem
    rcases hmem with ⟨-, h⟩ | ⟨-, h⟩ <;> rw [hk.2] at h <;> revert h <;> decide
  · intro k v hkv
    have hmem : k ∈ (detailsLoop db (cats.highConcern ++ cats.moderate) []).map Prod.fst :=
      List.mem_map.mpr ⟨(k, v), hkv, rfl⟩
    rw [hkeys] at hmem
    rw [← getIngredientInfo_category db k (hnonempty k hmem)]
    exact detailsLoop_risk db _ [] (fun _ _ h => absurd h (List.not_mem_nil _)) k v hkv

theorem offline_details_witness :
    (∃ (r : Report) (safe moderate high : List JSString) (fields : List (JSString × JSValue)),
      fallbackAnalysis [] (js "Water, Sugar, Trans Fat, Palm Oil") = .ok r ∧
      r.categories = ⟨safe.map .str, moderate.map .str, high.map .str⟩ ∧
      r.details = .obj fields ∧
      (fields.map Prod.fst).Nodup ∧
      (∀ k, k ∈ fields.map Prod.fst ↔ k ∈ high ∨ k ∈ moderate) ∧
      (∀ k ∈ safe, k ∉ fields.map Prod.fst) ∧
      (∀ k v, (k, v) ∈ fields → v.get "risk" = some (.str (getIngredientRisk [] k)))) ∧
    (∀ name, name ≠ [] → (getIngredientInfo [] name).category = getIngredientRisk [] name) :=
  offline_details [] (js "Water, Sugar, Trans Fat, Palm Oil") ⟨rfl, rfl⟩

/-! ## Properties of the string operations -/

theorem trim_eq_rdropWhile (s : JSString) :
    trim s = (s.dropWhile isSpace).rdropWhile isSpace := rfl

theorem dropWhile_head_not (p : Nat → Bool) (s : JSString) (c : Nat) (cs : JSString)
    (h : s.dropWhile p = c :: cs) : p c = false := by
  induction s with
  | nil => cases h
  | cons x xs ih =>
    rw [List.dropWhile_cons] at h
    split_ifs at h with hx
    · exact ih h
    · cases h
      simpa using hx

theorem dropWhile_eq_self_of_head (p : Nat → Bool) (c : Nat) (cs : JSString) (h : p c = false) :
    (c :: cs).dropWhile p = c :: cs := by
  rw [List.dropWhile_cons, h]
  rfl

theorem trim_head_not_space (s : JSString) (c : Nat) (cs : JSString) (h : trim s = c :: cs) :
    isSpace c = false := by
  rw [trim_eq_rdropWhile] at h
  have hpre : (s.dropWhile isSpace).rdropWhile isSpace <+: s.dropWhile isSpace :=
    List.rdropWhile_prefix isSpace _
  rw [h] at hpre
  obtain ⟨t, ht⟩ := hpre
  exact dropWhile_head_not isSpace s c (cs ++ t) ht.symm

theorem trim_idem (s : JSString) : trim (trim s) = trim s := by
  cases h : trim s with
  | nil => rfl
  | cons c cs =>
    have hc := trim_head_not_space s c cs h
    rw [trim_eq_rdropWhile, dropWhile_eq_self_of_head isSpace c cs hc, ← h, trim_eq_rdropWhile,
      List.rdropWhile_idempotent]

theorem mem_of_mem_trim (s : JSString) (c : Nat) (h : c ∈ trim s) : c ∈ s := by
  rw [trim_eq_rdropWhile] at h
  exact (List.dropWhile_sublist isSpace).subset
    ((List.rdropWhile_prefix isSpace _).sublist.subset h)

theorem splitBy_ne_nil (p : Nat → Bool) (s : JSString) : splitBy p s ≠ [] := by
  cases s with
  | nil => simp [splitBy]
  | cons x xs =>
    unfold splitBy
    split_ifs
    · simp
    · split <;> simp

theorem splitBy_segments (p : Nat → Bool) (s : JSString) :
    ∀ seg ∈ splitBy p s, ∀ c ∈ seg, p c = false := by
  induction s with
  | nil => simp [splitBy]
  | cons x xs ih =>
    intro seg hseg c hc
    unfold splitBy at hseg
    split_ifs at hseg with hx
    · rcases List.mem_cons.mp hseg with h | h
      · subst h
        cases hc
      · exact ih seg h c hc
    · cases hsp : splitBy p xs with
      | nil => exact absurd hsp (splitBy_ne_nil p xs)
      | cons h t =>
        rw [hsp] at hseg ih
        simp only [List.mem_cons] at hseg
        rcases hseg with h1 | h1
        · subst h1
          rcases List.mem_cons.mp hc with h2 | h2
          · subst h2
            simpa using hx
          · exact ih h (List.mem_cons_self _ _) c h2
        · exact ih seg (List.mem_cons_of_mem _ h1) c hc

theorem splitBy_plain (p : Nat → Bool) (a : JSString) (h : ∀ c ∈ a, p c = false) :
    splitBy p a = [a] := by
  induction a with
  | nil => rfl
  | cons x xs ih =>
    have hx : p x = false := h x (List.mem_cons_self _ _)
    have hxs := ih (fun c hc => h c (List.mem_cons_of_mem _ hc))
    unfold splitBy
    rw [hxs]
    simp [hx]

theorem splitBy_append (p : Nat → Bool) (a : JSString) (d : Nat) (rest : JSString)
    (h : ∀ c ∈ a, p c = false) (hd : p d = true) :
    splitBy p (a ++ d :: rest) = a :: splitBy p rest := by
  induction a with
  | nil =>
    show splitBy p (d :: rest) = [] :: splitBy p rest
    rw [splitBy]
    simp [hd]
  | cons x xs ih =>
    have hx : p x = false := h x (List.mem_cons_self _ _)
    have hxs := ih (fun c hc => h c (List.mem_cons_of_mem _ hc))
    show splitBy p (x :: (xs ++ d :: rest)) = (x :: xs) :: splitBy p rest
    rw [splitBy, hxs]
    simp [hx]

/-- C23: for every text `extractIngredients` returns at most 20 tokens; every token is
trimmed, has more than 2 characters and contains no `,` or `;`; and the tokens are, in
their original order, the first (up to 20) trimmed segments of more than 2 characters
among the delimiter-separated segments of the segmented text, where a text without a
delimiter is its only segment and the segments of `a ++ d :: rest`, for a delimiter `d`
and a delimiter-free `a`, are `a` followed by the segments of `rest`. -/
theorem extractIngredients_tokens (text : JSString) :
    (extractIngredients text).length ≤ 20 ∧
    (∀ t ∈ extractIngredients text,
      trim t = t ∧ 2 < t.length ∧ 44 ∉ t ∧ 59 ∉ t) ∧
    extractIngredients text =
      ((((splitBy isDelimiter (segmentText text anchorPatterns)).map trim).filter
        (fun t => decide (2 < t.length))).take 20) ∧
    (extractIngredients text).Sublist
      ((splitBy isDelimiter (segmentText text anchorPatterns)).map trim) ∧
    (∀ a : JSString, 44 ∉ a → 59 ∉ a → splitBy isDelimiter a = [a]) ∧
    (∀ (a : JSString) (d : Nat) (rest : JSString), 44 ∉ a → 59 ∉ a → (d = 44 ∨ d = 59) →
      splitBy isDelimiter (a ++ d :: rest) = a :: splitBy isDelimiter rest) := by
  have hfree : ∀ a : JSString, 44 ∉ a → 59 ∉ a → ∀ c ∈ a, isDelimiter c = false := by
    intro a h1 h2 c hc
    unfold isDelimiter
    have hc1 : c ≠ 44 := fun h => h1 (h ▸ hc)
    have hc2 : c ≠ 59 := fun h => h2 (h ▸ hc)
    simp [hc1, hc2]
  refine ⟨?_, ?_, rfl, ?_, ?_, ?_⟩
  · unfold extractIngredients
    rw [List.length_take]
    exact Nat.min_le_left _ _
  · intro t ht
    unfold extractIngredients at ht
    have h1 := List.mem_of_mem_take ht
    rw [List.mem_filter] at h1
    obtain ⟨hmap, hlen⟩ := h1
    obtain ⟨seg, hseg, hst⟩ := List.mem_map.mp hmap
    have hno := splitBy_segments isDelimiter _ seg hseg
    refine ⟨?_, by simpa using hlen, ?_, ?_⟩
    · rw [← hst, trim_idem]
    · intro h
      rw [← hst] at h
      have := hno 44 (mem_of_mem_trim seg 44 h)
      revert this
      decide
    · intro h
      rw [← hst] at h
      have := hno 59 (mem_of_mem_trim seg 59 h)
      revert this
      decide
  · unfold extractIngredients
    exact (List.take_sublist _ _).trans (List.filter_sublist _)
  · intro a h1 h2
    exact splitBy_plain isDelimiter a (hfree a h1 h2)
  · intro a d rest h1 h2 hd
    apply splitBy_append isDelimiter a d rest (hfree a h1 h2)
    rcases hd with h | h <;> subst h <;> rfl

/-! ## Properties of the pattern matcher -/

theorem run_cls {α : Type} (p : Nat → Bool) (x : Nat) (xs : JSString) (c : Caps) (k : Cont α) :
    (Regex.cls p).run (x :: xs) c k = if p x then k xs c else none := rfl

theorem run_cls_nil {α : Type} (p : Nat → Bool) (c : Caps) (k : Cont α) :
    (Regex.cls p).run [] c k = none := rfl

theorem run_seq {α : Type} (a b : Regex) (s : JSString) (c : Caps) (k : Cont α) :
    (Regex.seq a b).run s c k = a.run s c (fun s2 c2 => b.run s2 c2 k) := rfl

theorem matchHere_cls_nil (p : Nat → Bool) : (Regex.cls p).matchHere [] = none := rfl

theorem matchHere_cls_false (p : Nat → Bool) (x : Nat) (xs : JSString) (h : p x = false) :
    (Regex.cls p).matchHere (x :: xs) = none := by
  unfold Regex.matchHere
  rw [run_cls, h]
  rfl

theorem matchHere_cls_true (p : Nat → Bool) (x : Nat) (xs : JSString) (h : p x = true) :
    ∃ m, (Regex.cls p).matchHere (x :: xs) = some m ∧ m.after = xs := by
  unfold Regex.matchHere
  rw [run_cls, h]
  exact ⟨_, rfl, rfl⟩

theorem replaceLoop_cls (p : Nat → Bool) (repl : JSString) :
    ∀ (n : Nat) (s : JSString), s.length ≤ n →
      replaceLoop (.cls p) repl n s = s.flatMap (fun x => if p x then repl else [x]) := by
  intro n
  induction n with
  | zero =>
    intro s hs
    have : s = [] := List.length_eq_zero.mp (Nat.le_zero.mp hs)
    subst this
    rfl
  | succ n ih =>
    intro s hs
    cases s with
    | nil => rfl
    | cons x xs =>
      have hxs : xs.length ≤ n := by simpa using hs
      cases hp : p x with
      | false =>
        rw [replaceLoop, matchHere_cls_false p x xs hp]
        simp only [List.flatMap_cons, hp]
        rw [ih xs hxs]
        rfl
      | true =>
        obtain ⟨m, hm, hafter⟩ := matchHere_cls_true p x xs hp
        rw [replaceLoop, hm]
        simp only [hafter, List.length_cons, Nat.lt_succ_self, if_true, List.flatMap_cons, hp]
        rw [ih xs hxs]

theorem replaceAll_cls (p : Nat → Bool) (repl s : JSString) :
    replaceAll (.cls p) repl s = s.flatMap (fun x => if p x then repl else [x]) :=
  replaceLoop_cls p repl (s.length + 1) s (Nat.le_succ _)

theorem starLoop_greedy_run {α : Type} (p : Nat → Bool) (c : Caps) (k : Cont α) (t : JSString)
    (res : α) (ht : ∀ x xs, t = x :: xs → p x = false) (hk : k t c = some res) :
    ∀ (a : JSString) (n : Nat), a.length ≤ n → (∀ x ∈ a, p x = true) →
      starLoop true (fun s1 c1 k1 => (Regex.cls p).run s1 c1 k1) n (a ++ t) c k = some res := by
  have hstop : ∀ n, starLoop true (fun s1 c1 k1 => (Regex.cls p).run s1 c1 k1) n t c k =
      some res := by
    intro n
    cases n with
    | zero => exact hk
    | succ n =>
      cases t with
      | nil =>
        simp only [starLoop, if_true, run_cls_nil]
        exact hk
      | cons x xs =>
        simp only [starLoop, if_true, run_cls, ht x xs rfl, Bool.false_eq_true, if_false]
        exact hk
  intro a
  induction a with
  | nil => intro n _ _; exact hstop n
  | cons y ys ih =>
    intro n hn ha
    cases n with
    | zero => simp at hn
    | succ n =>
      have hy : p y = true := ha y (List.mem_cons_self _ _)
      have hys := ih n (by simpa using hn) (fun x hx => ha x (List.mem_cons_of_mem _ hx))
      simp only [List.cons_append, starLoop, if_true, run_cls, hy, List.length_cons,
        Nat.lt_succ_self]
      rw [hys]

theorem matchHere_spaces_nil : spacesPattern.matchHere [] = none := rfl

theorem matchHere_spaces_false (x : Nat) (xs : JSString) (h : isSpace x = false) :
    spacesPattern.matchHere (x :: xs) = none := by
  unfold Regex.matchHere spacesPattern Regex.plus
  rw [run_seq, run_cls, h]
  rfl

theorem matchHere_spaces_true (x : Nat) (xs : JSString) (h : isSpace x = true) :
    ∃ m, spacesPattern.matchHere (x :: xs) = some m ∧ m.after = xs.dropWhile isSpace := by
  unfold Regex.matchHere spacesPattern Regex.plus
  rw [run_seq, run_cls, h, if_pos rfl]
  refine ⟨⟨[], (x :: xs).take ((x :: xs).length - (xs.dropWhile isSpace).length),
    xs.dropWhile isSpace, []⟩, ?_, rfl⟩
  have hsplit : xs = xs.takeWhile isSpace ++ xs.dropWhile isSpace :=
    (List.takeWhile_append_dropWhile isSpace xs).symm
  show starLoop true (fun s1 c1 k1 => (Regex.cls isSpace).run s1 c1 k1) xs.length xs [] _ = _
  have := starLoop_greedy_run isSpace []
    (fun s2 c => some (⟨[], (x :: xs).take ((x :: xs).length - s2.length), s2, c⟩ : MatchResult))
    (xs.dropWhile isSpace) _
    (fun y ys hy => dropWhile_head_not isSpace xs y ys hy) rfl
    (xs.takeWhile isSpace) xs.length
    (by
      have := congrArg List.length hsplit
      rw [List.length_append] at this
      omega)
    (fun y hy => List.mem_takeWhile_imp hy)
  rw [← hsplit] at this
  exact this

theorem starLoop_suffix {α : Type} (greedy : Bool)
    (step : JSString → Caps → Cont α → Option α)
    (hstep : ∀ s c k res, step s c k = some res → ∃ s2 c2, s2 <:+ s ∧ k s2 c2 = some res) :
    ∀ (n : Nat) (s : JSString) (c : Caps) (k : Cont α) (res : α),
      starLoop greedy step n s c k = some res → ∃ s2 c2, s2 <:+ s ∧ k s2 c2 = some res := by
  intro n
  induction n with
  | zero =>
    intro s c k res h
    exact ⟨s, c, List.suffix_refl s, h⟩
  | succ n ih =>
    intro s c k res h
    have hinner : ∀ r,
        step s c (fun s2 c2 => if s2.length < s.length then starLoop greedy step n s2 c2 k
          else none) = some r → ∃ s2 c2, s2 <:+ s ∧ k s2 c2 = some r := by
      intro r hr
      obtain ⟨s2, c2, hs2, hk2⟩ := hstep _ _ _ _ hr
      split_ifs at hk2 with hlen
      obtain ⟨s3, c3, hs3, hk3⟩ := ih s2 c2 k r hk2
      exact ⟨s3, c3, hs3.trans hs2, hk3⟩
    cases greedy with
    | true =>
      simp only [starLoop, if_true] at h
      cases hs : step s c (fun s2 c2 => if s2.length < s.length then starLoop true step n s2 c2 k
          else none) with
      | some r =>
        rw [hs] at h
        cases h
        exact hinner res hs
      | none =>
        rw [hs] at h
        exact ⟨s, c, List.suffix_refl s, h⟩
    | false =>
      simp only [starLoop, Bool.false_eq_true, if_false] at h
      cases hk : k s c with
      | some r =>
        rw [hk] at h
        cases h
        exact ⟨s, c, List.suffix_refl s, hk⟩
      | none =>
        rw [hk] at h
        exact hinner res h

theorem run_suffix {α : Type} (r : Regex) :
    ∀ (s : JSString) (c : Caps) (k : Cont α) (res : α),
      r.run s c k = some res → ∃ s2 c2, s2 <:+ s ∧ k s2 c2 = some res := by
  induction r with
  | cls p =>
    intro s c k res h
    cases s with
    | nil => cases h
    | cons x xs =>
      rw [run_cls] at h
      split_ifs at h
      exact ⟨xs, c, List.suffix_cons x xs, h⟩
  | eps =>
    intro s c k res h
    exact ⟨s, c, List.suffix_refl s, h⟩
  | eoi =>
    intro s c k res h
    cases s with
    | nil => exact ⟨[], c, List.suffix_refl _, h⟩
    | cons x xs => cases h
  | seq a b iha ihb =>
    intro s c k res h
    rw [run_seq] at h
    obtain ⟨s2, c2, hs2, hk2⟩ := iha _ _ _ _ h
    obtain ⟨s3, c3, hs3, hk3⟩ := ihb _ _ _ _ hk2
    exact ⟨s3, c3, hs3.trans hs2, hk3⟩
  | alt a b iha ihb =>
    intro s c k res h
    simp only [Regex.run] at h
    cases ha : a.run s c k with
    | some r =>
      rw [ha] at h
      cases h
      exact iha _ _ _ _ ha
    | none =>
      rw [ha] at h
      exact ihb _ _ _ _ h
  | star a iha =>
    intro s c k res h
    simp only [Regex.run] at h
    exact starLoop_suffix true _ (fun s1 c1 k1 r1 h1 => iha s1 c1 k1 r1 h1) _ _ _ _ _ h
  | lazyStar a iha =>
    intro s c k res h
    simp only [Regex.run] at h
    exact starLoop_suffix false _ (fun s1 c1 k1 r1 h1 => iha s1 c1 k1 r1 h1) _ _ _ _ _ h
  | group i a iha =>
    intro s c k res h
    simp only [Regex.run] at h
    obtain ⟨s2, c2, hs2, hk2⟩ := iha _ _ _ _ h
    exact ⟨s2, _, hs2, hk2⟩

theorem matchHere_after_suffix (r : Regex) (s : JSString) (m : MatchResult)
    (h : r.matchHere s = some m) : m.after <:+ s := by
  unfold Regex.matchHere at h
  obtain ⟨s2, c2, hs2, hk2⟩ := run_suffix r _ _ _ _ h
  simp only [Option.some.injEq] at hk2
  rw [← hk2]
  exact hs2

theorem replaceLoop_mem (r : Regex) (repl : JSString) :
    ∀ (n : Nat) (s : JSString) (c : Nat), c ∈ replaceLoop r repl n s → c ∈ s ∨ c ∈ repl := by
  intro n
  induction n with
  | zero => intro s c h; exact Or.inl h
  | succ n ih =>
    intro s c h
    unfold replaceLoop at h
    cases hm : r.matchHere s with
    | some m =>
      rw [hm] at h
      simp only [] at h
      split_ifs at h with hlen
      · rcases List.mem_append.mp h with h1 | h1
        · exact Or.inr h1
        · rcases ih _ _ h1 with h2 | h2
          · exact Or.inl ((matchHere_after_suffix r s m hm).subset h2)
          · exact Or.inr h2
      · cases s with
        | nil => exact Or.inr h
        | cons x xs =>
          simp only [] at h
          rcases List.mem_append.mp h with h1 | h1
          · exact Or.inr h1
          · rcases List.mem_cons.mp h1 with h2 | h2
            · exact Or.inl (h2 ▸ List.mem_cons_self _ _)
            · rcases ih _ _ h2 with h3 | h3
              · exact Or.inl (List.mem_cons_of_mem _ h3)
              · exact Or.inr h3
    | none =>
      rw [hm] at h
      cases s with
      | nil => cases h
      | cons x xs =>
        simp only [] at h
        rcases List.mem_cons.mp h with h2 | h2
        · exact Or.inl (h2 ▸ List.mem_cons_self _ _)
        · rcases ih _ _ h2 with h3 | h3
          · exact Or.inl (List.mem_cons_of_mem _ h3)
          · exact Or.inr h3

theorem replaceLoop_id (r : Regex) (repl : JSString) :
    ∀ (n : Nat) (s : JSString), (∀ t, t <:+ s → r.matchHere t = none) →
      replaceLoop r repl n s = s := by
  intro n
  induction n with
  | zero => intro s _; rfl
  | succ n ih =>
    intro s h
    unfold replaceLoop
    rw [h s (List.suffix_refl s)]
    cases s with
    | nil => rfl
    | cons x xs =>
      simp only []
      rw [ih xs (fun t ht => h t (ht.trans (List.suffix_cons x xs)))]

theorem replaceLoop_spaces_true (repl : JSString) (n x : Nat) (xs : JSString)
    (h : isSpace x = true) :
    replaceLoop spacesPattern repl (n + 1) (x :: xs) =
      repl ++ replaceLoop spacesPattern repl n (xs.dropWhile isSpace) := by
  obtain ⟨m, hm, hafter⟩ := matchHere_spaces_true x xs h
  have hlen : (xs.dropWhile isSpace).length < (x :: xs).length := by
    have := (List.dropWhile_sublist isSpace (l := xs)).length_le
    simp only [List.length_cons]
    omega
  rw [replaceLoop, hm]
  simp only [hafter]
  rw [if_pos hlen]

theorem replaceLoop_spaces_false (repl : JSString) (n x : Nat) (xs : JSString)
    (h : isSpace x = false) :
    replaceLoop spacesPattern repl (n + 1) (x :: xs) =
      x :: replaceLoop spacesPattern repl n xs := by
  rw [replaceLoop, matchHere_spaces_false x xs h]

theorem replaceLoop_spaces_nil (repl : JSString) (n : Nat) :
    replaceLoop spacesPattern repl n [] = [] := by
  cases n with
  | zero => rfl
  | succ n => rw [replaceLoop, matchHere_spaces_nil]
theorem collapse_spec :
    ∀ (n : Nat) (s : JSString), s.length ≤ n →
      (∀ c ∈ replaceLoop spacesPattern (js " ") n s, (c ∈ s ∧ isSpace c = false) ∨ c = 32) ∧
      (∀ y ys, s = y :: ys → isSpace y = false →
        ∃ r, replaceLoop spacesPattern (js " ") n s = y :: r) ∧
      List.Chain' (fun a b => ¬ (isSpace a = true ∧ isSpace b = true))
        (replaceLoop spacesPattern (js " ") n s) := by
  intro n
  induction n with
  | zero =>
    intro s hs
    have : s = [] := List.length_eq_zero.mp (Nat.le_zero.mp hs)
    subst this
    refine ⟨fun c h => (by cases h), fun y ys h => (by cases h), List.chain'_nil⟩
  | succ n ih =>
    intro s hs
    cases s with
    | nil =>
      rw [replaceLoop_spaces_nil]
      exact ⟨fun c h => (by cases h), fun y ys h => (by cases h), List.chain'_nil⟩
    | cons x xs =>
      have hxs : xs.length ≤ n := by simpa using hs
      cases hx : isSpace x with
      | true =>
        have hd : (xs.dropWhile isSpace).length ≤ n :=
          le_trans (List.dropWhile_sublist isSpace (l := xs)).length_le hxs
        obtain ⟨ih1, ih2, ih3⟩ := ih (xs.dropWhile isSpace) hd
        rw [replaceLoop_spaces_true _ n x xs hx]
        have hjs : ∀ t : JSString, js " " ++ t = 32 :: t := fun _ => rfl
        rw [hjs]
        refine ⟨?_, ?_, ?_⟩
        · intro c hc
          rcases List.mem_cons.mp hc with h | h
          · exact Or.inr h
          · rcases ih1 c h with ⟨h1, h2⟩ | h1
            · exact Or.inl ⟨List.mem_cons_of_mem _
                ((List.dropWhile_sublist isSpace).subset h1), h2⟩
            · exact Or.inr h1
        · intro y ys hy hysp
          cases hy
          rw [hx] at hysp
          cases hysp
        · rw [List.chain'_cons']
          refine ⟨?_, ih3⟩
          intro y hy
          cases hdw : xs.dropWhile isSpace with
          | nil =>
            rw [hdw, replaceLoop_spaces_nil] at hy
            cases hy
          | cons z zs =>
            have hz := dropWhile_head_not isSpace xs z zs hdw
            obtain ⟨r, hr⟩ := ih2 z zs hdw hz
            rw [hr] at hy
            simp only [List.head?_cons, Option.mem_def, Option.some.injEq] at hy
            subst hy
            simp [hz]
      | false =>
        obtain ⟨ih1, ih2, ih3⟩ := ih xs hxs
        rw [replaceLoop_spaces_false _ n x xs hx]
        refine ⟨?_, ?_, ?_⟩
        · intro c hc
          rcases List.mem_cons.mp hc with h | h
          · subst h
            exact Or.inl ⟨List.mem_cons_self _ _, hx⟩
          · rcases ih1 c h with ⟨h1, h2⟩ | h1
            · exact Or.inl ⟨List.mem_cons_of_mem _ h1, h2⟩
            · exact Or.inr h1
        · intro y ys hy _
          cases hy
          exact ⟨_, rfl⟩
        · rw [List.chain'_cons']
          refine ⟨?_, ih3⟩
          intro y _
          simp [hx]

theorem collapse_id :
    ∀ (n : Nat) (s : JSString), (∀ c ∈ s, isSpace c = true → c = 32) →
      List.Chain' (fun a b => ¬ (isSpace a = true ∧ isSpace b = true)) s →
      replaceLoop spacesPattern (js " ") n s = s := by
  intro n
  induction n with
  | zero => intro s _ _; rfl
  | succ n ih =>
    intro s hsp hch
    cases s with
    | nil => exact replaceLoop_spaces_nil _ _
    | cons x xs =>
      have hsp2 : ∀ c ∈ xs, isSpace c = true → c = 32 :=
        fun c hc => hsp c (List.mem_cons_of_mem _ hc)
      rw [List.chain'_cons'] at hch
      cases hx : isSpace x with
      | true =>
        have hx32 : x = 32 := hsp x (List.mem_cons_self _ _) hx
        have hdw : xs.dropWhile isSpace = xs := by
          cases xs with
          | nil => rfl
          | cons y ys =>
            have hy := hch.1 y rfl
            have hy2 : isSpace y = false := by
              cases hys : isSpace y with
              | true => exact absurd ⟨hx, hys⟩ hy
              | false => rfl
            exact dropWhile_eq_self_of_head isSpace y ys hy2
        rw [replaceLoop_spaces_true _ n x xs hx, hdw, ih xs hsp2 hch.2, hx32]
        rfl
      | false =>
        rw [replaceLoop_spaces_false _ n x xs hx, ih xs hsp2 hch.2]

/-! ## Properties of the cleaned text -/

theorem splitBy_mem (p : Nat → Bool) (s : JSString) :
    ∀ seg ∈ splitBy p s, ∀ c ∈ seg, c ∈ s := by
  induction s with
  | nil =>
    intro seg hseg c hc
    simp only [splitBy, List.mem_singleton] at hseg
    subst hseg
    exact hc
  | cons x xs ih =>
    intro seg hseg c hc
    unfold splitBy at hseg
    split_ifs at hseg with hx
    · rcases List.mem_cons.mp hseg with h | h
      · subst h
        cases hc
      · exact List.mem_cons_of_mem _ (ih seg h c hc)
    · cases hsp : splitBy p xs with
      | nil => exact absurd hsp (splitBy_ne_nil p xs)
      | cons h t =>
        rw [hsp] at hseg ih
        simp only [List.mem_cons] at hseg
        rcases hseg with h1 | h1
        · subst h1
          rcases List.mem_cons.mp hc with h2 | h2
          · exact h2 ▸ List.mem_cons_self _ _
          · exact List.mem_cons_of_mem _ (ih h (List.mem_cons_self _ _) c h2)
        · exact List.mem_cons_of_mem _ (ih seg (List.mem_cons_of_mem _ h1) c hc)

theorem join_single (sep t : JSString) : sep.intercalate [t] = t := by
  simp [List.intercalate]

theorem join_cons_cons (sep t u : JSString) (ts : List JSString) :
    sep.intercalate (t :: u :: ts) = t ++ sep ++ sep.intercalate (u :: ts) := by
  simp [List.intercalate]

theorem join_mem (sep : JSString) (ts : List JSString) (c : Nat)
    (h : c ∈ sep.intercalate ts) : c ∈ sep ∨ ∃ t ∈ ts, c ∈ t := by
  induction ts with
  | nil => cases h
  | cons t rest ih =>
    cases rest with
    | nil =>
      rw [join_single] at h
      exact Or.inr ⟨t, List.mem_cons_self _ _, h⟩
    | cons u us =>
      rw [join_cons_cons] at h
      rcases List.mem_append.mp h with h1 | h1
      · rcases List.mem_append.mp h1 with h2 | h2
        · exact Or.inr ⟨t, List.mem_cons_self _ _, h2⟩
        · exact Or.inl h2
      · rcases ih h1 with h2 | ⟨v, hv, hc⟩
        · exact Or.inl h2
        · exact Or.inr ⟨v, List.mem_cons_of_mem _ hv, hc⟩

theorem join_ne_nil (sep : JSString) (ts : List JSString) (hne : ts ≠ [])
    (h : ∀ t ∈ ts, t ≠ []) : sep.intercalate ts ≠ [] := by
  cases ts with
  | nil => exact absurd rfl hne
  | cons t rest =>
    have ht : t ≠ [] := h t (List.mem_cons_self _ _)
    cases rest with
    | nil => rw [join_single]; exact ht
    | cons u us =>
      rw [join_cons_cons]
      intro hnil
      rw [List.append_assoc] at hnil
      exact ht (List.append_eq_nil.mp hnil).1

theorem splitBy_join (ts : List JSString) (hne : ts ≠ []) (h : ∀ t ∈ ts, 32 ∉ t) :
    splitBy (fun c => c == 32) ((js " ").intercalate ts) = ts := by
  have hfree : ∀ t : JSString, 32 ∉ t → ∀ c ∈ t, (fun c => c == 32) c = false := by
    intro t ht c hc
    have : c ≠ 32 := fun h => ht (h ▸ hc)
    simp [this]
  induction ts with
  | nil => exact absurd rfl hne
  | cons t rest ih =>
    have ht := h t (List.mem_cons_self _ _)
    cases rest with
    | nil =>
      rw [join_single]
      exact splitBy_plain _ t (hfree t ht)
    | cons u us =>
      rw [join_cons_cons]
      have hjs : t ++ js " " ++ (js " ").intercalate (u :: us) =
          t ++ 32 :: (js " ").intercalate (u :: us) := by
        rw [List.append_assoc]
        rfl
      rw [hjs, splitBy_append _ t 32 _ (hfree t ht) rfl,
        ih (List.cons_ne_nil _ _) (fun v hv => h v (List.mem_cons_of_mem _ hv))]

theorem chain_of_none (Q : Nat → Prop) (s : JSString) (h : ∀ c ∈ s, ¬ Q c) :
    List.Chain' (fun a b => ¬ (Q a ∧ Q b)) s := by
  induction s with
  | nil => exact List.chain'_nil
  | cons x xs ih =>
    rw [List.chain'_cons']
    exact ⟨fun y _ hxy => h x (List.mem_cons_self _ _) hxy.1,
      ih (fun c hc => h c (List.mem_cons_of_mem _ hc))⟩

theorem trim_eq_self (s : JSString) (hhead : ∀ x ∈ s.head?, isSpace x = false)
    (hlast : ∀ y ∈ s.getLast?, isSpace y = false) : trim s = s := by
  have h1 : s.dropWhile isSpace = s := by
    cases s with
    | nil => rfl
    | cons x xs => exact dropWhile_eq_self_of_head isSpace x xs (hhead x rfl)
  rw [trim_eq_rdropWhile, h1, List.rdropWhile_eq_self_iff]
  intro hl
  have := hlast (s.getLast hl) (List.getLast?_eq_getLast s hl)
  simp [this]

theorem join_shape (ts : List JSString)
    (h : ∀ t ∈ ts, t ≠ [] ∧ ∀ c ∈ t, isSpace c = false) :
    (∀ x ∈ ((js " ").intercalate ts).head?, isSpace x = false) ∧
    (∀ y ∈ ((js " ").intercalate ts).getLast?, isSpace y = false) ∧
    List.Chain' (fun a b => ¬ (a = 32 ∧ b = 32)) ((js " ").intercalate ts) := by
  have htok : ∀ t : JSString, t ≠ [] → (∀ c ∈ t, isSpace c = false) →
      (∀ x ∈ t.head?, isSpace x = false) ∧ (∀ y ∈ t.getLast?, isSpace y = false) ∧
      List.Chain' (fun a b => ¬ (a = 32 ∧ b = 32)) t := by
    intro t _ hc
    refine ⟨fun x hx => hc x (List.mem_of_mem_head? hx),
      fun y hy => hc y (List.mem_of_mem_getLast? hy), ?_⟩
    apply chain_of_none (fun a => a = 32)
    intro c hcm h32
    have := hc c hcm
    rw [h32] at this
    revert this
    decide
  induction ts with
  | nil =>
    refine ⟨fun x hx => (by cases hx), fun y hy => (by cases hy), List.chain'_nil⟩
  | cons t rest ih =>
    obtain ⟨hne, hc⟩ := h t (List.mem_cons_self _ _)
    obtain ⟨t1, t2, t3⟩ := htok t hne hc
    cases rest with
    | nil =>
      rw [join_single]
      exact ⟨t1, t2, t3⟩
    | cons u us =>
      have hrest : ∀ v ∈ u :: us, v ≠ [] ∧ ∀ c ∈ v, isSpace c = false :=
        fun v hv => h v (List.mem_cons_of_mem _ hv)
      obtain ⟨r1, r2, r3⟩ := ih hrest
      have hrne : (js " ").intercalate (u :: us) ≠ [] :=
        join_ne_nil _ _ (List.cons_ne_nil _ _) (fun v hv => (hrest v hv).1)
      rw [join_cons_cons]
      have hjs : t ++ js " " ++ (js " ").intercalate (u :: us) =
          t ++ 32 :: (js " ").intercalate (u :: us) := by
        rw [List.append_assoc]
        rfl
      rw [hjs]
      refine ⟨?_, ?_, ?_⟩
      · intro x hx
        cases t with
        | nil => exact absurd rfl hne
        | cons a as =>
          simp only [List.cons_append, List.head?_cons, Option.mem_def, Option.some.injEq] at hx
          subst hx
          exact hc _ (List.mem_cons_self _ _)
      · intro y hy
        rw [List.getLast?_append_of_ne_nil _ (List.cons_ne_nil _ _)] at hy
        cases hj : (js " ").intercalate (u :: us) with
        | nil => exact absurd hj hrne
        | cons a as =>
          rw [hj, List.getLast?_cons_cons] at hy
          rw [hj] at r2
          exact r2 y hy
      · apply List.Chain'.append t3
        · rw [List.chain'_cons']
          refine ⟨?_, r3⟩
          intro y hy hand
          have := r1 y hy
          rw [hand.2] at this
          revert this
          decide
        · intro x hx y hy hand
          have := t2 x hx
          rw [hand.1] at this
          revert this
          decide

theorem cleanExtractedText_eq (rawText : JSString) :
    cleanExtractedText rawText =
      (js " ").intercalate
        ((splitBy (fun c => c == 32)
          (trim (replaceAll disallowedPattern []
            (replaceAll spacesPattern (js " ") rawText)))).filter keptWord) := by
  unfold cleanExtractedText
  by_cases h : rawText = []
  · rw [if_pos h, h]
    decide
  · rw [if_neg h]

theorem filtered_chars (rawText : JSString) :
    ∀ c ∈ trim (replaceAll disallowedPattern [] (replaceAll spacesPattern (js " ") rawText)),
      isAllowed c = true ∧ (isSpace c = true → c = 32) := by
  intro c hc
  have h1 := mem_of_mem_trim _ c hc
  unfold disallowedPattern at h1
  rw [replaceAll_cls, List.mem_flatMap] at h1
  obtain ⟨x, hx, hcx⟩ := h1
  cases ha : isAllowed x with
  | false =>
    rw [ha] at hcx
    cases hcx
  | true =>
    rw [ha] at hcx
    simp only [Bool.not_true, Bool.false_eq_true, if_false, List.mem_singleton] at hcx
    subst hcx
    refine ⟨ha, ?_⟩
    intro hsp
    unfold replaceAll at hx
    rcases (collapse_spec (rawText.length + 1) rawText (Nat.le_succ _)).1 c hx with ⟨-, h2⟩ | h2
    · rw [h2] at hsp
      cases hsp
    · exact h2

theorem kept_tokens (rawText : JSString) :
    ∀ t ∈ (splitBy (fun c => c == 32)
        (trim (replaceAll disallowedPattern []
          (replaceAll spacesPattern (js " ") rawText)))).filter keptWord,
      t ≠ [] ∧ (∀ c ∈ t, isSpace c = false) ∧ (∀ c ∈ t, isAllowed c = true) := by
  intro t ht
  rw [List.mem_filter] at ht
  obtain ⟨hseg, hkept⟩ := ht
  refine ⟨?_, ?_, ?_⟩
  · intro h
    rw [h] at hkept
    revert hkept
    decide
  · intro c hc
    have hne := splitBy_segments _ _ t hseg c hc
    have hch := (filtered_chars rawText c (splitBy_mem _ _ t hseg c hc)).2
    cases hsp : isSpace c with
    | false => rfl
    | true =>
      rw [hch hsp] at hne
      cases hne
  · intro c hc
    exact (filtered_chars rawText c (splitBy_mem _ _ t hseg c hc)).1

theorem allowed_cases (c : Nat) (ha : isAllowed c = true) (hs : isSpace c = false) :
    isWord c = true ∨ c = 32 ∨ c ∈ [46, 44, 40, 41, 37, 45, 58] := by
  unfold isAllowed at ha
  rw [hs] at ha
  simp only [Bool.or_false, Bool.or_eq_true, beq_iff_eq] at ha
  rcases ha with ((((((h | h) | h) | h) | h) | h) | h) | h
  · exact Or.inl h
  all_goals
    subst h
    decide

/-- C28, as stated, fails: `%` is punctuation of the allow-list, yet the one-character
token `%` of `100 % juice` is dropped; so are the one-character tokens `-` and `:`. -/
theorem percent_token_counterexample :
    isAllowed 37 = true ∧ isAllowed 45 = true ∧ isAllowed 58 = true ∧
    cleanExtractedText (js "100 % juice") = js "100 juice" ∧
    cleanExtractedText (js "salt - oil : 10") = js "salt oil 10" := by
  decide

/-- C28, amended: for every raw OCR string `cleanExtractedText` returns a string that
contains only characters of the allow-list (letters, digits, underscore, the space and
the punctuation `. , ( ) % - :`), has no leading, trailing or consecutive spaces, and in
which every one-character token is one of `( ) , .`: the tokens of the result are, in
order, the space-separated tokens of the filtered and trimmed text that have more than
one character or are one of `( ) , .`; a one-character token `%`, `-` or `:` is
dropped like any other one-character token. -/
theorem cleanExtractedText_shape (rawText : JSString) :
    (∀ c ∈ cleanExtractedText rawText,
      isWord c = true ∨ c = 32 ∨ c ∈ [46, 44, 40, 41, 37, 45, 58]) ∧
    trim (cleanExtractedText rawText) = cleanExtractedText rawText ∧
    List.Chain' (fun a b => ¬ (a = 32 ∧ b = 32)) (cleanExtractedText rawText) ∧
    (∀ t ∈ splitBy (fun c => c == 32) (cleanExtractedText rawText), t.length = 1 →
      t = js "(" ∨ t = js ")" ∨ t = js "," ∨ t = js ".") ∧
    (splitBy (fun c => c == 32) (cleanExtractedText rawText)).filter
        (fun t => decide (t ≠ [])) =
      (splitBy (fun c => c == 32)
        (trim (replaceAll disallowedPattern []
          (replaceAll spacesPattern (js " ") rawText)))).filter
        (fun t => decide (1 < t.length ∨ t = js "(" ∨ t = js ")" ∨ t = js "," ∨ t = js ".")) := by
  have hkw : ∀ t : JSString, keptWord t =
      decide (1 < t.length ∨ t = js "(" ∨ t = js ")" ∨ t = js "," ∨ t = js ".") := by
    intro t
    unfold keptWord
    rw [Bool.eq_iff_iff]
    simp only [Bool.or_eq_true, decide_eq_true_eq, beq_iff_eq, gt_iff_lt]
    tauto
  have hfilter : (fun t : JSString =>
      decide (1 < t.length ∨ t = js "(" ∨ t = js ")" ∨ t = js "," ∨ t = js ".")) = keptWord :=
    funext (fun t => (hkw t).symm)
  rw [hfilter]
  have hk := kept_tokens rawText
  have heq := cleanExtractedText_eq rawText
  generalize hts : (splitBy (fun c => c == 32)
      (trim (replaceAll disallowedPattern []
        (replaceAll spacesPattern (js " ") rawText)))).filter keptWord = ts at hk heq
  have hkept : ∀ t ∈ ts, keptWord t = true := by
    intro t ht
    rw [← hts] at ht
    exact (List.mem_filter.mp ht).2
  obtain ⟨j1, j2, j3⟩ := join_shape ts (fun t ht => ⟨(hk t ht).1, (hk t ht).2.1⟩)
  rw [heq]
  have hsplit : ts ≠ [] → splitBy (fun c => c == 32) ((js " ").intercalate ts) = ts := by
    intro hne
    apply splitBy_join ts hne
    intro t ht h32
    have := (hk t ht).2.1 32 h32
    revert this
    decide
  have hjoin_nil : (js " ").intercalate ([] : List JSString) = [] := rfl
  have hsplit_nil : splitBy (fun c => c == 32) [] = [[]] := rfl
  refine ⟨?_, trim_eq_self _ j1 j2, j3, ?_, ?_⟩
  · intro c hc
    rcases join_mem _ _ _ hc with h | ⟨t, ht, hct⟩
    · right; left
      simpa [js] using h
    · exact allowed_cases c ((hk t ht).2.2 c hct) ((hk t ht).2.1 c hct)
  · intro t ht hlen
    by_cases hne : ts = []
    · rw [hne, hjoin_nil, hsplit_nil, List.mem_singleton] at ht
      rw [ht] at hlen
      cases hlen
    · rw [hsplit hne] at ht
      have := hkept t ht
      rw [hkw, decide_eq_true_eq] at this
      rcases this with h | h
      · omega
      · exact h
  · by_cases hne : ts = []
    · rw [hne, hjoin_nil, hsplit_nil]
      rfl
    · rw [hsplit hne]
      apply List.filter_eq_self.mpr
      intro t ht
      simpa using (hk t ht).1

/-! ## Properties of the normalized names -/

theorem isWord_not_space (c : Nat) (h : isWord c = true) : isSpace c = false := by
  have hw : 48 ≤ c ∧ c ≤ 122 := by
    unfold isWord isDigit at h
    simp only [Bool.or_eq_true, Bool.and_eq_true, decide_eq_true_eq, beq_iff_eq] at h
    omega
  cases hs : isSpace c with
  | false => rfl
  | true =>
    exfalso
    unfold isSpace isLineTerminator at hs
    simp only [Bool.or_eq_true, Bool.and_eq_true, decide_eq_true_eq, beq_iff_eq] at hs
    omega

theorem lowerUnit_lowered (x c : Nat) (h : c ∈ lowerUnit x) : lowerUnit c = [c] := by
  unfold lowerUnit at h
  split_ifs at h with h1 h2 h3
  · simp only [Bool.and_eq_true, decide_eq_true_eq] at h1
    simp only [List.mem_singleton] at h
    subst h
    unfold lowerUnit
    have e1 : (decide (65 ≤ x + 32) && decide (x + 32 ≤ 90)) = false := by
      simp only [Bool.and_eq_false_imp, decide_eq_true_eq, decide_eq_false_iff_not]
      omega
    have e2 : (x + 32 == 0x212A) = false := by
      simp only [beq_eq_false_iff_ne]
      omega
    have e3 : (x + 32 == 0x0130) = false := by
      simp only [beq_eq_false_iff_ne]
      omega
    simp only [e1, e2, e3, Bool.false_eq_true, if_false]
  · simp only [List.mem_singleton] at h
    subst h
    decide
  · simp only [List.mem_cons, List.mem_singleton, List.not_mem_nil, or_false] at h
    rcases h with h | h <;> subst h <;> decide
  · simp only [List.mem_singleton] at h
    subst h
    unfold lowerUnit
    simp only [h1, h2, h3, Bool.false_eq_true, if_false]

theorem flatMap_fixed (f : Nat → JSString) (s : JSString) (h : ∀ c ∈ s, f c = [c]) :
    s.flatMap f = s := by
  induction s with
  | nil => rfl
  | cons x xs ih =>
    rw [List.flatMap_cons, h x (List.mem_cons_self _ _),
      ih (fun c hc => h c (List.mem_cons_of_mem _ hc))]
    rfl

theorem parenPattern_no_match (t : JSString) (h : 40 ∉ t) : parenPattern.matchHere t = none := by
  have hp : parenPattern =
      .seq (.cls (fun c => c == 40)) (.seq (.star (.cls (fun c => c != 41))) (.cls (fun c => c == 41))) :=
    rfl
  unfold Regex.matchHere
  rw [hp, run_seq]
  cases t with
  | nil => rfl
  | cons x xs =>
    have hx : (x == 40) = false := by
      simp only [beq_eq_false_iff_ne]
      exact fun hx => h (hx ▸ List.mem_cons_self _ _)
    rw [run_cls]
    simp only [hx, Bool.false_eq_true, if_false]

theorem bracketPattern_no_match (t : JSString) (h : 91 ∉ t) :
    bracketPattern.matchHere t = none := by
  have hp : bracketPattern =
      .seq (.cls (fun c => c == 91)) (.seq (.star (.cls (fun c => c != 93))) (.cls (fun c => c == 93))) :=
    rfl
  unfold Regex.matchHere
  rw [hp, run_seq]
  cases t with
  | nil => rfl
  | cons x xs =>
    have hx : (x == 91) = false := by
      simp only [beq_eq_false_iff_ne]
      exact fun hx => h (hx ▸ List.mem_cons_self _ _)
    rw [run_cls]
    simp only [hx, Bool.false_eq_true, if_false]

theorem trim_within (s : JSString) : trim s <:+: s := by
  rw [trim_eq_rdropWhile]
  exact (List.rdropWhile_prefix isSpace _).isInfix.trans (List.dropWhile_suffix isSpace).isInfix

theorem normalize_normal (name : JSString) :
    (∀ c ∈ normalizeIngredientName name, (isWord c = true ∧ lowerUnit c = [c]) ∨ c = 32) ∧
    List.Chain' (fun a b => ¬ (isSpace a = true ∧ isSpace b = true))
      (normalizeIngredientName name) ∧
    trim (normalizeIngredientName name) = normalizeIngredientName name := by
  unfold normalizeIngredientName
  refine ⟨?_, ?_, trim_idem _⟩
  · intro c hc
    have h1 := mem_of_mem_trim _ c hc
    unfold replaceAll at h1
    rcases (collapse_spec _ _ (Nat.le_succ _)).1 c h1 with ⟨h2, hsp⟩ | h2
    · left
      have h3 : c ∈ replaceAll punctPattern (js " ")
          (replaceAll bracketPattern [] (replaceAll parenPattern [] (trim (toLowerCase name)))) :=
        h2
      unfold punctPattern at h3
      rw [replaceAll_cls, List.mem_flatMap] at h3
      obtain ⟨x, hx, hcx⟩ := h3
      cases hw : (!(isWord x || isSpace x)) with
      | true =>
        rw [hw, if_pos rfl] at hcx
        have : c = 32 := by simpa [js] using hcx
        rw [this] at hsp
        cases hsp
      | false =>
        rw [hw] at hcx
        simp only [Bool.false_eq_true, if_false, List.mem_singleton] at hcx
        subst hcx
        simp only [Bool.not_eq_false', Bool.or_eq_true] at hw
        have hword : isWord c = true := by
          rcases hw with h | h
          · exact h
          · rw [hsp] at h
            cases h
        refine ⟨hword, ?_⟩
        have h4 : c ∈ replaceAll parenPattern [] (trim (toLowerCase name)) := by
          rcases replaceLoop_mem _ _ _ _ c hx with h | h
          · exact h
          · cases h
        have h5 : c ∈ trim (toLowerCase name) := by
          rcases replaceLoop_mem _ _ _ _ c h4 with h | h
          · exact h
          · cases h
        have h6 := mem_of_mem_trim _ c h5
        unfold toLowerCase at h6
        rw [List.mem_flatMap] at h6
        obtain ⟨y, -, hy⟩ := h6
        exact lowerUnit_lowered y c hy
    · exact Or.inr h2
  · apply List.Chain'.infix _ (trim_within _)
    unfold replaceAll
    exact (collapse_spec _ _ (Nat.le_succ _)).2.2

theorem normalize_of_normal (s : JSString)
    (hchars : ∀ c ∈ s, (isWord c = true ∧ lowerUnit c = [c]) ∨ c = 32)
    (hchain : List.Chain' (fun a b => ¬ (isSpace a = true ∧ isSpace b = true)) s)
    (htrim : trim s = s) : normalizeIngredientName s = s := by
  have hlower : toLowerCase s = s := by
    unfold toLowerCase
    apply flatMap_fixed
    intro c hc
    rcases hchars c hc with ⟨-, h⟩ | h
    · exact h
    · rw [h]; rfl
  have hne : ∀ (k : Nat), isWord k = false → k ≠ 32 → k ∉ s := by
    intro k hk hk32 hmem
    rcases hchars k hmem with ⟨h, -⟩ | h
    · rw [hk] at h
      cases h
    · exact hk32 h
  have hparen : replaceAll parenPattern [] s = s := by
    unfold replaceAll
    apply replaceLoop_id
    intro t ht
    exact parenPattern_no_match t (fun h => hne 40 (by decide) (by decide) (ht.subset h))
  have hbracket : replaceAll bracketPattern [] s = s := by
    unfold replaceAll
    apply replaceLoop_id
    intro t ht
    exact bracketPattern_no_match t (fun h => hne 91 (by decide) (by decide) (ht.subset h))
  have hpunct : replaceAll punctPattern (js " ") s = s := by
    unfold punctPattern
    rw [replaceAll_cls]
    apply flatMap_fixed
    intro c hc
    have : (!(isWord c || isSpace c)) = false := by
      rcases hchars c hc with ⟨h, -⟩ | h
      · simp [h]
      · rw [h]; rfl
    rw [this]
    rfl
  have hspaces : replaceAll spacesPattern (js " ") s = s := by
    unfold replaceAll
    apply collapse_id _ _ _ hchain
    intro c hc hsp
    rcases hchars c hc with ⟨h, -⟩ | h
    · rw [isWord_not_space c h] at hsp
      cases hsp
    · exact h
  unfold normalizeIngredientName
  rw [hlower, htrim, hparen, hbracket, hpunct, hspaces, htrim]

theorem normalize_idem (name : JSString) :
    normalizeIngredientName (normalizeIngredientName name) = normalizeIngredientName name := by
  obtain ⟨h1, h2, h3⟩ := normalize_normal name
  exact normalize_of_normal _ h1 h2 h3

/-- C22: for a table whose keys are normalized ingredient names, `getIngredientRisk` is
idempotent on the normalized name: for every non-empty name `n`,
`getIngredientRisk(normalizeIngredientName(n)) = getIngredientRisk(n)`,
`normalizeIngredientName(normalizeIngredientName(n)) = normalizeIngredientName(n)`, and
every non-empty name with the same normalized form as `n` receives the same category. -/
theorem getIngredientRisk_normalized (db : IngredientTable) (hdb : wellFormedTable db)
    (n : JSString) (hn : n ≠ []) :
    getIngredientRisk db (normalizeIngredientName n) = getIngredientRisk db n ∧
    normalizeIngredientName (normalizeIngredientName n) = normalizeIngredientName n ∧
    (∀ m : JSString, m ≠ [] → normalizeIngredientName m = normalizeIngredientName n →
      getIngredientRisk db m = getIngredientRisk db n) := by
  refine ⟨?_, normalize_idem n, ?_⟩
  · by_cases he : normalizeIngredientName n = []
    · rw [getIngredientRisk_no_entry db n hn (by rw [he]; exact hdb.1), he]
      rfl
    · unfold getIngredientRisk
      rw [if_neg he, if_neg hn, normalize_idem]
  · intro m hm heq
    unfold getIngredientRisk
    rw [if_neg hm, if_neg hn, heq]

theorem getIngredientRisk_normalized_witness :
    getIngredientRisk [] (normalizeIngredientName (js "Palm Oil (refined)")) =
        getIngredientRisk [] (js "Palm Oil (refined)") ∧
    normalizeIngredientName (normalizeIngredientName (js "Palm Oil (refined)")) =
      normalizeIngredientName (js "Palm Oil (refined)") ∧
    (∀ m : JSString, m ≠ [] →
      normalizeIngredientName m = normalizeIngredientName (js "Palm Oil (refined)") →
      getIngredientRisk [] m = getIngredientRisk [] (js "Palm Oil (refined)")) :=
  getIngredientRisk_normalized [] ⟨rfl, rfl⟩ (js "Palm Oil (refined)") (by decide)

/-! ## Properties of the anchor segmentation -/

theorem run_alt {α : Type} (a b : Regex) (s : JSString) (c : Caps) (k : Cont α) :
    (Regex.alt a b).run s c k =
      match a.run s c k with
      | some r => some r
      | none => b.run s c k := rfl

theorem run_literal {α : Type} (w : JSString) (hw : w ≠ []) :
    ∀ (s : JSString) (c : Caps) (k : Cont α),
      (Regex.cat (w.map (fun p => Regex.cls (ciEq p)))).run s c k =
        if startsWithCI w s = true then k (s.drop w.length) c else none := by
  induction w with
  | nil => exact absurd rfl hw
  | cons p ps ih =>
    intro s c k
    cases ps with
    | nil =>
      show (Regex.cls (ciEq p)).run s c k = _
      cases s with
      | nil => rfl
      | cons x xs =>
        rw [run_cls]
        simp [startsWithCI]
    | cons q qs =>
      show (Regex.seq (Regex.cls (ciEq p))
        (Regex.cat ((q :: qs).map (fun p => Regex.cls (ciEq p))))).run s c k = _
      rw [run_seq]
      cases s with
      | nil => rfl
      | cons x xs =>
        rw [run_cls, ih (List.cons_ne_nil _ _)]
        cases hp : ciEq p x <;> simp [startsWithCI, hp]

theorem run_lit {α : Type} (w : String) (hw : js w ≠ []) (s : JSString) (c : Caps)
    (k : Cont α) :
    (Regex.lit w).run s c k =
      if startsWithCI (js w) s = true then k (s.drop (js w).length) c else none :=
  run_literal (js w) hw s c k

theorem terminators_none {α : Type} (s : JSString) (c : Caps) (k : Cont α) (hs : s ≠ [])
    (h : terminatorAt s = false) :
    (Regex.alt (.cls (fun c => c == 46)) (.alt .eoi (.alt (Regex.lit "nutritional")
      (.alt (Regex.lit "contains") (Regex.lit "allergen"))))).run s c k = none := by
  unfold terminatorAt at h
  simp only [Bool.or_eq_false_iff] at h
  obtain ⟨⟨⟨h1, h2⟩, h3⟩, h4⟩ := h
  cases s with
  | nil => exact absurd rfl hs
  | cons x xs =>
    have hx : (x == 46) = false := by
      simpa using h1
    have e1 : (Regex.cls (fun c => c == 46)).run (x :: xs) c k = none := by
      rw [run_cls]
      simp only [hx, Bool.false_eq_true, if_false]
    have e2 : Regex.eoi.run (x :: xs) c k = none := rfl
    have e3 : (Regex.lit "nutritional").run (x :: xs) c k = none := by
      rw [run_lit _ (by decide), h2]
      rfl
    have e4 : (Regex.lit "contains").run (x :: xs) c k = none := by
      rw [run_lit _ (by decide), h3]
      rfl
    have e5 : (Regex.lit "allergen").run (x :: xs) c k = none := by
      rw [run_lit _ (by decide), h4]
      rfl
    rw [run_alt, e1]
    simp only []
    rw [run_alt, e2]
    simp only []
    rw [run_alt, e3]
    simp only []
    rw [run_alt, e4]
    simp only []
    exact e5

theorem terminators_some {α : Type} (s : JSString) (c : Caps) (F : JSString → Caps → α)
    (h : s = [] ∨ terminatorAt s = true) :
    ∃ s2, (Regex.alt (.cls (fun c => c == 46)) (.alt .eoi (.alt (Regex.lit "nutritional")
      (.alt (Regex.lit "contains") (Regex.lit "allergen"))))).run s c
        (fun s2 c2 => some (F s2 c2)) = some (F s2 c) := by
  cases s with
  | nil => exact ⟨[], rfl⟩
  | cons x xs =>
    have ht : terminatorAt (x :: xs) = true := by
      rcases h with h | h
      · cases h
      · exact h
    rw [run_alt, run_cls]
    by_cases hx : (x == 46) = true
    · rw [if_pos hx]
      exact ⟨xs, rfl⟩
    · rw [if_neg hx]
      simp only []
      have e2 : Regex.eoi.run (x :: xs) c (fun s2 c2 => some (F s2 c2)) = none := rfl
      rw [run_alt, e2]
      simp only []
      rw [run_alt, run_lit _ (by decide)]
      by_cases h2 : startsWithCI (js "nutritional") (x :: xs) = true
      · rw [if_pos h2]
        exact ⟨_, rfl⟩
      · rw [if_neg h2]
        simp only []
        rw [run_alt, run_lit _ (by decide)]
        by_cases h3 : startsWithCI (js "contains") (x :: xs) = true
        · rw [if_pos h3]
          exact ⟨_, rfl⟩
        · rw [if_neg h3]
          simp only []
          rw [run_lit _ (by decide)]
          have h4 : startsWithCI (js "allergen") (x :: xs) = true := by
            unfold terminatorAt at ht
            simp only [Bool.or_eq_true] at ht
            rcases ht with ((h | h) | h) | h
            · exact absurd (by simpa using h) hx
            · exact absurd h h2
            · exact absurd h h3
            · exact h
          rw [if_pos h4]
          exact ⟨_, rfl⟩

theorem starLoop_lazy_run {α : Type} (p : Nat → Bool) (c : Caps) (k : Cont α) (rest : JSString)
    (res : α) (hk : k rest c = some res) :
    ∀ (q : JSString) (n : Nat), q.length ≤ n → (∀ x ∈ q, p x = true) →
      (∀ a b, q = a ++ b → b ≠ [] → k (b ++ rest) c = none) →
      starLoop false (fun s1 c1 k1 => (Regex.cls p).run s1 c1 k1) n (q ++ rest) c k =
        some res := by
  intro q
  induction q with
  | nil =>
    intro n _ _ _
    cases n with
    | zero => exact hk
    | succ n =>
      simp only [List.nil_append, starLoop, Bool.false_eq_true, if_false, hk]
  | cons y ys ih =>
    intro n hn hp hnone
    cases n with
    | zero => simp at hn
    | succ n =>
      have hy : p y = true := hp y (List.mem_cons_self _ _)
      have h0 : k (y :: ys ++ rest) c = none := hnone [] (y :: ys) rfl (List.cons_ne_nil _ _)
      have hys := ih n (by simpa using hn) (fun x hx => hp x (List.mem_cons_of_mem _ hx))
        (fun a b hab hb => hnone (y :: a) b (by rw [hab]; rfl) hb)
      simp only [List.cons_append, starLoop, Bool.false_eq_true, if_false, run_cls, hy,
        if_true, List.length_cons, Nat.lt_succ_self]
      rw [List.cons_append] at h0
      rw [h0]
      simp only []
      exact hys

theorem exec_of_matchHere (r : Regex) (s : JSString) (m : MatchResult)
    (h : r.matchHere s = some m) : r.exec s = some m := by
  cases s with
  | nil => exact h
  | cons x xs =>
    unfold Regex.exec
    rw [h]

theorem exec_skip (r : Regex) (s : JSString) (m : MatchResult) (h : r.matchHere s = some m) :
    ∀ pre : JSString, (∀ p q, pre = p ++ q → q ≠ [] → r.matchHere (q ++ s) = none) →
      ∃ m2, r.exec (pre ++ s) = some m2 ∧ m2.caps = m.caps := by
  intro pre
  induction pre with
  | nil => intro _; exact ⟨m, exec_of_matchHere r s m h, rfl⟩
  | cons y ys ih =>
    intro hnone
    obtain ⟨m2, hm2, hcaps⟩ := ih (fun p q hpq hq => hnone (y :: p) q (by rw [hpq]; rfl) hq)
    have h0 : r.matchHere (y :: (ys ++ s)) = none :=
      hnone [] (y :: ys) rfl (List.cons_ne_nil _ _)
    refine ⟨{ m2 with before := y :: m2.before }, ?_, hcaps⟩
    show r.exec (y :: (ys ++ s)) = _
    unfold Regex.exec
    rw [h0, hm2]
    rfl

theorem startsWithCI_append (w a t : JSString) (h : startsWithCI w a = true) :
    startsWithCI w (a ++ t) = true := by
  induction w generalizing a with
  | nil => rfl
  | cons p ps ih =>
    cases a with
    | nil => cases h
    | cons x xs =>
      simp only [startsWithCI, Bool.and_eq_true] at h
      simp only [List.cons_append, startsWithCI, Bool.and_eq_true]
      exact ⟨h.1, ih xs h.2⟩

theorem segmentText_skip (text : JSString) (p : Regex) (ps : List Regex)
    (h : ∀ m, p.exec text = some m → m.capture 1 = none ∨ m.capture 1 = some []) :
    segmentText text (p :: ps) = segmentText text ps := by
  cases hm : p.exec text with
  | none => simp only [segmentText, hm]
  | some m =>
    rcases h m hm with h1 | h1 <;> simp only [segmentText, hm, h1]

theorem segmentText_capture (text : JSString) (p : Regex) (ps : List Regex) (m : MatchResult)
    (x : Nat) (xs : JSString) (hm : p.exec text = some m) (hc : m.capture 1 = some (x :: xs)) :
    segmentText text (p :: ps) = x :: xs := by
  simp only [segmentText, hm, hc]

theorem ingredientsAnchor_matchHere (anchor sep body rest : JSString)
    (hanchor : startsWithCI (js "ingredients") anchor = true) (hlen : anchor.length = 11)
    (hsep : ∀ c ∈ sep, isColonOrSpace c = true)
    (hne : body ≠ [])
    (hbody : ∀ x ∈ body.head?, isColonOrSpace x = false)
    (hline : ∀ c ∈ body, isLineTerminator c = false)
    (hterm : ∀ q ∈ body.tails, q ≠ [] → terminatorAt (q ++ rest) = false)
    (hrest : rest = [] ∨ terminatorAt rest = true) :
    ∃ m, (Regex.seq (Regex.lit "ingredients") (.seq (.star (.cls isColonOrSpace))
        (.seq (.group 1 (.lazyStar (.cls isDot)))
          (.alt (.cls (fun c => c == 46)) (.alt .eoi (.alt (Regex.lit "nutritional")
            (.alt (Regex.lit "contains") (Regex.lit "allergen")))))))).matchHere
        (anchor ++ (sep ++ (body ++ rest))) = some m ∧
      m.caps = [(1, body)] := by
  have htake : (body ++ rest).take ((body ++ rest).length - rest.length) = body := by
    rw [List.length_append, Nat.add_sub_cancel]
    exact List.take_left' rfl
  have hdrop : (anchor ++ (sep ++ (body ++ rest))).drop (js "ingredients").length =
      sep ++ (body ++ rest) := by
    have : (js "ingredients").length = anchor.length := by
      rw [hlen]
      decide
    rw [this]
    exact List.drop_left' rfl
  obtain ⟨s2, hs2⟩ := terminators_some rest [(1, body)]
    (fun s2 c => (⟨[], (anchor ++ (sep ++ (body ++ rest))).take
      ((anchor ++ (sep ++ (body ++ rest))).length - s2.length), s2, c⟩ : MatchResult)) hrest
  refine ⟨⟨[], (anchor ++ (sep ++ (body ++ rest))).take
    ((anchor ++ (sep ++ (body ++ rest))).length - s2.length), s2, [(1, body)]⟩, ?_, rfl⟩
  · unfold Regex.matchHere
    rw [run_seq, run_lit _ (by decide), if_pos (startsWithCI_append _ _ _ hanchor), hdrop,
      run_seq]
    show starLoop true (fun s1 c1 k1 => (Regex.cls isColonOrSpace).run s1 c1 k1)
      (sep ++ (body ++ rest)).length (sep ++ (body ++ rest)) [] _ = _
    apply starLoop_greedy_run isColonOrSpace [] _ (body ++ rest) _ _ _ sep _ _ hsep
    · intro x xs hx
      cases body with
      | nil => exact absurd rfl hne
      | cons y ys =>
        cases hx
        exact hbody _ rfl
    · rw [run_seq]
      show starLoop false (fun s1 c1 k1 => (Regex.cls isDot).run s1 c1 k1)
        (body ++ rest).length (body ++ rest) [] _ = _
      apply starLoop_lazy_run isDot [] _ rest _ _ body _ _ _ _
      · beta_reduce
        rw [htake]
        exact hs2
      · rw [List.length_append]
        exact Nat.le_add_right _ _
      · intro x hx
        unfold isDot
        rw [hline x hx]
        rfl
      · intro a b hab hb
        beta_reduce
        apply terminators_none
        · intro h
          exact hb (List.append_eq_nil.mp h).1
        · apply hterm b _ hb
          rw [List.mem_tails]
          exact ⟨a, hab.symm⟩
    · rw [List.length_append]
      exact Nat.le_add_right _ _

/-- C29, as stated, fails: in `ingredients: sugar, nutritionallergen info` the body
`sugar, nutrition` contains no terminator and the rest `allergen info` begins with one,
yet the terminator `nutritional` matches across the end of the body, so the tokens are
`sugar` alone and not the delimiter split `sugar`, `nutrition` of the body. -/
theorem straddling_terminator_counterexample :
    js "ingredients: sugar, nutritionallergen info" =
      [] ++ js "ingredients" ++ js ": " ++ js "sugar, nutrition" ++ js "allergen info" ∧
    (js ": ").all isColonOrSpace = true ∧
    (js "sugar, nutrition").head?.all (fun c => !isColonOrSpace c) = true ∧
    (js "sugar, nutrition").tails.all (fun q => !terminatorAt q) = true ∧
    terminatorAt (js "allergen info") = true ∧
    extractIngredients (js "ingredients: sugar, nutritionallergen info") = [js "sugar"] ∧
    (((splitBy isDelimiter (js "sugar, nutrition")).map trim).filter
      (fun t => decide (t.length > 2))).take 20 = [js "sugar", js "nutrition"] := by
  decide

/-- C29, amended: for every text `pre ++ anchor ++ sep ++ body ++ rest` in which
`anchor` is the first occurrence of `ingredients`, letter case ignored, `sep` is a run
of `:` and white space, `body` is not empty, does not begin with `:` or white space and
holds no line terminator, no terminator (`.`, `nutritional`, `contains`, `allergen`,
letter case ignored) begins at a position of `body`, not even one that runs on into
`rest`, and `rest` is empty or begins with a terminator, `extractIngredients` returns
the delimiter split of `body` alone. For every text, when the `ingredients` anchor
does not match or its captured text is empty the `contains` anchor is tried next, and
when neither anchor captures a non-empty text the whole text is split. -/
theorem anchor_segmentation (pre anchor sep body rest : JSString)
    (hanchor : startsWithCI (js "ingredients") anchor = true ∧ anchor.length = 11)
    (hfirst : ∀ q ∈ pre.tails, q ≠ [] →
      startsWithCI (js "ingredients") (q ++ anchor ++ sep ++ body ++ rest) = false)
    (hsep : ∀ c ∈ sep, isColonOrSpace c = true)
    (hbody : body ≠ [] ∧ ∀ x ∈ body.head?, isColonOrSpace x = false)
    (hline : ∀ c ∈ body, isLineTerminator c = false)
    (hterm : ∀ q ∈ body.tails, q ≠ [] → terminatorAt (q ++ rest) = false)
    (hrest : rest = [] ∨ terminatorAt rest = true) :
    extractIngredients (pre ++ anchor ++ sep ++ body ++ rest) =
      (((splitBy isDelimiter body).map trim).filter (fun t => decide (t.length > 2))).take 20 ∧
    (∀ (text : JSString) (p1 p2 : Regex), anchorPatterns = [p1, p2] →
      (∀ m, p1.exec text = some m → m.capture 1 = none ∨ m.capture 1 = some []) →
      segmentText text anchorPatterns = segmentText text [p2] ∧
      ((∀ m, p2.exec text = some m → m.capture 1 = none ∨ m.capture 1 = some []) →
        segmentText text anchorPatterns = text ∧
        extractIngredients text =
          (((splitBy isDelimiter text).map trim).filter
            (fun t => decide (t.length > 2))).take 20)) := by
  constructor
  · obtain ⟨p2, hpat⟩ : ∃ p2, anchorPatterns =
        [Regex.seq (Regex.lit "ingredients") (.seq (.star (.cls isColonOrSpace))
          (.seq (.group 1 (.lazyStar (.cls isDot)))
            (.alt (.cls (fun c => c == 46)) (.alt .eoi (.alt (Regex.lit "nutritional")
              (.alt (Regex.lit "contains") (Regex.lit "allergen"))))))), p2] := ⟨_, rfl⟩
    obtain ⟨m, hm, hcaps⟩ := ingredientsAnchor_matchHere anchor sep body rest hanchor.1
      hanchor.2 hsep hbody.1 hbody.2 hline hterm hrest
    obtain ⟨m2, hm2, hc2⟩ := exec_skip _ _ m hm pre (by
      intro p q hpq hq
      have h := hfirst q ((List.mem_tails _ _).mpr ⟨p, hpq.symm⟩) hq
      simp only [List.append_assoc] at h
      unfold Regex.matchHere
      rw [run_seq, run_lit _ (by decide), h]
      rfl)
    have htext : pre ++ anchor ++ sep ++ body ++ rest =
        pre ++ (anchor ++ (sep ++ (body ++ rest))) := by
      simp only [List.append_assoc]
    have hcap : m2.capture 1 = some body := by
      unfold MatchResult.capture
      rw [hc2, hcaps]
      rfl
    unfold extractIngredients
    rw [htext, hpat]
    cases hb : body with
    | nil => exact absurd hb hbody.1
    | cons x xs =>
      rw [hb] at hcap hm2
      rw [segmentText_capture _ _ _ m2 x xs hm2 hcap]
  · intro text p1 p2 hp h1
    rw [hp]
    refine ⟨segmentText_skip text p1 [p2] h1, ?_⟩
    intro h2
    have hseg : segmentText text [p1, p2] = text := by
      rw [segmentText_skip text p1 [p2] h1, segmentText_skip text p2 [] h2]
      rfl
    refine ⟨hseg, ?_⟩
    unfold extractIngredients
    rw [hp, hseg]

theorem anchor_segmentation_witness :
    extractIngredients
        ([] ++ js "INGREDIENTS" ++ js ": " ++ js "sugar, salt, palm oil" ++ js ". Contains milk") =
      (((splitBy isDelimiter (js "sugar, salt, palm oil")).map trim).filter
        (fun t => decide (t.length > 2))).take 20 :=
  (anchor_segmentation [] (js "INGREDIENTS") (js ": ") (js "sugar, salt, palm oil")
    (js ". Contains milk") (by decide) (by decide) (by decide) (by decide) (by decide)
    (by decide) (by decide)).1

end ReadLabel
